import Mathlib

/-!
# oldBank file library: the Directory Service and the Navigation Client

A shallow embedding of the Express routes of `server.js` (and of the
serverless handlers under `api/`, which run the same steps with
`process.cwd()` in the place of `__dirname`) and of the page script
`script.js`.

* Paths, names and file text are well-formed strings, written as lists of
  characters (`Str`); a request content is any JavaScript string, written as
  its UTF-16 code units (`JsString`), in which a surrogate may stand alone.
* `path.join`, `path.normalize` and `path.extname` are the POSIX versions of
  Node's `path` module, written on path segments.
* The filesystem is an association list from absolute segment paths to nodes;
  the order of the list is the order in which `readdir` reports entries.
* A route takes the project directory (`__dirname`), the filesystem and the
  request fields, and returns the response together with the filesystem it
  leaves behind.
* The client is the global `AppState` with the parts of the page its functions
  read back; each function of `script.js` is a function on that state, given
  the answers of the network.
-/

namespace OldBank

/-- A well-formed JavaScript string (one in which every surrogate is paired),
as its sequence of characters. -/
abbrev Str := List Char

/-! ## Node's `path` module (POSIX) -/

/-- Splits a string at every `/`; `"a//b"` gives `["a", "", "b"]`. -/
def splitSlash : Str → List Str
  | [] => [[]]
  | c :: cs =>
    if c = '/' then [] :: splitSlash cs
    else
      match splitSlash cs with
      | [] => [[c]]
      | s :: ss => (c :: s) :: ss

/-- Joins segments with `/` between them. -/
def joinSlash : List Str → Str
  | [] => []
  | [s] => s
  | s :: t :: ss => s ++ '/' :: joinSlash (t :: ss)

/-- One segment of Node's `normalizeString`; `res` is the result so far, last
segment first. Empty segments and `.` are dropped; `..` removes the last
segment kept, unless there is none or it is itself `..`, in which case `..` is
kept when `allowAboveRoot` and dropped otherwise. -/
def normalizeStep (allowAboveRoot : Bool) (res : List Str) (seg : Str) : List Str :=
  if seg = [] ∨ seg = ['.'] then res
  else if seg = ['.', '.'] then
    match res with
    | [] => if allowAboveRoot then [seg] else []
    | top :: rest =>
      if top = ['.', '.'] then (if allowAboveRoot then seg :: res else res)
      else rest
  else seg :: res

/-- Node's `normalizeString(path, allowAboveRoot, "/")`, as the list of
segments that are kept. -/
def normalizeString (path : Str) (allowAboveRoot : Bool) : List Str :=
  ((splitSlash path).foldl (normalizeStep allowAboveRoot) []).reverse

/-- Node's `path.posix.normalize`: a leading `/` and a trailing `/` are
kept, the segments between are normalised. -/
def normalize (path : Str) : Str :=
  if path = [] then ['.']
  else
    let isAbsolute := path.head? = some '/'
    let trailingSeparator := path.getLast? = some '/'
    let res := joinSlash (normalizeString path (!isAbsolute))
    if res = [] then
      if isAbsolute then ['/'] else if trailingSeparator then ['.', '/'] else ['.']
    else
      let res := if trailingSeparator then res ++ ['/'] else res
      if isAbsolute then '/' :: res else res

/-- Node's `path.posix.join` of two arguments: the non-empty arguments are
joined with `/` and the result is normalised. -/
def join (a b : Str) : Str :=
  if a = [] then (if b = [] then ['.'] else normalize b)
  else if b = [] then normalize a
  else normalize (a ++ '/' :: b)

/-- The last path component that `path.extname` looks at: trailing slashes
are skipped, then everything back to the previous slash is taken. -/
def lastComponent (path : Str) : Option Str :=
  ((splitSlash path).filter (fun s => s ≠ [])).getLast?

/-- Node's `path.posix.extname`: from the last `.` of the last component to
its end; empty when there is no `.`, when the `.` is the first character of the
component, or when the component is `..`. -/
def extname (path : Str) : Str :=
  match lastComponent path with
  | none => []
  | some base =>
    let r := base.reverse
    match r.dropWhile (fun c => c ≠ '.') with
    | [] => []
    | [_] => []
    | _ :: _ :: _ =>
      if base = ['.', '.'] then []
      else '.' :: (r.takeWhile (fun c => c ≠ '.')).reverse

/-- JavaScript's `toLowerCase`, on the ASCII letters. The only character
outside ASCII that JavaScript lower-cases to an ASCII letter is U+212A (to
`k`), and no extension compared below contains a `k`. -/
def toLowerCase (s : Str) : Str := s.map Char.toLower

/-- JavaScript's `String.prototype.startsWith`. -/
def startsWith (s pre : Str) : Bool := pre.isPrefixOf s

/-- The value of `x || d` for an optional string: `d` when `x` is
`undefined` or the empty string. -/
def orDefault (x : Option Str) (d : Str) : Str :=
  match x with
  | none => d
  | some [] => d
  | some s => s

/-! ## The filesystem -/

/-- What `fs.stat` can find at a path: a regular file with its text, a
directory, or something that is neither (`isFile()` and `isDirectory()` both
false). -/
inductive Node where
  | file (content : Str)
  | dir
  | other
  deriving DecidableEq, Repr

/-- The result of `isDirectory()`. -/
def Node.isDirectory : Node → Bool
  | .dir => true
  | _ => false

/-- The result of `isFile()`. -/
def Node.isFile : Node → Bool
  | .file _ => true
  | _ => false

/-- A filesystem: every node with its absolute path as a list of segments,
in directory-read order. -/
abbrev FS := List (List Str × Node)

/-- The node stored under a segment path, the first one in the list. -/
def lookup : FS → List Str → Option Node
  | [], _ => none
  | (k, n) :: rest, q => if k = q then some n else lookup rest q

/-- The segments of an absolute path string, as the operating system reads
it: empty segments (doubled or trailing slashes) do not count. The routes pass
only results of `join`, in which `.` and `..` have been resolved already. -/
def pathKey (p : Str) : List Str := (splitSlash p).filter (fun s => s ≠ [])

/-- Whether the string ends in a slash. -/
def trailingSlash (p : Str) : Bool := p.getLast? = some '/'

/-- The call `fs.stat(p).catch(() => null)`: a path ending in a slash
resolves only to a directory. -/
def stat (fs : FS) (p : Str) : Option Node :=
  match lookup fs (pathKey p) with
  | none => none
  | some .dir => some .dir
  | some n => if trailingSlash p then none else some n

/-- The name of `k` as an entry of the directory `parent`, when `k` lies
directly in it. -/
def childName (parent k : List Str) : Option Str :=
  if k.dropLast = parent then k.getLast? else none

/-- The entries `fs.readdir(p, withFileTypes)` yields: the name and node of
everything directly inside the directory, in directory-read order; `none`
(the call throws) when `p` is not a directory. -/
def readdir (fs : FS) (p : Str) : Option (List (Str × Node)) :=
  match lookup fs (pathKey p) with
  | some .dir => some (fs.filterMap (fun e => (childName (pathKey p) e.1).map (fun nm => (nm, e.2))))
  | _ => none

/-- The call `fs.readFile(p, "utf-8")`: the text of a regular file, `none`
(the call throws) otherwise. -/
def readFile (fs : FS) (p : Str) : Option Str :=
  match stat fs p with
  | some (.file c) => some c
  | _ => none

/-- Replaces the node stored under `k` wherever `k` occurs. -/
def setNode (fs : FS) (k : List Str) (n : Node) : FS :=
  fs.map (fun e => if e.1 = k then (e.1, n) else e)

/-- The call `fs.writeFile(p, content, "utf-8")` for a well-formed `content`:
an existing regular file gets the new text; a missing file is created when its
parent is a directory; the call throws (`none`) on a directory, on a path
ending in a slash and when the parent is missing. Writing to a node that is
neither file nor directory leaves the tree as it is. The call on an arbitrary
JavaScript string is `writeFileUtf8`. -/
def writeFile (fs : FS) (p : Str) (content : Str) : Option FS :=
  if trailingSlash p then none
  else
    match lookup fs (pathKey p) with
    | some (.file _) => some (setNode fs (pathKey p) (.file content))
    | some .dir => none
    | some .other => some fs
    | none =>
      match lookup fs (pathKey p).dropLast with
      | some .dir => if pathKey p = [] then none else some (fs ++ [(pathKey p, .file content)])
      | _ => none

/-- The call `fs.unlink(p)`: removes a node that is not a directory; throws
(`none`) on a directory and on a missing path. -/
def unlink (fs : FS) (p : Str) : Option FS :=
  match stat fs p with
  | none => none
  | some .dir => none
  | some _ => some (fs.filter (fun e => e.1 ≠ pathKey p))

/-- The call `fs.rm(p, recursive, force)`: removes the node at `p` and
everything beneath it; a missing path is no error. -/
def rm (fs : FS) (p : Str) : FS :=
  fs.filter (fun e => !(pathKey p).isPrefixOf e.1)

/-- Creates the directories named by the given segment paths, in order, where
nothing exists yet; throws (`none`) when one of them exists and is not a
directory. -/
def mkdirAll (fs : FS) : List (List Str) → Option FS
  | [] => some fs
  | k :: ks =>
    match lookup fs k with
    | some .dir => mkdirAll fs ks
    | some _ => none
    | none => if k = [] then mkdirAll fs ks else mkdirAll (fs ++ [(k, .dir)]) ks

/-- The call `fs.mkdir(p, recursive)`: the directory and every missing
ancestor are created. -/
def mkdir (fs : FS) (p : Str) : Option FS :=
  mkdirAll fs (pathKey p).inits

/-! ## `Array.prototype.sort` without a comparator -/

/-- The UTF-16 code units of a character. -/
def utf16Units (c : Char) : List Nat :=
  if c.toNat < 0x10000 then [c.toNat]
  else [0xD800 + (c.toNat - 0x10000) / 0x400, 0xDC00 + (c.toNat - 0x10000) % 0x400]

/-- The UTF-16 code units of a string: what JavaScript compares. -/
def toUtf16 (s : Str) : List Nat := s.flatMap utf16Units

/-- Lexicographic `<` on code-unit sequences: JavaScript's `<` on strings. -/
def unitsLt : List Nat → List Nat → Bool
  | [], [] => false
  | [], _ :: _ => true
  | _ :: _, [] => false
  | a :: as, b :: bs => if a < b then true else if b < a then false else unitsLt as bs

/-- The order of the default sort: `a` may stand before `b` when `b < a`
does not hold. -/
def JsLe (a b : Str) : Prop := unitsLt (toUtf16 b) (toUtf16 a) = false

instance : DecidableRel JsLe := fun a b =>
  inferInstanceAs (Decidable (unitsLt (toUtf16 b) (toUtf16 a) = false))

/-- Puts `x` into a sorted list, after the elements it does not precede. -/
def sortInsert (x : Str) : List Str → List Str
  | [] => [x]
  | y :: ys => if unitsLt (toUtf16 x) (toUtf16 y) then x :: y :: ys else y :: sortInsert x ys

/-- The call `names.sort()`: ascending by UTF-16 code units. -/
def jsSort : List Str → List Str
  | [] => []
  | x :: xs => sortInsert x (jsSort xs)

/-! ## JavaScript strings and the `"utf-8"` encoding -/

/-- A JavaScript string as the language has it: a sequence of UTF-16 code
units, each below `0x10000`, in which a surrogate need not be paired. -/
abbrev JsString := List Nat

/-- A lead (high) surrogate code unit. -/
def isLead (u : Nat) : Bool := decide (0xD800 ≤ u) && decide (u ≤ 0xDBFF)

/-- A trail (low) surrogate code unit. -/
def isTrail (u : Nat) : Bool := decide (0xDC00 ≤ u) && decide (u ≤ 0xDFFF)

/-- The character Node's UTF-8 encoder writes for a code unit that is not part
of a surrogate pair: the unit itself, and U+FFFD for a surrogate. -/
def scalar (u : Nat) : Char :=
  if isLead u || isTrail u then Char.ofNat 0xFFFD else Char.ofNat u

/-- The text of the bytes that `Buffer.from(s, "utf-8")` produces, which is
what `fs.writeFile(p, s, "utf-8")` stores: a lead surrogate followed by a trail
surrogate is one character above U+FFFF, every other surrogate is replaced by
U+FFFD, every other unit is the character with that code. -/
def utf8Text : JsString → Str
  | [] => []
  | [u] => [scalar u]
  | u :: v :: rest =>
    if isLead u && isTrail v then
      Char.ofNat (0x10000 + (u - 0xD800) * 0x400 + (v - 0xDC00)) :: utf8Text rest
    else scalar u :: utf8Text (v :: rest)

/-- The method `String.prototype.isWellFormed`: every lead surrogate is
followed by a trail surrogate and every trail surrogate follows a lead one. -/
def isWellFormed : JsString → Bool
  | [] => true
  | [u] => !(isLead u || isTrail u) && decide (u < 0x10000)
  | u :: v :: rest =>
    if isLead u && isTrail v then isWellFormed rest
    else !(isLead u || isTrail u) && decide (u < 0x10000) && isWellFormed (v :: rest)

/-- The call `fs.writeFile(p, content, "utf-8")` on any JavaScript string: the
file gets the UTF-8 encoding of the string, whose text is `utf8Text content`. -/
def writeFileUtf8 (fs : FS) (p : Str) (content : JsString) : Option FS :=
  writeFile fs p (utf8Text content)

/-! ## Responses -/

/-- One element of the `folders` array of the folders route. -/
structure FolderEntry where
  name : Str
  path : Str
  deriving DecidableEq, Repr

/-- The JSON bodies the routes send. -/
inductive Body where
  /-- The body with the single field `error`. -/
  | error (error : String)
  /-- The body of a 500: `error` and the `message` of what was thrown. -/
  | failure (error : String)
  /-- The body with `folders` and `files`. -/
  | listing (folders files : List Str)
  /-- The body with `content: null`, `type: "binary"` and `path`. -/
  | binary (path : Str)
  /-- The body with `content` and `type`. -/
  | content (content : Str) (type : String)
  /-- The body with `success: true`, `message` and `path`. -/
  | success (message : String) (path : Str)
  /-- The body of a stored upload: `success: true`, `message`, `path`,
  `filename` and `size`. -/
  | uploaded (message : String) (path filename : Str) (size : Nat)
  /-- The error page of Express's final handler, which is not JSON. -/
  | errorPage
  /-- The body with the single field `folders`, a list of name and path. -/
  | folderList (folders : List FolderEntry)
  deriving DecidableEq, Repr

/-- An HTTP response: status code and JSON body. -/
structure Response where
  status : Nat
  body : Body
  deriving DecidableEq, Repr

/-- The `content` field of a text answer as the JavaScript string the client
parses out of the body: the code units of the text read from the file. -/
def Response.contentUnits (r : Response) : Option JsString :=
  match r.body with
  | .content content _ => some (toUtf16 content)
  | _ => none

/-- The directory name every route defaults to and Delete protects. -/
def LibraryFolder : Str := "LibraryFolder".toList

/-! ## The routes of `server.js` -/

/-- The loop of the list route: directory names are pushed to `folders`, all
other names to `files`, in the order read. -/
def separate (items : List (Str × Node)) : List Str × List Str :=
  items.foldl
    (fun acc item =>
      if item.2.isDirectory then (acc.1 ++ [item.1], acc.2) else (acc.1, acc.2 ++ [item.1]))
    ([], [])

/-- The route `GET /api/list`. -/
def listRoute (dirname : Str) (fs : FS) (queryPath : Option Str) : Response × FS :=
  let dirPath := orDefault queryPath LibraryFolder
  let fullPath := join dirname dirPath
  if !startsWith fullPath dirname then (⟨403, .error "Access denied"⟩, fs)
  else
    match stat fs fullPath with
    | some .dir =>
      match readdir fs fullPath with
      | none => (⟨500, .failure "Failed to list directory"⟩, fs)
      | some items =>
        let parts := separate items
        (⟨200, .listing (jsSort parts.1) (jsSort parts.2)⟩, fs)
    | _ => (⟨404, .error "Directory not found"⟩, fs)

/-- The extensions the read route answers without reading the file. -/
def binaryExtensions : List Str :=
  [".pdf".toList, ".jpg".toList, ".jpeg".toList, ".png".toList, ".gif".toList,
   ".mp4".toList, ".mp3".toList]

/-- The route `GET /api/file`. -/
def fileRoute (dirname : Str) (fs : FS) (queryPath : Option Str) : Response × FS :=
  match queryPath with
  | none => (⟨400, .error "File path required"⟩, fs)
  | some [] => (⟨400, .error "File path required"⟩, fs)
  | some filePath =>
    let fullPath := join dirname filePath
    if !startsWith fullPath dirname then (⟨403, .error "Access denied"⟩, fs)
    else
      match stat fs fullPath with
      | some (.file _) =>
        let fileExtension := toLowerCase (extname filePath)
        if fileExtension ∈ binaryExtensions then (⟨200, .binary filePath⟩, fs)
        else
          match readFile fs fullPath with
          | none => (⟨500, .failure "Failed to read file"⟩, fs)
          | some content =>
            (⟨200, .content content (if fileExtension = ".md".toList then "markdown" else "text")⟩, fs)
      | _ => (⟨404, .error "File not found"⟩, fs)

/-- The extensions the edit route accepts. -/
def editableExtensions : List Str :=
  [".txt".toList, ".md".toList, ".json".toList, ".js".toList, ".css".toList,
   ".html".toList, ".xml".toList]

/-- The route `POST /api/edit` for a well-formed `content`; `content` is `none`
when the body has no `content` field. The route on any JavaScript string is
`editRouteUtf16`. -/
def editRoute (dirname : Str) (fs : FS) (path content : Option Str) : Response × FS :=
  match path with
  | none => (⟨400, .error "File path required"⟩, fs)
  | some [] => (⟨400, .error "File path required"⟩, fs)
  | some filePath =>
    match content with
    | none => (⟨400, .error "File content required"⟩, fs)
    | some content =>
      let fullPath := join dirname filePath
      if !startsWith fullPath dirname then (⟨403, .error "Access denied"⟩, fs)
      else
        match stat fs fullPath with
        | some (.file _) =>
          let fileExtension := toLowerCase (extname filePath)
          if fileExtension ∉ editableExtensions then
            (⟨400, .error "File type is not editable"⟩, fs)
          else
            match writeFile fs fullPath content with
            | none => (⟨500, .failure "Failed to edit file"⟩, fs)
            | some fs1 => (⟨200, .success "File updated successfully" filePath⟩, fs1)
        | _ => (⟨404, .error "File not found"⟩, fs)

/-- The route `POST /api/edit` on the body as `express.json()` parses it: the
`content` field is any JavaScript string, unpaired surrogates included, and is
handed to `fs.writeFile` as it is; `none` when the body has no `content`
field. -/
def editRouteUtf16 (dirname : Str) (fs : FS) (path : Option Str)
    (content : Option JsString) : Response × FS :=
  match path with
  | none => (⟨400, .error "File path required"⟩, fs)
  | some [] => (⟨400, .error "File path required"⟩, fs)
  | some filePath =>
    match content with
    | none => (⟨400, .error "File content required"⟩, fs)
    | some content =>
      let fullPath := join dirname filePath
      if !startsWith fullPath dirname then (⟨403, .error "Access denied"⟩, fs)
      else
        match stat fs fullPath with
        | some (.file _) =>
          let fileExtension := toLowerCase (extname filePath)
          if fileExtension ∉ editableExtensions then
            (⟨400, .error "File type is not editable"⟩, fs)
          else
            match writeFileUtf8 fs fullPath content with
            | none => (⟨500, .failure "Failed to edit file"⟩, fs)
            | some fs1 => (⟨200, .success "File updated successfully" filePath⟩, fs1)
        | _ => (⟨404, .error "File not found"⟩, fs)

/-- The route `POST /api/delete`. -/
def deleteRoute (dirname : Str) (fs : FS) (path : Option Str) : Response × FS :=
  match path with
  | none => (⟨400, .error "Path required"⟩, fs)
  | some [] => (⟨400, .error "Path required"⟩, fs)
  | some itemPath =>
    let fullPath := join dirname itemPath
    if !startsWith fullPath dirname then (⟨403, .error "Access denied"⟩, fs)
    else if fullPath = join dirname LibraryFolder then
      (⟨403, .error "Cannot delete LibraryFolder root"⟩, fs)
    else
      match stat fs fullPath with
      | none => (⟨404, .error "File or folder not found"⟩, fs)
      | some stats =>
        if stats.isFile then
          match unlink fs fullPath with
          | none => (⟨500, .failure "Failed to delete item"⟩, fs)
          | some fs1 => (⟨200, .success "Item deleted successfully" itemPath⟩, fs1)
        else if stats.isDirectory then
          (⟨200, .success "Item deleted successfully" itemPath⟩, rm fs fullPath)
        else (⟨200, .success "Item deleted successfully" itemPath⟩, fs)

/-! ## The upload route -/

/-- What the upload middleware passes to `next`: a plain `Error` (from the
destination callback or a filesystem call) or a `MulterError` with its code. -/
inductive UploadError where
  | plain (message : String)
  | multer (code : String)
  deriving DecidableEq, Repr

/-- The file part of a multipart upload: its name, its text and its size in
bytes. -/
structure UploadedFile where
  originalname : Str
  content : Str
  size : Nat
  deriving DecidableEq, Repr

/-- The `limits.fileSize` given to multer. -/
def fileSizeLimit : Nat := 50 * 1024 * 1024

/-- The `destination` callback of the disk storage; `bodyPath` is
`req.body.path` at the moment multer calls it, which holds the form's `path`
field only when that field came before the file part. The result is the target
directory and the filesystem after `mkdir`, or the error handed to `cb`. -/
def destination (dirname : Str) (fs : FS) (bodyPath : Option Str) :
    Except UploadError (Str × FS) :=
  let uploadPath := orDefault bodyPath LibraryFolder
  let fullPath := join dirname uploadPath
  if !startsWith fullPath dirname then .error (.plain "Access denied: Invalid path")
  else
    match mkdir fs fullPath with
    | none => .error (.plain "mkdir failed")
    | some fs1 => .ok (fullPath, fs1)

/-- The error-handling middleware of `server.js`: a `MulterError` becomes a
400; anything else goes to `next(error)`, where Express's final handler
answers 500 with its error page. -/
def errorMiddleware : UploadError → Response
  | .multer code =>
    if code = "LIMIT_FILE_SIZE" then ⟨400, .error "File too large. Maximum size is 50MB."⟩
    else ⟨400, .failure "Upload error"⟩
  | .plain _ => ⟨500, .errorPage⟩

/-- The route `POST /api/upload` behind `upload.single("file")`. `destPath` is
`req.body.path` as the destination callback reads it and `bodyPath` is
`req.body.path` as the handler reads it, after the whole form has been parsed.
Without a file part the handler answers 400; with one, multer asks
`destination` for the directory, stores the file there under its original name
unless it is over the size limit, and the handler reports the stored file. -/
def uploadRoute (dirname : Str) (fs : FS) (destPath bodyPath : Option Str)
    (file : Option UploadedFile) : Response × FS :=
  match file with
  | none => (⟨400, .error "No file uploaded"⟩, fs)
  | some f =>
    match destination dirname fs destPath with
    | .error e => (errorMiddleware e, fs)
    | .ok (dest, fs1) =>
      if fileSizeLimit < f.size then (errorMiddleware (.multer "LIMIT_FILE_SIZE"), fs1)
      else
        match writeFile fs1 (join dest f.originalname) f.content with
        | none => (errorMiddleware (.plain "write failed"), fs1)
        | some fs2 =>
          (⟨200, .uploaded "File uploaded successfully"
              (join (orDefault bodyPath LibraryFolder) f.originalname) f.originalname f.size⟩, fs2)

/-! ## The folders route -/

/-- How a run of `getFolders` ends: with the entries it pushed, with a
rejected `readdir`, or (in this model only) with its recursion budget used
up. -/
inductive Walk where
  | done (folders : List FolderEntry)
  | threw
  | outOfFuel
  deriving DecidableEq, Repr

/-- The body of the loop in `getFolders` for one item of the directory, with
`recurse` for the recursive call: a directory is pushed with its name and with
the path `LibraryFolder/` followed by its base path, or plain `LibraryFolder`
when the base path is `LibraryFolder`, and what the walk of its subfolders
pushes follows at once. -/
def getFoldersItem (recurse : Str → Str → Walk) (dir basePath : Str) (acc : Walk)
    (item : Str × Node) : Walk :=
  match acc with
  | .done folders =>
    if item.2.isDirectory then
      let folderPath := if basePath ≠ [] then basePath ++ '/' :: item.1 else item.1
      match recurse (join dir item.1) folderPath with
      | .done sub =>
        .done (folders ++
          ⟨item.1,
           if folderPath = LibraryFolder then LibraryFolder
           else LibraryFolder ++ '/' :: folderPath⟩ :: sub)
      | other => other
    else .done folders
  | other => other

/-- The function `getFolders(dir, basePath)` inside the folders route; the
result lists what the call pushes onto `folders`, in the order pushed. The
first argument bounds the depth of the recursion. -/
def getFolders (dirname : Str) (fs : FS) : Nat → Str → Str → Walk
  | 0, _, _ => .outOfFuel
  | fuel + 1, dir, basePath =>
    match readdir fs (join dirname dir) with
    | none => .threw
    | some items =>
      items.foldl (getFoldersItem (fun d b => getFolders dirname fs fuel d b) dir basePath)
        (.done [])

/-- The longest segment path in the filesystem: no directory lies deeper. -/
def maxDepth (fs : FS) : Nat := (fs.map (fun e => e.1.length)).foldr max 0

/-- The route `GET /api/folders`: the walk starts at `LibraryFolder` with an
empty base path. The result is `none` only when the walk of this model runs
out of its recursion budget, which is one more than the depth of the tree. -/
def foldersRoute (dirname : Str) (fs : FS) : Option (Response × FS) :=
  match getFolders dirname fs (maxDepth fs + 1) LibraryFolder [] with
  | .done folders => some (⟨200, .folderList folders⟩, fs)
  | .threw => some (⟨500, .failure "Failed to get folders"⟩, fs)
  | .outOfFuel => none

/-! ## The Navigation Client (`script.js`)

The client is the record `AppState`, the parts of the page that the functions
below write and read back, and a log of what a function asks of the outside
(requests, alerts). An `async` function is run to its end in one step; the
answer to each request it sends is given by a `Net`. -/

/-- The values of `currentView` and of the `view` field of a navigation
state. -/
inductive View where
  | home | library | upload | file
  deriving DecidableEq, Repr

/-- The values of the `type` field of a navigation state. -/
inductive Kind where
  | home | folder | file
  deriving DecidableEq, Repr

/-- The object held in `currentState` and pushed onto `navigationHistory`;
`path` is `null` in the state set at start-up. -/
structure NavState where
  type : Kind
  path : Option Str
  view : View
  deriving DecidableEq, Repr

/-- The global `AppState`. `navigationHistory` is listed oldest entry first:
`push` appends and `pop` takes the last. `currentFilePath` is the property that
`saveFile` and `deleteFile` read; the object literal does not declare it, so it
starts out `undefined`. -/
structure AppState where
  currentPath : Str
  currentView : View
  isAdmin : Bool
  navigationHistory : List NavState
  currentState : Option NavState
  originalFileContent : Option Str
  currentFilePath : Option Str
  deriving DecidableEq, Repr

/-- What the element `fileContent` shows. -/
inductive Rendering where
  | blank
  | loading
  | text (content : Str)
  | markdown (content : Str)
  | pdf (filePath : Str)
  | image (filePath : Str)
  | error (fileName message : Str)
  deriving DecidableEq, Repr

/-- What the element `fileList` shows. -/
inductive FileList where
  | blank
  | loading
  | items (files folders : List Str) (currentPath : Str)
  | noItems
  | error (message : Str)
  deriving DecidableEq, Repr

/-- The parts of the page kept in the model: the two elements above, the
value of the textarea `fileContentEdit` and whether it is shown, the admin
modal and its error line, and whether the back button is shown. -/
structure Dom where
  fileContent : Rendering
  fileContentEdit : Str
  editMode : Bool
  fileList : FileList
  adminModal : Bool
  adminError : Bool
  backBtn : Bool
  deriving DecidableEq, Repr

/-- A request the client sends with `fetch`. -/
inductive Request where
  | list (path : Str)
  | file (path : Str)
  | edit (path content : Str)
  | delete (path : Str)
  | folders
  | upload
  deriving DecidableEq, Repr

/-- Something a client function asks of the outside. -/
inductive Effect where
  | fetch (request : Request)
  | alert (message : String)
  | confirm (fileName : Str)
  deriving DecidableEq, Repr

/-- The client: state, page and the log of effects so far. -/
structure Client where
  app : AppState
  dom : Dom
  log : List Effect
  deriving DecidableEq, Repr

/-- The answers of the network: for each request the response, or the message
of the error with which `fetch` rejects. -/
abbrev Net := Request → Except Str Response

/-- The property `response.ok`. -/
def Response.ok (r : Response) : Bool := 200 ≤ r.status && r.status < 300

/-- The field `type` of a parsed JSON body. -/
def Body.dataType : Body → Option String
  | .content _ ty => some ty
  | .binary _ => some "binary"
  | _ => none

/-- The field `content` of a parsed JSON body, when it is a string. -/
def Body.dataContent : Body → Option Str
  | .content c _ => some c
  | _ => none

/-- The field `error` of a parsed JSON body. -/
def Body.dataError : Body → Option String
  | .error e => some e
  | .failure e => some e
  | _ => none

/-- The fixed admin password. -/
def ADMIN_PASSWORD : Str := "misoloveeggs".toList

/-- JavaScript's `s.replace(pat, rep)` with a string pattern: the first
occurrence of `pat` in `s` is replaced. -/
def replaceFirst (pat rep : Str) : Str → Str
  | [] => if pat = [] then rep else []
  | c :: cs =>
    if pat.isPrefixOf (c :: cs) then rep ++ (c :: cs).drop pat.length
    else c :: replaceFirst pat rep cs

/-- Splits a string at every `.`. -/
def splitDot : Str → List Str
  | [] => [[]]
  | c :: cs =>
    if c = '.' then [] :: splitDot cs
    else
      match splitDot cs with
      | [] => [[c]]
      | s :: ss => (c :: s) :: ss

/-- The expression `filePath.split("/").pop()`. -/
def fileNameOf (filePath : Str) : Str := ((splitSlash filePath).getLast?).getD []

/-- The expression `name.split(".").pop().toLowerCase()`. -/
def extensionOf (name : Str) : Str := toLowerCase (((splitDot name).getLast?).getD [])

/-- The message of the error thrown on a response that is not ok. -/
def httpErrorMessage (status : Nat) : Str := "HTTP error! status: ".toList ++ Nat.toDigits 10 status

/-- The property `textContent` of the element `fileContent`; `markdownText`
gives the text of the HTML that `displayMarkdown` builds from a source. -/
def Rendering.textContent (markdownText : Str → Str) : Rendering → Str
  | .blank => []
  | .loading => "Loading...".toList
  | .text c => c
  | .markdown c => markdownText c
  | .pdf _ => []
  | .image _ => []
  | .error fileName message =>
    "Error: Could not load file \"".toList ++ fileName ++ "\".\n\n".toList ++ message

/-- The state before any script has run: the literal `AppState`, an empty
page and an empty log. -/
def initialClient : Client :=
  { app := ⟨LibraryFolder, .home, false, [], none, none, none⟩
    dom := ⟨.blank, [], false, .blank, false, false, false⟩
    log := [] }

/-- The function `updateBackButton`. -/
def updateBackButton (c : Client) : Client :=
  { c with dom := { c.dom with backBtn := decide (0 < c.app.navigationHistory.length) } }

/-- The function `showHome`. -/
def showHome (c : Client) : Client :=
  { c with app := { c.app with currentView := .home } }

/-- The function `displayFiles`. -/
def displayFiles (files folders : List Str) (currentPath : Str) (c : Client) : Client :=
  { c with dom := { c.dom with
      fileList := if folders.length = 0 ∧ files.length = 0 then .noItems
                  else .items files folders currentPath } }

/-- The function `loadDirectory`. -/
def loadDirectory (net : Net) (path : Str) (c : Client) : Client :=
  let c1 : Client :=
    { c with dom := { c.dom with fileList := .loading }, log := c.log ++ [.fetch (.list path)] }
  match net (.list path) with
  | .error message => { c1 with dom := { c1.dom with fileList := .error message } }
  | .ok response =>
    if !response.ok then
      { c1 with dom := { c1.dom with fileList := .error (httpErrorMessage response.status) } }
    else
      match response.body with
      | .errorPage => { c1 with dom := { c1.dom with fileList := .error "Unexpected token".toList } }
      | .listing folders files => displayFiles files folders path c1
      | _ => displayFiles [] [] path c1

/-- The push that `navigateToPath` and `loadFile` start with: a copy of the
current state goes onto the history when `addToHistory` holds and there is a
current state. -/
def pushCurrent (addToHistory : Bool) (app : AppState) : AppState :=
  if addToHistory then
    match app.currentState with
    | some cur =>
      { app with navigationHistory := app.navigationHistory ++ [⟨cur.type, cur.path, cur.view⟩] }
    | none => app
  else app

/-- The function `navigateToPath(path, addToHistory)`. The call of
`updateBreadcrumb` writes only the breadcrumb element, which is not part of the
model. -/
def navigateToPath (net : Net) (path : Str) (addToHistory : Bool) (c : Client) : Client :=
  let app1 := pushCurrent addToHistory c.app
  let currentPath := if path ≠ [] then LibraryFolder ++ '/' :: path else LibraryFolder
  let app2 : AppState :=
    { app1 with currentPath := currentPath
                currentState := some ⟨.folder, some currentPath, .library⟩ }
  updateBackButton (loadDirectory net currentPath { c with app := app2 })

/-- The function `showLibrary`. -/
def showLibrary (net : Net) (c : Client) : Client :=
  navigateToPath net [] false { c with app := { c.app with currentView := .library } }

/-- The function `showAdminModal`. -/
def showAdminModal (c : Client) : Client :=
  { c with dom := { c.dom with adminModal := true, adminError := false } }

/-- The function `closeAdminModal`. -/
def closeAdminModal (c : Client) : Client :=
  { c with dom := { c.dom with adminModal := false } }

/-- The function `showUpload`. -/
def showUpload (c : Client) : Client :=
  if !c.app.isAdmin then showAdminModal c
  else { c with app := { c.app with currentView := .upload } }

/-- The function `checkAdminPassword`; `password` is the value of the
password input. -/
def checkAdminPassword (password : Str) (c : Client) : Client :=
  if password = ADMIN_PASSWORD then
    showUpload (closeAdminModal { c with app := { c.app with isAdmin := true } })
  else { c with dom := { c.dom with adminError := true } }

/-- The part of `loadFile` that follows a response that is ok: the body is
shown according to its type and the extension of the file name, and its content
is stored as the original content. `displayMarkdown` throws on a body without
content, which lands in the `catch` of `loadFile`. -/
def showLoaded (filePath fileName : Str) (data : Body) (c : Client) : Client :=
  let fileExtension := extensionOf fileName
  let stored : Client :=
    { c with app := { c.app with originalFileContent := some (orDefault data.dataContent []) } }
  if data.dataType = some "binary" ∨ fileExtension = "pdf".toList then
    { stored with dom := { stored.dom with fileContent := .pdf filePath } }
  else if fileExtension ∈ ["jpg".toList, "jpeg".toList, "png".toList, "gif".toList] then
    { stored with dom := { stored.dom with fileContent := .image filePath } }
  else if data.dataType = some "markdown" ∨ fileExtension = "md".toList then
    match data.dataContent with
    | some content => { stored with dom := { stored.dom with fileContent := .markdown content } }
    | none =>
      { c with dom := { c.dom with
          fileContent := .error fileName "Cannot read properties of undefined".toList } }
  else { stored with dom := { stored.dom with fileContent := .text (data.dataContent.getD []) } }

/-- The function `loadFile(filePath, addToHistory)`. Its writes to the
title, the buttons and the classes of the page are not part of the model. -/
def loadFile (net : Net) (filePath : Str) (addToHistory : Bool) (c : Client) : Client :=
  let app1 := pushCurrent addToHistory c.app
  let fileName := fileNameOf filePath
  let app2 : AppState := { app1 with currentState := some ⟨.file, some filePath, .file⟩ }
  let c1 : Client := updateBackButton
    { app := app2
      dom := { c.dom with fileContent := .loading, editMode := false }
      log := c.log ++ [.fetch (.file filePath)] }
  match net (.file filePath) with
  | .error message => { c1 with dom := { c1.dom with fileContent := .error fileName message } }
  | .ok response =>
    if !response.ok then
      { c1 with dom := { c1.dom with
          fileContent := .error fileName (httpErrorMessage response.status) } }
    else
      match response.body with
      | .errorPage =>
        { c1 with dom := { c1.dom with fileContent := .error fileName "Unexpected token".toList } }
      | data => showLoaded filePath fileName data c1

/-- The function `goBack`. With an empty history it goes to the library
root. Otherwise the last entry is popped: a file entry is loaded again, the
path of a folder entry has its first `LibraryFolder/` removed and is navigated
to, both without a push, and an entry of another type is only popped. On an
entry whose path is `null` the `replace` of the folder branch throws right
after the pop, and the `loadFile` of the file branch rejects before it has
changed anything. -/
def goBack (net : Net) (c : Client) : Client :=
  match c.app.navigationHistory.getLast? with
  | none => navigateToPath net [] false c
  | some previousState =>
    let c1 : Client :=
      { c with app := { c.app with navigationHistory := c.app.navigationHistory.dropLast } }
    match previousState.type, previousState.path with
    | .file, some path => updateBackButton (loadFile net path false c1)
    | .file, none => updateBackButton c1
    | .folder, some path =>
      updateBackButton (navigateToPath net (replaceFirst "LibraryFolder/".toList [] path) false c1)
    | .folder, none => c1
    | .home, _ => updateBackButton c1

/-- The function `editFile`. -/
def editFile (markdownText : Str → Str) (c : Client) : Client :=
  let original :=
    match c.app.originalFileContent with
    | none => c.dom.fileContent.textContent markdownText
    | some [] => c.dom.fileContent.textContent markdownText
    | some content => content
  { c with app := { c.app with originalFileContent := some original }
           dom := { c.dom with editMode := true, fileContentEdit := original } }

/-- The function `cancelEdit`. -/
def cancelEdit (c : Client) : Client :=
  { c with dom := { c.dom with editMode := false } }

/-- The function `saveFile`. -/
def saveFile (net : Net) (c : Client) : Client :=
  let newContent := c.dom.fileContentEdit
  match c.app.currentFilePath with
  | none => { c with log := c.log ++ [.alert "No file selected"] }
  | some [] => { c with log := c.log ++ [.alert "No file selected"] }
  | some currentFilePath =>
    let c1 : Client := { c with log := c.log ++ [.fetch (.edit currentFilePath newContent)] }
    match net (.edit currentFilePath newContent) with
    | .error message =>
      { c1 with log := c1.log ++ [.alert ("Error saving file: " ++ String.mk message)] }
    | .ok response =>
      if !response.ok then
        { c1 with log := c1.log ++
            [.alert ("Error saving file: " ++ (response.body.dataError).getD "Failed to save file")] }
      else
        cancelEdit { c1 with dom := { c1.dom with
          fileContent := if extensionOf currentFilePath = "md".toList then .markdown newContent
                         else .text newContent } }

/-- The function `deleteFile`; `confirmed` is the answer to the `confirm`
dialog. -/
def deleteFile (net : Net) (confirmed : Bool) (c : Client) : Client :=
  match c.app.currentFilePath with
  | none => { c with log := c.log ++ [.alert "No file selected"] }
  | some [] => { c with log := c.log ++ [.alert "No file selected"] }
  | some currentFilePath =>
    let c1 : Client := { c with log := c.log ++ [.confirm (fileNameOf currentFilePath)] }
    if !confirmed then c1
    else
      let c2 : Client := { c1 with log := c1.log ++ [.fetch (.delete currentFilePath)] }
      match net (.delete currentFilePath) with
      | .error message =>
        { c2 with log := c2.log ++ [.alert ("Error deleting file: " ++ String.mk message)] }
      | .ok response =>
        if !response.ok then
          { c2 with log := c2.log ++
              [.alert ("Error deleting file: " ++
                (response.body.dataError).getD "Failed to delete file")] }
        else
          let c3 : Client := { c2 with app := { c2.app with navigationHistory := [] } }
          let parentPath := orDefault (some (joinSlash (splitSlash c3.app.currentPath).dropLast))
            LibraryFolder
          updateBackButton
            (navigateToPath net (replaceFirst "LibraryFolder/".toList [] parentPath) false c3)

/-- The function `handleUpload`, as far as it touches the modelled state:
with a file selected the form is sent and, when the answer is ok and the
library is in view, the listing is loaded again. -/
def handleUpload (net : Net) (fileSelected : Bool) (c : Client) : Client :=
  if !fileSelected then c
  else
    let c1 : Client := { c with log := c.log ++ [.fetch .upload] }
    match net .upload with
    | .error _ => c1
    | .ok response =>
      if response.ok ∧ response.body ≠ .errorPage ∧ c1.app.currentView = .library then
        loadDirectory net c1.app.currentPath c1
      else c1

/-- The second `DOMContentLoaded` handler: the home view is shown, the
current state becomes the home state, the folders for the upload form are
fetched and the back button is updated. -/
def domContentLoaded (c : Client) : Client :=
  let c1 := showHome c
  updateBackButton
    { c1 with app := { c1.app with currentState := some ⟨.home, none, .home⟩ }
              log := c1.log ++ [.fetch .folders] }

/-- What can happen to the client: the page has loaded, or one of the
functions of `script.js` that read or write `AppState` is called, by a click or
from the console. The functions left out only write to the page. -/
inductive Action where
  | domContentLoaded
  | showHome
  | showLibrary (net : Net)
  | showUpload
  | showAdminModal
  | closeAdminModal
  | checkAdminPassword (password : Str)
  | navigateToPath (net : Net) (path : Str) (addToHistory : Bool)
  | loadDirectory (net : Net) (path : Str)
  | loadFile (net : Net) (filePath : Str) (addToHistory : Bool)
  | goBack (net : Net)
  | editFile (markdownText : Str → Str)
  | saveFile (net : Net)
  | cancelEdit
  | deleteFile (net : Net) (confirmed : Bool)
  | handleUpload (net : Net) (fileSelected : Bool)

/-- The effect of one action. -/
def step (c : Client) : Action → Client
  | .domContentLoaded => domContentLoaded c
  | .showHome => showHome c
  | .showLibrary net => showLibrary net c
  | .showUpload => showUpload c
  | .showAdminModal => showAdminModal c
  | .closeAdminModal => closeAdminModal c
  | .checkAdminPassword password => checkAdminPassword password c
  | .navigateToPath net path addToHistory => navigateToPath net path addToHistory c
  | .loadDirectory net path => loadDirectory net path c
  | .loadFile net filePath addToHistory => loadFile net filePath addToHistory c
  | .goBack net => goBack net c
  | .editFile markdownText => editFile markdownText c
  | .saveFile net => saveFile net c
  | .cancelEdit => cancelEdit c
  | .deleteFile net confirmed => deleteFile net confirmed c
  | .handleUpload net fileSelected => handleUpload net fileSelected c

/-- The client after a sequence of actions. -/
def run (c : Client) (actions : List Action) : Client := actions.foldl step c

/-- A network in front of the server of `server.js` with project directory
`dirname` and filesystem `fs`, for the requests that only read. -/
def serverNet (dirname : Str) (fs : FS) : Net
  | .list path => .ok (listRoute dirname fs (some path)).1
  | .file path => .ok (fileRoute dirname fs (some path)).1
  | .edit path content => .ok (editRoute dirname fs (some path) (some content)).1
  | .delete path => .ok (deleteRoute dirname fs (some path)).1
  | .folders => .error "not modelled".toList
  | .upload => .error "not modelled".toList

/-- A network on which every request is rejected. -/
def offlineNet : Net := fun _ => .error "Failed to fetch".toList

/-! ## The serverless handlers under `api/`

Each file exports one `handler(req, res)`. It sets three CORS headers,
answers an `OPTIONS` request with an empty 200, and then runs its `try` block
with `process.cwd()` as the directory to resolve against. -/

/-- What a handler sends: the headers set, the status code, and the JSON body
(`none` for `res.status(200).end()`). -/
structure ApiResponse where
  headers : List (String × String)
  status : Nat
  body : Option Body
  deriving DecidableEq, Repr

/-- The three headers every handler sets first. -/
def corsHeaders : List (String × String) :=
  [("Access-Control-Allow-Origin", "*"),
   ("Access-Control-Allow-Methods", "GET, POST, OPTIONS"),
   ("Access-Control-Allow-Headers", "Content-Type")]

/-- The handler of `api/list.js`. -/
def ApiList.handler (cwd : Str) (fs : FS) (method : String) (queryPath : Option Str) :
    ApiResponse × FS :=
  if method = "OPTIONS" then (⟨corsHeaders, 200, none⟩, fs)
  else
    let dirPath := orDefault queryPath LibraryFolder
    let fullPath := join cwd dirPath
    if !startsWith fullPath cwd then (⟨corsHeaders, 403, some (.error "Access denied")⟩, fs)
    else
      match stat fs fullPath with
      | some .dir =>
        match readdir fs fullPath with
        | none => (⟨corsHeaders, 500, some (.failure "Failed to list directory")⟩, fs)
        | some items =>
          let parts := separate items
          (⟨corsHeaders, 200, some (.listing (jsSort parts.1) (jsSort parts.2))⟩, fs)
      | _ => (⟨corsHeaders, 404, some (.error "Directory not found")⟩, fs)

/-- The handler of `api/file.js`. -/
def ApiFile.handler (cwd : Str) (fs : FS) (method : String) (queryPath : Option Str) :
    ApiResponse × FS :=
  if method = "OPTIONS" then (⟨corsHeaders, 200, none⟩, fs)
  else
    match queryPath with
    | none => (⟨corsHeaders, 400, some (.error "File path required")⟩, fs)
    | some [] => (⟨corsHeaders, 400, some (.error "File path required")⟩, fs)
    | some filePath =>
      let fullPath := join cwd filePath
      if !startsWith fullPath cwd then (⟨corsHeaders, 403, some (.error "Access denied")⟩, fs)
      else
        match stat fs fullPath with
        | some (.file _) =>
          let fileExtension := toLowerCase (extname filePath)
          if fileExtension ∈ [".pdf".toList, ".jpg".toList, ".jpeg".toList, ".png".toList,
              ".gif".toList, ".mp4".toList, ".mp3".toList] then
            (⟨corsHeaders, 200, some (.binary filePath)⟩, fs)
          else
            match readFile fs fullPath with
            | none => (⟨corsHeaders, 500, some (.failure "Failed to read file")⟩, fs)
            | some content =>
              (⟨corsHeaders, 200,
                some (.content content
                  (if fileExtension = ".md".toList then "markdown" else "text"))⟩, fs)
        | _ => (⟨corsHeaders, 404, some (.error "File not found")⟩, fs)

/-- The handler of `api/edit.js`; `content` is `none` when the body has no
`content` field. -/
def ApiEdit.handler (cwd : Str) (fs : FS) (method : String) (path content : Option Str) :
    ApiResponse × FS :=
  if method = "OPTIONS" then (⟨corsHeaders, 200, none⟩, fs)
  else if method ≠ "POST" then (⟨corsHeaders, 405, some (.error "Method not allowed")⟩, fs)
  else
    match path with
    | none => (⟨corsHeaders, 400, some (.error "File path required")⟩, fs)
    | some [] => (⟨corsHeaders, 400, some (.error "File path required")⟩, fs)
    | some filePath =>
      match content with
      | none => (⟨corsHeaders, 400, some (.error "File content required")⟩, fs)
      | some content =>
        let fullPath := join cwd filePath
        if !startsWith fullPath cwd then (⟨corsHeaders, 403, some (.error "Access denied")⟩, fs)
        else
          match stat fs fullPath with
          | some (.file _) =>
            let fileExtension := toLowerCase (extname filePath)
            if fileExtension ∉ [".txt".toList, ".md".toList, ".json".toList, ".js".toList,
                ".css".toList, ".html".toList, ".xml".toList] then
              (⟨corsHeaders, 400, some (.error "File type is not editable")⟩, fs)
            else
              match writeFile fs fullPath content with
              | none => (⟨corsHeaders, 500, some (.failure "Failed to edit file")⟩, fs)
              | some fs1 =>
                (⟨corsHeaders, 200, some (.success "File updated successfully" filePath)⟩, fs1)
          | _ => (⟨corsHeaders, 404, some (.error "File not found")⟩, fs)

/-- The handler of `api/delete.js`. -/
def ApiDelete.handler (cwd : Str) (fs : FS) (method : String) (path : Option Str) :
    ApiResponse × FS :=
  if method = "OPTIONS" then (⟨corsHeaders, 200, none⟩, fs)
  else if method ≠ "POST" then (⟨corsHeaders, 405, some (.error "Method not allowed")⟩, fs)
  else
    match path with
    | none => (⟨corsHeaders, 400, some (.error "Path required")⟩, fs)
    | some [] => (⟨corsHeaders, 400, some (.error "Path required")⟩, fs)
    | some itemPath =>
      let fullPath := join cwd itemPath
      if !startsWith fullPath cwd then (⟨corsHeaders, 403, some (.error "Access denied")⟩, fs)
      else if fullPath = join cwd LibraryFolder then
        (⟨corsHeaders, 403, some (.error "Cannot delete LibraryFolder root")⟩, fs)
      else
        match stat fs fullPath with
        | none => (⟨corsHeaders, 404, some (.error "File or folder not found")⟩, fs)
        | some stats =>
          if stats.isFile then
            match unlink fs fullPath with
            | none => (⟨corsHeaders, 500, some (.failure "Failed to delete item")⟩, fs)
            | some fs1 =>
              (⟨corsHeaders, 200, some (.success "Item deleted successfully" itemPath)⟩, fs1)
          else if stats.isDirectory then
            (⟨corsHeaders, 200, some (.success "Item deleted successfully" itemPath)⟩,
              rm fs fullPath)
          else (⟨corsHeaders, 200, some (.success "Item deleted successfully" itemPath)⟩, fs)

/-- The function `getFolders(dir, basePath)` inside the handler of
`api/folders.js`; the result lists what the call pushes onto `folders`, in the
order pushed. The first argument bounds the depth of the recursion. -/
def ApiFolders.getFolders (cwd : Str) (fs : FS) : Nat → Str → Str → Walk
  | 0, _, _ => .outOfFuel
  | fuel + 1, dir, basePath =>
    match readdir fs (join cwd dir) with
    | none => .threw
    | some items =>
      items.foldl
        (fun acc item =>
          match acc with
          | .done folders =>
            if item.2.isDirectory then
              let folderPath := if basePath ≠ [] then basePath ++ '/' :: item.1 else item.1
              match ApiFolders.getFolders cwd fs fuel (join dir item.1) folderPath with
              | .done sub =>
                .done (folders ++
                  ⟨item.1,
                   if folderPath = LibraryFolder then LibraryFolder
                   else LibraryFolder ++ '/' :: folderPath⟩ :: sub)
              | other => other
            else .done folders
          | other => other)
        (.done [])

/-- The handler of `api/folders.js`. The result is `none` only when the walk
of this model runs out of its recursion budget, which is one more than the
depth of the tree. -/
def ApiFolders.handler (cwd : Str) (fs : FS) (method : String) : Option (ApiResponse × FS) :=
  if method = "OPTIONS" then some (⟨corsHeaders, 200, none⟩, fs)
  else
    match ApiFolders.getFolders cwd fs (maxDepth fs + 1) LibraryFolder [] with
    | .done folders => some (⟨corsHeaders, 200, some (.folderList folders)⟩, fs)
    | .threw => some (⟨corsHeaders, 500, some (.failure "Failed to get folders")⟩, fs)
    | .outOfFuel => none

/-! ## Well-formed trees and the pre-order of their folders -/

/-- A name that a directory entry can have: not empty, not `.` or `..`, and
without a slash. -/
def ValidName (s : Str) : Prop := s ≠ [] ∧ s ≠ ['.'] ∧ s ≠ ['.', '.'] ∧ '/' ∉ s

instance : DecidablePred ValidName := fun s =>
  inferInstanceAs (Decidable (s ≠ [] ∧ s ≠ ['.'] ∧ s ≠ ['.', '.'] ∧ '/' ∉ s))

/-- A filesystem as the operating system keeps it: no path occurs twice,
every segment is a valid name, and everything lies in a directory (or at the
top). -/
def WellFormed (fs : FS) : Prop :=
  (fs.map Prod.fst).Nodup ∧
  (∀ e ∈ fs, ∀ s ∈ e.1, ValidName s) ∧
  (∀ e ∈ fs, e.1.dropLast = [] ∨ lookup fs e.1.dropLast = some .dir)

instance (fs : FS) : Decidable (WellFormed fs) :=
  inferInstanceAs (Decidable ((fs.map Prod.fst).Nodup ∧
    (∀ e ∈ fs, ∀ s ∈ e.1, ValidName s) ∧
    (∀ e ∈ fs, e.1.dropLast = [] ∨ lookup fs e.1.dropLast = some .dir)))

/-- An absolute directory path made of valid names, such as `__dirname`. -/
def CleanAbsolute (dirname : Str) : Prop :=
  dirname.head? = some '/' ∧ ∀ s ∈ pathKey dirname, ValidName s

instance (dirname : Str) : Decidable (CleanAbsolute dirname) :=
  inferInstanceAs (Decidable (dirname.head? = some '/' ∧ ∀ s ∈ pathKey dirname, ValidName s))

/-- The names of the directories directly inside the directory at `k`, in
directory-read order. -/
def dirChildren (fs : FS) (k : List Str) : List Str :=
  fs.filterMap (fun e => if e.2.isDirectory then childName k e.1 else none)

/-- The depth-first pre-order of the directories beneath `root ++ rel`, each
given by its segments below `root`: for every directory directly inside, in
directory-read order, the directory itself and then, at once, the pre-order of
what lies beneath it. The number bounds how many levels are descended. -/
def preorder (fs : FS) (root : List Str) : Nat → List Str → List (List Str)
  | 0, _ => []
  | depth + 1, rel =>
    (dirChildren fs (root ++ rel)).flatMap
      (fun nm => (rel ++ [nm]) :: preorder fs root depth (rel ++ [nm]))

/-- The entry the folders route gives the directory with segments `rel` below
the library root: its last segment as name, and as path `LibraryFolder/`
followed by the segments, or plain `LibraryFolder` when they spell
`LibraryFolder`. -/
def entryOf (rel : List Str) : FolderEntry :=
  ⟨(rel.getLast?).getD [],
   if joinSlash rel = LibraryFolder then LibraryFolder
   else LibraryFolder ++ '/' :: joinSlash rel⟩

/-! ## Sample data -/

/-- A project directory. -/
def projectDir : Str := "/proj".toList

/-- A project tree: `server.js` beside a `LibraryFolder` that holds the files
`b.txt`, `a.txt`, `x.exe`, `p.pdf` and the folder `Z` with one note in it. -/
def sampleFS : FS :=
  [(["proj".toList], .dir),
   (["proj".toList, "server.js".toList], .file "code".toList),
   (["proj".toList, LibraryFolder], .dir),
   (["proj".toList, LibraryFolder, "b.txt".toList], .file "B".toList),
   (["proj".toList, LibraryFolder, "a.txt".toList], .file "A".toList),
   (["proj".toList, LibraryFolder, "Z".toList], .dir),
   (["proj".toList, LibraryFolder, "Z".toList, "n.md".toList], .file "note".toList),
   (["proj".toList, LibraryFolder, "x.exe".toList], .file "MZ".toList),
   (["proj".toList, LibraryFolder, "p.pdf".toList], .file "%PDF".toList)]

/-- The library of the list scenario: the files `b.txt` and `a.txt` and the
folder `Z`, read in that order. -/
def scenarioFS : FS :=
  [(["proj".toList], .dir),
   (["proj".toList, LibraryFolder], .dir),
   (["proj".toList, LibraryFolder, "b.txt".toList], .file "B".toList),
   (["proj".toList, LibraryFolder, "a.txt".toList], .file "A".toList),
   (["proj".toList, LibraryFolder, "Z".toList], .dir)]

/-- A project whose library has just been created and is empty. -/
def emptyLibraryFS : FS :=
  [(["proj".toList], .dir), (["proj".toList, LibraryFolder], .dir)]

/-- A tree in which the project directory `/a/lib` has the sibling
`/a/lib2`. -/
def siblingFS : FS :=
  [(["a".toList], .dir),
   (["a".toList, "lib".toList], .dir),
   (["a".toList, "lib".toList, LibraryFolder], .dir),
   (["a".toList, "lib2".toList], .dir),
   (["a".toList, "lib2".toList, "x".toList], .file "secret".toList)]

/-- A library with nested folders `A/B`, a second folder `C` and a file. -/
def nestedFS : FS :=
  [(["proj".toList], .dir),
   (["proj".toList, LibraryFolder], .dir),
   (["proj".toList, LibraryFolder, "A".toList], .dir),
   (["proj".toList, LibraryFolder, "readme.md".toList], .file "hi".toList),
   (["proj".toList, LibraryFolder, "C".toList], .dir),
   (["proj".toList, LibraryFolder, "A".toList, "B".toList], .dir)]

/-- The library with nothing but the nested folders `A/B`. -/
def chainFS : FS :=
  [(["proj".toList], .dir),
   (["proj".toList, LibraryFolder], .dir),
   (["proj".toList, LibraryFolder, "A".toList], .dir),
   (["proj".toList, LibraryFolder, "A".toList, "B".toList], .dir)]

/-- A library that holds a folder which is itself named `LibraryFolder`, with
a folder `x` inside. -/
def nameClashFS : FS :=
  [(["proj".toList], .dir),
   (["proj".toList, LibraryFolder], .dir),
   (["proj".toList, LibraryFolder, LibraryFolder], .dir),
   (["proj".toList, LibraryFolder, LibraryFolder, "x".toList], .dir)]

/-- The network in front of the sample project. -/
def sampleNet : Net := serverNet projectDir sampleFS

/-- The client after the page has loaded and the library has been opened:
the listing of the root `LibraryFolder` is current and the history is empty. -/
def libraryClient : Client := run initialClient [.domContentLoaded, .showLibrary sampleNet]

/-- The client after the file `LibraryFolder/a.txt` has been opened from the
root listing. -/
def fileClient : Client := loadFile sampleNet "LibraryFolder/a.txt".toList true libraryClient

/-- The client after the folder `Z` has been opened from the root listing. -/
def folderClient : Client := navigateToPath sampleNet "Z".toList true libraryClient

/-! ## The path functions on sample inputs -/

theorem join_samples :
    join "/proj".toList "LibraryFolder/".toList = "/proj/LibraryFolder/".toList ∧
    join "/proj".toList "LibraryFolder/x/..".toList = "/proj/LibraryFolder".toList ∧
    join "/proj".toList "./LibraryFolder".toList = "/proj/LibraryFolder".toList ∧
    join "/a/lib".toList "../lib2/x".toList = "/a/lib2/x".toList ∧
    join "/a/lib".toList "../../../x".toList = "/x".toList ∧
    join "LibraryFolder".toList "Z".toList = "LibraryFolder/Z".toList ∧
    join "a".toList "../../x/".toList = "../x/".toList := by
  decide

theorem extname_samples :
    extname "a/b.txt".toList = ".txt".toList ∧
    extname "a/b.txt/.".toList = [] ∧
    extname "a/.bashrc".toList = [] ∧
    extname "a/..".toList = [] ∧
    extname "a/...".toList = ".".toList ∧
    extname "index.".toList = ".".toList ∧
    extname "a.b/c".toList = [] ∧
    toLowerCase (extname "a/x.tar.GZ//".toList) = ".gz".toList := by
  decide

/-! ## Containment: what the check refuses -/

theorem listRoute_denied (dirname : Str) (fs : FS) (P : Str) (hP : P ≠ [])
    (hout : startsWith (join dirname P) dirname = false) :
    listRoute dirname fs (some P) = (⟨403, .error "Access denied"⟩, fs) := by
  cases P with
  | nil => exact absurd rfl hP
  | cons c cs => simp [listRoute, orDefault, hout]

theorem fileRoute_denied (dirname : Str) (fs : FS) (P : Str) (hP : P ≠ [])
    (hout : startsWith (join dirname P) dirname = false) :
    fileRoute dirname fs (some P) = (⟨403, .error "Access denied"⟩, fs) := by
  cases P with
  | nil => exact absurd rfl hP
  | cons c cs => simp [fileRoute, hout]

theorem editRoute_denied (dirname : Str) (fs : FS) (P content : Str) (hP : P ≠ [])
    (hout : startsWith (join dirname P) dirname = false) :
    editRoute dirname fs (some P) (some content) = (⟨403, .error "Access denied"⟩, fs) := by
  cases P with
  | nil => exact absurd rfl hP
  | cons c cs => simp [editRoute, hout]

theorem editRoute_no_content (dirname : Str) (fs : FS) (P : Str) (hP : P ≠ []) :
    editRoute dirname fs (some P) none = (⟨400, .error "File content required"⟩, fs) := by
  cases P with
  | nil => exact absurd rfl hP
  | cons c cs => simp [editRoute]

theorem deleteRoute_denied (dirname : Str) (fs : FS) (P : Str) (hP : P ≠ [])
    (hout : startsWith (join dirname P) dirname = false) :
    deleteRoute dirname fs (some P) = (⟨403, .error "Access denied"⟩, fs) := by
  cases P with
  | nil => exact absurd rfl hP
  | cons c cs => simp [deleteRoute, hout]

theorem destination_denied (dirname : Str) (fs : FS) (P : Str) (hP : P ≠ [])
    (hout : startsWith (join dirname P) dirname = false) :
    destination dirname fs (some P) = .error (.plain "Access denied: Invalid path") := by
  cases P with
  | nil => exact absurd rfl hP
  | cons c cs => simp [destination, orDefault, hout]

/-- C1, the claim as stated fails: with the project directory `/proj`, the
paths `server.js` and `.` resolve to `/proj/server.js` and `/proj`, which are
neither `/proj/LibraryFolder` nor beneath it, and yet Read returns the text of
`server.js`, Write overwrites it, Delete removes it and List lists the project
directory, all with status 200; and a Write without a content field on the
path `../x.txt` (resolved `/x.txt`) answers 400, not 403. -/
theorem C1_outside_library_served :
    (pathKey (join projectDir LibraryFolder)).isPrefixOf
        (pathKey (join projectDir "server.js".toList)) = false ∧
    (pathKey (join projectDir LibraryFolder)).isPrefixOf
        (pathKey (join projectDir ".".toList)) = false ∧
    fileRoute projectDir sampleFS (some "server.js".toList)
      = (⟨200, .content "code".toList "text"⟩, sampleFS) ∧
    (editRoute projectDir sampleFS (some "server.js".toList) (some "x".toList)).1.status = 200 ∧
    lookup (editRoute projectDir sampleFS (some "server.js".toList) (some "x".toList)).2
        ["proj".toList, "server.js".toList] = some (.file "x".toList) ∧
    (deleteRoute projectDir sampleFS (some "server.js".toList)).1.status = 200 ∧
    lookup (deleteRoute projectDir sampleFS (some "server.js".toList)).2
        ["proj".toList, "server.js".toList] = none ∧
    (listRoute projectDir sampleFS (some ".".toList)).1
      = ⟨200, .listing [LibraryFolder] ["server.js".toList]⟩ ∧
    (pathKey (join projectDir LibraryFolder)).isPrefixOf
        (pathKey (join projectDir "../x.txt".toList)) = false ∧
    (editRoute projectDir sampleFS (some "../x.txt".toList) none).1.status = 400 := by
  decide

/-- C1, amended: the containment check is made against the project directory
(`__dirname`, the parent of `LibraryFolder`). For every non-empty request path
whose resolved form does not start with the project directory, List, Read,
Delete and a Write that carries content answer 403 "Access denied", send no
file content and leave the filesystem as it was. -/
theorem C1_outside_project_denied (dirname : Str) (fs : FS) (P content : Str) (hP : P ≠ [])
    (hout : startsWith (join dirname P) dirname = false) :
    listRoute dirname fs (some P) = (⟨403, .error "Access denied"⟩, fs) ∧
    fileRoute dirname fs (some P) = (⟨403, .error "Access denied"⟩, fs) ∧
    editRoute dirname fs (some P) (some content) = (⟨403, .error "Access denied"⟩, fs) ∧
    deleteRoute dirname fs (some P) = (⟨403, .error "Access denied"⟩, fs) :=
  ⟨listRoute_denied dirname fs P hP hout, fileRoute_denied dirname fs P hP hout,
   editRoute_denied dirname fs P content hP hout, deleteRoute_denied dirname fs P hP hout⟩

theorem C1_outside_project_denied_witness :
    "../proj2/server.js".toList ≠ [] ∧
    startsWith (join "/srv/app".toList "../proj2/server.js".toList) "/srv/app".toList = false ∧
    fileRoute "/srv/app".toList sampleFS (some "../proj2/server.js".toList)
      = (⟨403, .error "Access denied"⟩, sampleFS) :=
  ⟨by decide, by decide,
   (C1_outside_project_denied "/srv/app".toList sampleFS "../proj2/server.js".toList
      "x".toList (by decide) (by decide)).2.1⟩

/-- C2, the claim as stated fails: the path `../x.txt` resolves to `/x.txt`,
which does not start with `/proj`, and yet a Write without a content field
answers 400 "File content required", an Upload with a file part answers 500
and an Upload without one answers 400; none of them answers 403. -/
theorem C2_escaping_not_always_403 :
    startsWith (join projectDir "../x.txt".toList) projectDir = false ∧
    editRoute projectDir sampleFS (some "../x.txt".toList) none
      = (⟨400, .error "File content required"⟩, sampleFS) ∧
    uploadRoute projectDir sampleFS (some "../x.txt".toList) (some "../x.txt".toList)
        (some ⟨"f.txt".toList, "hi".toList, 2⟩)
      = (⟨500, .errorPage⟩, sampleFS) ∧
    uploadRoute projectDir sampleFS (some "../x.txt".toList) (some "../x.txt".toList) none
      = (⟨400, .error "No file uploaded"⟩, sampleFS) := by
  decide

/-- C2, amended: for every non-empty request path whose resolved form does not
start with the directory it is resolved against, no operation changes the
filesystem, whatever the other request fields are. List, Read and Delete
answer 403; Write answers 403 when the content field is present and 400 when it
is absent; the destination callback of Upload, when it reads this path, fails
with "Access denied: Invalid path" before any directory is made, and the upload
ends with 500 when a file part was sent and with 400 when none was. -/
theorem C2_escaping_path_no_mutation (dirname : Str) (fs : FS) (P : Str)
    (content bodyPath : Option Str) (file : Option UploadedFile) (hP : P ≠ [])
    (hout : startsWith (join dirname P) dirname = false) :
    listRoute dirname fs (some P) = (⟨403, .error "Access denied"⟩, fs) ∧
    fileRoute dirname fs (some P) = (⟨403, .error "Access denied"⟩, fs) ∧
    deleteRoute dirname fs (some P) = (⟨403, .error "Access denied"⟩, fs) ∧
    editRoute dirname fs (some P) content
      = (if content.isSome then ⟨403, .error "Access denied"⟩
         else ⟨400, .error "File content required"⟩, fs) ∧
    destination dirname fs (some P) = .error (.plain "Access denied: Invalid path") ∧
    uploadRoute dirname fs (some P) bodyPath file
      = (if file.isSome then ⟨500, .errorPage⟩ else ⟨400, .error "No file uploaded"⟩, fs) := by
  refine ⟨listRoute_denied dirname fs P hP hout, fileRoute_denied dirname fs P hP hout,
    deleteRoute_denied dirname fs P hP hout, ?_, destination_denied dirname fs P hP hout, ?_⟩
  · cases content with
    | none => simpa using editRoute_no_content dirname fs P hP
    | some c => simpa using editRoute_denied dirname fs P c hP hout
  · cases file with
    | none => simp [uploadRoute]
    | some f => simp [uploadRoute, destination_denied dirname fs P hP hout, errorMiddleware]

theorem C2_escaping_path_no_mutation_witness :
    "../../etc/passwd".toList ≠ [] ∧
    startsWith (join projectDir "../../etc/passwd".toList) projectDir = false ∧
    deleteRoute projectDir sampleFS (some "../../etc/passwd".toList)
      = (⟨403, .error "Access denied"⟩, sampleFS) :=
  ⟨by decide, by decide,
   (C2_escaping_path_no_mutation projectDir sampleFS "../../etc/passwd".toList
      (some "x".toList) none none (by decide) (by decide)).2.2.1⟩

/-- C3, the check at a failing input: with the project directory `/a/lib` the
request path `../lib2/x` resolves to `/a/lib2/x`; the containment check passes
because the string `/a/lib2/x` starts with `/a/lib`, although `/a/lib2/x` is
neither `/a/lib` nor beneath it on segment boundaries. Read then sends the
text of the sibling's file and Delete removes it. -/
theorem C3_sibling_passes_check :
    join "/a/lib".toList "../lib2/x".toList = "/a/lib2/x".toList ∧
    startsWith (join "/a/lib".toList "../lib2/x".toList) "/a/lib".toList = true ∧
    (pathKey "/a/lib".toList).isPrefixOf
        (pathKey (join "/a/lib".toList "../lib2/x".toList)) = false ∧
    fileRoute "/a/lib".toList siblingFS (some "../lib2/x".toList)
      = (⟨200, .content "secret".toList "text"⟩, siblingFS) ∧
    (deleteRoute "/a/lib".toList siblingFS (some "../lib2/x".toList)).1.status = 200 ∧
    lookup (deleteRoute "/a/lib".toList siblingFS (some "../lib2/x".toList)).2
        ["a".toList, "lib2".toList, "x".toList] = none := by
  decide

/-- C4, Delete at a failing input: the path `LibraryFolder/` resolves to
`/proj/LibraryFolder/`, the same directory as `/proj/LibraryFolder`, but the
two strings differ, so the guard against deleting the root is passed over:
Delete answers 200 and removes `LibraryFolder` with everything in it. When the
directory does not exist the answer is 404. The spellings without a trailing
slash are refused with 403. -/
theorem C4_trailing_slash_deletes_root :
    pathKey (join projectDir "LibraryFolder/".toList) = pathKey (join projectDir LibraryFolder) ∧
    deleteRoute projectDir sampleFS (some "LibraryFolder/".toList)
      = (⟨200, .success "Item deleted successfully" "LibraryFolder/".toList⟩,
         [(["proj".toList], .dir), (["proj".toList, "server.js".toList], .file "code".toList)]) ∧
    deleteRoute projectDir [(["proj".toList], .dir)] (some "LibraryFolder/".toList)
      = (⟨404, .error "File or folder not found"⟩, [(["proj".toList], .dir)]) ∧
    deleteRoute projectDir sampleFS (some "LibraryFolder".toList)
      = (⟨403, .error "Cannot delete LibraryFolder root"⟩, sampleFS) ∧
    deleteRoute projectDir sampleFS (some "./LibraryFolder".toList)
      = (⟨403, .error "Cannot delete LibraryFolder root"⟩, sampleFS) ∧
    deleteRoute projectDir sampleFS (some "LibraryFolder/x/..".toList)
      = (⟨403, .error "Cannot delete LibraryFolder root"⟩, sampleFS) :=
  ⟨by decide, by decide, by decide, by decide, by decide, by decide⟩

/-! ## Filesystem lemmas -/

theorem lookup_filter_key (f : List Str → Bool) (fs : FS) (q : List Str) :
    lookup (fs.filter (fun e => f e.1)) q = if f q then lookup fs q else none := by
  induction fs with
  | nil => simp [lookup]
  | cons e rest ih =>
    obtain ⟨k, n⟩ := e
    by_cases hk : f k = true
    · by_cases hkq : k = q
      · subst hkq; simp [List.filter, hk, lookup]
      · simp [List.filter, hk, lookup, hkq, ih]
    · by_cases hkq : k = q
      · subst hkq; simp [List.filter, hk, lookup, ih]
      · simp [List.filter, hk, lookup, hkq, ih]

theorem lookup_cons (k : List Str) (n : Node) (rest : FS) (q : List Str) :
    lookup ((k, n) :: rest) q = if k = q then some n else lookup rest q := rfl

theorem setNode_cons (k1 : List Str) (n1 : Node) (rest : FS) (k : List Str) (n : Node) :
    setNode ((k1, n1) :: rest) k n
      = (if k1 = k then (k1, n) else (k1, n1)) :: setNode rest k n := rfl

theorem lookup_setNode (fs : FS) (k q : List Str) (n : Node) :
    lookup (setNode fs k n) q
      = if q = k then (lookup fs k).map (fun _ => n) else lookup fs q := by
  induction fs with
  | nil => simp [setNode, lookup]
  | cons e rest ih =>
    obtain ⟨k1, n1⟩ := e
    rw [setNode_cons]
    by_cases h1 : k1 = k
    · rw [if_pos h1, lookup_cons, lookup_cons, lookup_cons, ih]
      subst h1
      by_cases h2 : k1 = q
      · subst h2; simp
      · have h3 : ¬ q = k1 := fun h => h2 h.symm
        simp [h2, h3]
    · rw [if_neg h1, lookup_cons, lookup_cons, lookup_cons, ih]
      by_cases h2 : k1 = q
      · subst h2; simp [h1]
      · simp [h1, h2]

theorem stat_file (fs : FS) (p c : Str) (h : stat fs p = some (.file c)) :
    lookup fs (pathKey p) = some (.file c) ∧ trailingSlash p = false := by
  unfold stat at h
  cases hl : lookup fs (pathKey p) with
  | none => simp [hl] at h
  | some n =>
    cases n with
    | dir => simp [hl] at h
    | other =>
      simp only [hl] at h
      split at h <;> simp at h
    | file c1 =>
      simp only [hl] at h
      split at h
      · simp at h
      · rename_i ht
        simp at h
        subst h
        exact ⟨rfl, by simpa using ht⟩

theorem stat_of_lookup_file (fs : FS) (p c : Str) (h : lookup fs (pathKey p) = some (.file c))
    (ht : trailingSlash p = false) : stat fs p = some (.file c) := by
  simp [stat, h, ht]

theorem writeFile_file (fs : FS) (p c0 c : Str) (h : stat fs p = some (.file c0)) :
    writeFile fs p c = some (setNode fs (pathKey p) (.file c)) := by
  obtain ⟨hl, ht⟩ := stat_file fs p c0 h
  simp [writeFile, hl, ht]

theorem stat_after_write (fs : FS) (p c0 c : Str) (h : stat fs p = some (.file c0)) :
    stat (setNode fs (pathKey p) (.file c)) p = some (.file c) := by
  obtain ⟨hl, ht⟩ := stat_file fs p c0 h
  apply stat_of_lookup_file _ _ _ _ ht
  rw [lookup_setNode]
  simp [hl]

theorem editable_not_binary : ∀ e ∈ editableExtensions, e ∉ binaryExtensions := by
  decide

/-- What the edit route does once the request has both fields, passes the
containment check and names a regular file. -/
theorem editRoute_on_file (dirname : Str) (fs : FS) (P c c0 : Str) (hP : P ≠ [])
    (hin : startsWith (join dirname P) dirname = true)
    (hfile : stat fs (join dirname P) = some (.file c0)) :
    editRoute dirname fs (some P) (some c)
      = if toLowerCase (extname P) ∈ editableExtensions then
          (⟨200, .success "File updated successfully" P⟩,
            setNode fs (pathKey (join dirname P)) (.file c))
        else (⟨400, .error "File type is not editable"⟩, fs) := by
  cases P with
  | nil => exact absurd rfl hP
  | cons a as =>
    simp only [editRoute, hin, hfile, writeFile_file fs _ c0 c hfile]
    by_cases he : toLowerCase (extname (a :: as)) ∈ editableExtensions
    · simp [he]
    · simp [he]

/-- What the read route does once the request passes the containment check
and names a regular file. -/
theorem fileRoute_on_file (dirname : Str) (fs : FS) (P c : Str) (hP : P ≠ [])
    (hin : startsWith (join dirname P) dirname = true)
    (hfile : stat fs (join dirname P) = some (.file c)) :
    fileRoute dirname fs (some P)
      = if toLowerCase (extname P) ∈ binaryExtensions then (⟨200, .binary P⟩, fs)
        else (⟨200, .content c
                (if toLowerCase (extname P) = ".md".toList then "markdown" else "text")⟩, fs) := by
  cases P with
  | nil => exact absurd rfl hP
  | cons a as =>
    simp only [fileRoute, hin, hfile, readFile]
    by_cases he : toLowerCase (extname (a :: as)) ∈ binaryExtensions
    · simp [he]
    · simp [he]

/-! ## UTF-16 code units and UTF-8 text -/

theorem toNat_ofNat (n : Nat) (h : n.isValidChar) : (Char.ofNat n).toNat = n := by
  rw [Char.ofNat, dif_pos h]
  rfl

theorem char_valid (c : Char) :
    c.toNat < 0xD800 ∨ (0xDFFF < c.toNat ∧ c.toNat < 0x110000) := c.valid

theorem isLead_iff (u : Nat) : isLead u = true ↔ 0xD800 ≤ u ∧ u ≤ 0xDBFF := by
  simp [isLead]

theorem isTrail_iff (u : Nat) : isTrail u = true ↔ 0xDC00 ≤ u ∧ u ≤ 0xDFFF := by
  simp [isTrail]

theorem scalar_of_plain (u : Nat) (h : u < 0xD800 ∨ 0xDFFF < u) : scalar u = Char.ofNat u := by
  have h1 : isLead u = false := by
    rw [Bool.eq_false_iff, Ne, isLead_iff]; omega
  have h2 : isTrail u = false := by
    rw [Bool.eq_false_iff, Ne, isTrail_iff]; omega
  simp [scalar, h1, h2]

theorem utf8Text_plain (u : Nat) (rest : JsString) (h : u < 0xD800 ∨ 0xDFFF < u) :
    utf8Text (u :: rest) = Char.ofNat u :: utf8Text rest := by
  have h1 : isLead u = false := by
    rw [Bool.eq_false_iff, Ne, isLead_iff]; omega
  cases rest with
  | nil => simp [utf8Text, scalar_of_plain u h]
  | cons v r => simp [utf8Text, h1, scalar_of_plain u h]

theorem utf8Text_pair (u v : Nat) (rest : JsString) (hu : isLead u = true)
    (hv : isTrail v = true) :
    utf8Text (u :: v :: rest)
      = Char.ofNat (0x10000 + (u - 0xD800) * 0x400 + (v - 0xDC00)) :: utf8Text rest := by
  simp [utf8Text, hu, hv]

theorem utf8Text_units (c : Char) (rest : JsString) :
    utf8Text (utf16Units c ++ rest) = c :: utf8Text rest := by
  have hv := char_valid c
  unfold utf16Units
  split
  · rw [List.singleton_append, utf8Text_plain _ _ (by omega), Char.ofNat_toNat]
  · have hu : isLead (0xD800 + (c.toNat - 0x10000) / 0x400) = true := by
      rw [isLead_iff]; omega
    have hl : isTrail (0xDC00 + (c.toNat - 0x10000) % 0x400) = true := by
      rw [isTrail_iff]; omega
    have harith : 0x10000 + (0xD800 + (c.toNat - 0x10000) / 0x400 - 0xD800) * 0x400
        + (0xDC00 + (c.toNat - 0x10000) % 0x400 - 0xDC00) = c.toNat := by omega
    show utf8Text (_ :: _ :: rest) = _
    rw [utf8Text_pair _ _ _ hu hl, harith, Char.ofNat_toNat]

/-- A well-formed string is stored as it is: the text of its UTF-8 encoding is
the string. -/
theorem utf8Text_toUtf16 (t : Str) : utf8Text (toUtf16 t) = t := by
  induction t with
  | nil => rfl
  | cons c cs ih =>
    show utf8Text (List.flatMap (c :: cs) utf16Units) = _
    rw [List.flatMap_cons, utf8Text_units]
    exact congrArg _ ih

theorem utf16Units_ofNat_plain (u : Nat) (h : u < 0xD800 ∨ 0xDFFF < u) (hlt : u < 0x10000) :
    utf16Units (Char.ofNat u) = [u] := by
  have hval : u.isValidChar := by
    rcases h with h | h
    · exact Or.inl h
    · exact Or.inr ⟨h, by omega⟩
  simp [utf16Units, toNat_ofNat u hval, hlt]

theorem utf16Units_ofNat_pair (u v : Nat) (hu : isLead u = true) (hv : isTrail v = true) :
    utf16Units (Char.ofNat (0x10000 + (u - 0xD800) * 0x400 + (v - 0xDC00))) = [u, v] := by
  rw [isLead_iff] at hu
  rw [isTrail_iff] at hv
  have hval : (0x10000 + (u - 0xD800) * 0x400 + (v - 0xDC00)).isValidChar :=
    Or.inr ⟨by omega, by omega⟩
  unfold utf16Units
  rw [toNat_ofNat _ hval, if_neg (by omega)]
  have h1 : 0xD800 + (0x10000 + (u - 0xD800) * 0x400 + (v - 0xDC00) - 0x10000) / 0x400 = u := by
    omega
  have h2 : 0xDC00 + (0x10000 + (u - 0xD800) * 0x400 + (v - 0xDC00) - 0x10000) % 0x400 = v := by
    omega
  rw [h1, h2]

/-- The code units of a well-formed string survive encoding and decoding. -/
theorem toUtf16_utf8Text (c : JsString) (h : isWellFormed c = true) :
    toUtf16 (utf8Text c) = c := by
  induction c using utf8Text.induct with
  | case1 => rfl
  | case2 u =>
    simp only [isWellFormed, Bool.and_eq_true, Bool.not_eq_true', Bool.or_eq_false_iff,
      decide_eq_true_eq] at h
    obtain ⟨⟨h1, h2⟩, h3⟩ := h
    have hp : u < 0xD800 ∨ 0xDFFF < u := by
      rw [Bool.eq_false_iff, Ne, isLead_iff] at h1
      rw [Bool.eq_false_iff, Ne, isTrail_iff] at h2
      omega
    rw [utf8Text_plain u [] hp]
    show List.flatMap _ utf16Units = _
    simp [List.flatMap_cons, utf16Units_ofNat_plain u hp h3, utf8Text]
  | case3 u v rest hpair ih =>
    have hu : isLead u = true := by simp at hpair; exact hpair.1
    have hv : isTrail v = true := by simp at hpair; exact hpair.2
    simp only [isWellFormed, hu, hv, Bool.and_self, if_true] at h
    rw [utf8Text_pair u v rest hu hv]
    show List.flatMap _ utf16Units = _
    rw [List.flatMap_cons, utf16Units_ofNat_pair u v hu hv]
    show u :: v :: toUtf16 (utf8Text rest) = _
    rw [ih h]
  | case4 u v rest hpair ih =>
    rw [isWellFormed, if_neg hpair] at h
    simp only [Bool.and_eq_true, Bool.not_eq_true', Bool.or_eq_false_iff,
      decide_eq_true_eq] at h
    obtain ⟨⟨⟨h1, h2⟩, h3⟩, h4⟩ := h
    have hp : u < 0xD800 ∨ 0xDFFF < u := by
      rw [Bool.eq_false_iff, Ne, isLead_iff] at h1
      rw [Bool.eq_false_iff, Ne, isTrail_iff] at h2
      omega
    rw [utf8Text_plain u _ hp]
    show List.flatMap _ utf16Units = _
    rw [List.flatMap_cons, utf16Units_ofNat_plain u hp h3]
    show u :: toUtf16 (utf8Text (v :: rest)) = _
    rw [ih h4]

theorem isWellFormed_plain (u : Nat) (rest : JsString) (h : u < 0xD800 ∨ 0xDFFF < u)
    (hlt : u < 0x10000) : isWellFormed (u :: rest) = isWellFormed rest := by
  have h1 : isLead u = false := by
    rw [Bool.eq_false_iff, Ne, isLead_iff]; omega
  have h2 : isTrail u = false := by
    rw [Bool.eq_false_iff, Ne, isTrail_iff]; omega
  cases rest with
  | nil => simp [isWellFormed, h1, h2, hlt]
  | cons v r => simp [isWellFormed, h1, h2, hlt]

/-- The code units of a sequence of characters are a well-formed string. -/
theorem isWellFormed_toUtf16 (t : Str) : isWellFormed (toUtf16 t) = true := by
  induction t with
  | nil => rfl
  | cons c cs ih =>
    show isWellFormed (List.flatMap (c :: cs) utf16Units) = _
    rw [List.flatMap_cons]
    have hv := char_valid c
    unfold utf16Units
    split
    · rw [List.singleton_append, isWellFormed_plain _ _ (by omega) (by omega)]
      exact ih
    · have hu : isLead (0xD800 + (c.toNat - 0x10000) / 0x400) = true := by
        rw [isLead_iff]; omega
      have hl : isTrail (0xDC00 + (c.toNat - 0x10000) % 0x400) = true := by
        rw [isTrail_iff]; omega
      show isWellFormed (_ :: _ :: toUtf16 cs) = _
      simp only [isWellFormed, hu, hl, Bool.and_self, if_true]
      exact ih

/-- Writing a string as UTF-8 and reading it back gives the same string
exactly when the string is well-formed. -/
theorem toUtf16_utf8Text_iff (c : JsString) :
    toUtf16 (utf8Text c) = c ↔ isWellFormed c = true :=
  ⟨fun h => h ▸ isWellFormed_toUtf16 _, toUtf16_utf8Text c⟩

/-- The edit route on a JavaScript string is the edit route on the text that
the string is stored as. -/
theorem editRouteUtf16_eq (dirname : Str) (fs : FS) (path : Option Str)
    (content : Option JsString) :
    editRouteUtf16 dirname fs path content
      = editRoute dirname fs path (content.map utf8Text) := by
  cases path with
  | none => rfl
  | some P =>
    cases P with
    | nil => rfl
    | cons a as =>
      cases content with
      | none => rfl
      | some c => rfl

/-! ## The default sort -/

theorem unitsLt_irrefl (a : List Nat) : unitsLt a a = false := by
  induction a with
  | nil => rfl
  | cons x xs ih => simp [unitsLt, ih]

theorem unitsLt_asymm : ∀ (a b : List Nat), unitsLt a b = true → unitsLt b a = false
  | [], [], _ => rfl
  | [], _ :: _, _ => rfl
  | _ :: _, [], h => by simp [unitsLt] at h
  | x :: xs, y :: ys, h => by
    rcases Nat.lt_trichotomy x y with hxy | hxy | hxy
    · have h1 : ¬ y < x := Nat.lt_asymm hxy
      simp [unitsLt, hxy, h1]
    · subst hxy
      simp only [unitsLt, Nat.lt_irrefl, if_false] at h ⊢
      exact unitsLt_asymm xs ys h
    · have h1 : ¬ x < y := Nat.lt_asymm hxy
      simp [unitsLt, hxy, h1] at h

theorem unitsLt_trans : ∀ (a b c : List Nat),
    unitsLt a b = true → unitsLt b c = true → unitsLt a c = true
  | [], [], _, h, _ => by simp [unitsLt] at h
  | [], _ :: _, [], _, h => by simp [unitsLt] at h
  | [], _ :: _, _ :: _, _, _ => rfl
  | _ :: _, [], _, h, _ => by simp [unitsLt] at h
  | _ :: _, _ :: _, [], _, h => by simp [unitsLt] at h
  | x :: xs, y :: ys, z :: zs, h1, h2 => by
    rcases Nat.lt_trichotomy x y with hxy | hxy | hxy
    · rcases Nat.lt_trichotomy y z with hyz | hyz | hyz
      · simp [unitsLt, Nat.lt_trans hxy hyz]
      · subst hyz; simp [unitsLt, hxy]
      · have h3 : ¬ y < z := Nat.lt_asymm hyz
        simp [unitsLt, hyz, h3] at h2
    · subst hxy
      rcases Nat.lt_trichotomy x z with hxz | hxz | hxz
      · simp [unitsLt, hxz]
      · subst hxz
        simp only [unitsLt, Nat.lt_irrefl, if_false] at h1 h2 ⊢
        exact unitsLt_trans xs ys zs h1 h2
      · have h3 : ¬ x < z := Nat.lt_asymm hxz
        simp [unitsLt, hxz, h3] at h2
    · have h3 : ¬ x < y := Nat.lt_asymm hxy
      simp [unitsLt, hxy, h3] at h1

theorem unitsLt_total : ∀ (a b : List Nat),
    unitsLt a b = true ∨ a = b ∨ unitsLt b a = true
  | [], [] => Or.inr (Or.inl rfl)
  | [], _ :: _ => Or.inl rfl
  | _ :: _, [] => Or.inr (Or.inr rfl)
  | x :: xs, y :: ys => by
    rcases Nat.lt_trichotomy x y with hxy | hxy | hxy
    · left; simp [unitsLt, hxy]
    · subst hxy
      rcases unitsLt_total xs ys with h | h | h
      · left; simp [unitsLt, h]
      · right; left; rw [h]
      · right; right; simp [unitsLt, h]
    · right; right; simp [unitsLt, hxy]

theorem sortInsert_perm (x : Str) (l : List Str) : (sortInsert x l).Perm (x :: l) := by
  induction l with
  | nil => exact List.Perm.refl _
  | cons y ys ih =>
    unfold sortInsert
    split
    · exact List.Perm.refl _
    · exact (List.Perm.cons y ih).trans (List.Perm.swap x y ys)

theorem jsSort_perm (l : List Str) : (jsSort l).Perm l := by
  induction l with
  | nil => exact List.Perm.refl _
  | cons x xs ih => exact (sortInsert_perm x (jsSort xs)).trans (List.Perm.cons x ih)

theorem sortInsert_sorted (x : Str) (l : List Str) (h : l.Pairwise JsLe) :
    (sortInsert x l).Pairwise JsLe := by
  induction l with
  | nil => simp [sortInsert]
  | cons y ys ih =>
    obtain ⟨hy, hys⟩ := List.pairwise_cons.1 h
    unfold sortInsert
    split
    · rename_i hlt
      refine List.pairwise_cons.2 ⟨?_, h⟩
      intro z hz
      rcases List.mem_cons.1 hz with rfl | hz
      · exact unitsLt_asymm _ _ hlt
      · have hyz : unitsLt (toUtf16 z) (toUtf16 y) = false := hy z hz
        show unitsLt (toUtf16 z) (toUtf16 x) = false
        cases hzx : unitsLt (toUtf16 z) (toUtf16 x) with
        | false => rfl
        | true =>
          have := unitsLt_trans _ _ _ hzx hlt
          rw [hyz] at this
          exact absurd this (by simp)
    · rename_i hlt
      refine List.pairwise_cons.2 ⟨?_, ih hys⟩
      intro z hz
      rcases List.mem_cons.1 ((sortInsert_perm x ys).mem_iff.1 hz) with rfl | hz
      · show unitsLt (toUtf16 z) (toUtf16 y) = false
        simpa using hlt
      · exact hy z hz

theorem jsSort_sorted (l : List Str) : (jsSort l).Pairwise JsLe := by
  induction l with
  | nil => exact List.Pairwise.nil
  | cons x xs ih => exact sortInsert_sorted x (jsSort xs) ih

/-! ## The list route -/

theorem separate_foldl (items : List (Str × Node)) (acc : List Str × List Str) :
    items.foldl
        (fun acc item =>
          if item.2.isDirectory then (acc.1 ++ [item.1], acc.2) else (acc.1, acc.2 ++ [item.1]))
        acc
      = (acc.1 ++ (items.filter (fun e => e.2.isDirectory)).map Prod.fst,
         acc.2 ++ (items.filter (fun e => !e.2.isDirectory)).map Prod.fst) := by
  induction items generalizing acc with
  | nil => simp
  | cons e rest ih =>
    rw [List.foldl_cons, ih]
    by_cases hd : e.2.isDirectory = true
    · simp [hd]
    · simp [hd]

theorem separate_eq (items : List (Str × Node)) :
    separate items
      = ((items.filter (fun e => e.2.isDirectory)).map Prod.fst,
         (items.filter (fun e => !e.2.isDirectory)).map Prod.fst) := by
  unfold separate
  rw [separate_foldl]
  simp

theorem readdir_of_dir (fs : FS) (p : Str) (h : stat fs p = some .dir) :
    readdir fs p
      = some (fs.filterMap (fun e => (childName (pathKey p) e.1).map (fun nm => (nm, e.2)))) := by
  unfold stat at h
  cases hl : lookup fs (pathKey p) with
  | none => simp [hl] at h
  | some n =>
    cases n with
    | dir => simp only [readdir, hl]
    | other => simp only [hl] at h; split at h <;> simp at h
    | file c => simp only [hl] at h; split at h <;> simp at h

/-! ## Write and Read -/

/-- Write of a text and Read of the same path: on an existing regular file
with an editable extension that passes the containment check, the edit route
answers 200 and the read route then answers 200 with that text. -/
theorem editRoute_then_fileRoute (dirname : Str) (fs : FS) (P c c0 : Str) (hP : P ≠ [])
    (hin : startsWith (join dirname P) dirname = true)
    (hfile : stat fs (join dirname P) = some (.file c0))
    (hext : toLowerCase (extname P) ∈ editableExtensions) :
    (editRoute dirname fs (some P) (some c)).1
      = ⟨200, .success "File updated successfully" P⟩ ∧
    fileRoute dirname (editRoute dirname fs (some P) (some c)).2 (some P)
      = (⟨200, .content c
            (if toLowerCase (extname P) = ".md".toList then "markdown" else "text")⟩,
         (editRoute dirname fs (some P) (some c)).2) := by
  have hw := editRoute_on_file dirname fs P c c0 hP hin hfile
  rw [if_pos hext] at hw
  have hstat := stat_after_write fs (join dirname P) c0 c hfile
  have hr := fileRoute_on_file dirname (setNode fs (pathKey (join dirname P)) (.file c)) P c
    hP hin hstat
  rw [if_neg (editable_not_binary _ hext)] at hr
  rw [hw]
  exact ⟨rfl, hr⟩

/-- C5, counterexample: the content `"a\ud800b"` (code units 0x61, 0xD800,
0x62) is a string; `LibraryFolder/a.txt` is an existing file inside the library
with an editable extension; Write of that content answers 200, and the Read of
the same path that follows answers 200 with the content `"a\ufffdb"` (code
units 0x61, 0xFFFD, 0x62), which is not the content written. -/
theorem C5_unpaired_surrogate_not_returned :
    startsWith (join projectDir "LibraryFolder/a.txt".toList)
        (join projectDir LibraryFolder) = true ∧
    stat sampleFS (join projectDir "LibraryFolder/a.txt".toList) = some (.file "A".toList) ∧
    toLowerCase (extname "LibraryFolder/a.txt".toList) ∈ editableExtensions ∧
    (editRouteUtf16 projectDir sampleFS (some "LibraryFolder/a.txt".toList)
        (some [0x61, 0xD800, 0x62])).1
      = ⟨200, .success "File updated successfully" "LibraryFolder/a.txt".toList⟩ ∧
    (fileRoute projectDir
        (editRouteUtf16 projectDir sampleFS (some "LibraryFolder/a.txt".toList)
          (some [0x61, 0xD800, 0x62])).2
        (some "LibraryFolder/a.txt".toList)).1.status = 200 ∧
    (fileRoute projectDir
        (editRouteUtf16 projectDir sampleFS (some "LibraryFolder/a.txt".toList)
          (some [0x61, 0xD800, 0x62])).2
        (some "LibraryFolder/a.txt".toList)).1.contentUnits = some [0x61, 0xFFFD, 0x62] ∧
    (fileRoute projectDir
        (editRouteUtf16 projectDir sampleFS (some "LibraryFolder/a.txt".toList)
          (some [0x61, 0xD800, 0x62])).2
        (some "LibraryFolder/a.txt".toList)).1.contentUnits ≠ some [0x61, 0xD800, 0x62] := by
  refine ⟨by decide, by decide, by decide, by decide, by decide, by decide, by decide⟩

/-- C5, amended: for a non-empty path that passes the containment check and
names an existing regular file whose lower-cased extension is in the editable
list, and for every string content `c` (the empty one too), Write of `c`
answers 200 and a Read of the same path on the filesystem it leaves answers 200
with the text that the UTF-8 encoding of `c` spells; the content returned is
exactly `c` if and only if `c` is well-formed, that is, has no unpaired
surrogate. -/
theorem C5_write_then_read_well_formed (dirname : Str) (fs : FS) (P : Str) (c : JsString)
    (c0 : Str) (hP : P ≠ [])
    (hin : startsWith (join dirname P) dirname = true)
    (hfile : stat fs (join dirname P) = some (.file c0))
    (hext : toLowerCase (extname P) ∈ editableExtensions) :
    (editRouteUtf16 dirname fs (some P) (some c)).1
      = ⟨200, .success "File updated successfully" P⟩ ∧
    fileRoute dirname (editRouteUtf16 dirname fs (some P) (some c)).2 (some P)
      = (⟨200, .content (utf8Text c)
            (if toLowerCase (extname P) = ".md".toList then "markdown" else "text")⟩,
         (editRouteUtf16 dirname fs (some P) (some c)).2) ∧
    ((fileRoute dirname (editRouteUtf16 dirname fs (some P) (some c)).2
        (some P)).1.contentUnits = some c ↔ isWellFormed c = true) := by
  have h := editRoute_then_fileRoute dirname fs P (utf8Text c) c0 hP hin hfile hext
  rw [editRouteUtf16_eq]
  refine ⟨h.1, h.2, ?_⟩
  rw [show Option.map utf8Text (some c) = some (utf8Text c) from rfl, h.2]
  show some (toUtf16 (utf8Text c)) = some c ↔ _
  rw [Option.some.injEq]
  exact toUtf16_utf8Text_iff c

theorem C5_write_then_read_well_formed_witness :
    "LibraryFolder/Z/n.md".toList ≠ [] ∧
    startsWith (join projectDir "LibraryFolder/Z/n.md".toList) projectDir = true ∧
    stat sampleFS (join projectDir "LibraryFolder/Z/n.md".toList) = some (.file "note".toList) ∧
    toLowerCase (extname "LibraryFolder/Z/n.md".toList) ∈ editableExtensions ∧
    (fileRoute projectDir
        (editRouteUtf16 projectDir sampleFS (some "LibraryFolder/Z/n.md".toList)
          (some [0x68, 0xD83D, 0xDE00])).2
        (some "LibraryFolder/Z/n.md".toList)).1.contentUnits = some [0x68, 0xD83D, 0xDE00] ∧
    fileRoute projectDir
        (editRouteUtf16 projectDir sampleFS (some "LibraryFolder/Z/n.md".toList) (some [])).2
        (some "LibraryFolder/Z/n.md".toList)
      = (⟨200, .content [] "markdown"⟩,
         (editRouteUtf16 projectDir sampleFS (some "LibraryFolder/Z/n.md".toList)
           (some [])).2) :=
  ⟨by decide, by decide, by decide, by decide,
   (C5_write_then_read_well_formed projectDir sampleFS "LibraryFolder/Z/n.md".toList
      [0x68, 0xD83D, 0xDE00] "note".toList
      (by decide) (by decide) (by decide) (by decide)).2.2.mpr (by decide),
   (C5_write_then_read_well_formed projectDir sampleFS "LibraryFolder/Z/n.md".toList
      [] "note".toList
      (by decide) (by decide) (by decide) (by decide)).2.1⟩

/-- C6: the list route on an existing directory that passes the containment
check answers 200 with `folders` and `files`, where `folders` is a
rearrangement of the names of the entries that are directories, `files` a
rearrangement of the names of all other entries, the two together a
rearrangement of all entry names (each entry once), and each of the two is in
ascending order of UTF-16 code units. An empty library gives two empty lists,
and the library holding `b.txt`, `a.txt` and the folder `Z` gives folders `Z`
and files `a.txt`, `b.txt`. -/
theorem C6_list_partitions_and_sorts :
    (∀ (dirname : Str) (fs : FS) (queryPath : Option Str),
      startsWith (join dirname (orDefault queryPath LibraryFolder)) dirname = true →
      stat fs (join dirname (orDefault queryPath LibraryFolder)) = some .dir →
      ∃ items folders files,
        readdir fs (join dirname (orDefault queryPath LibraryFolder)) = some items ∧
        listRoute dirname fs queryPath = (⟨200, .listing folders files⟩, fs) ∧
        folders.Perm ((items.filter (fun e => e.2.isDirectory)).map Prod.fst) ∧
        files.Perm ((items.filter (fun e => !e.2.isDirectory)).map Prod.fst) ∧
        (folders ++ files).Perm (items.map Prod.fst) ∧
        folders.Pairwise JsLe ∧ files.Pairwise JsLe) ∧
    listRoute projectDir emptyLibraryFS (some LibraryFolder)
      = (⟨200, .listing [] []⟩, emptyLibraryFS) ∧
    listRoute projectDir scenarioFS (some LibraryFolder)
      = (⟨200, .listing ["Z".toList] ["a.txt".toList, "b.txt".toList]⟩, scenarioFS) := by
  refine ⟨?_, by decide, by decide⟩
  intro dirname fs queryPath hin hdir
  have hrd := readdir_of_dir fs _ hdir
  refine ⟨_, _, _, hrd, ?_, jsSort_perm _, jsSort_perm _, ?_, jsSort_sorted _, jsSort_sorted _⟩
  · simp only [listRoute, hin, hdir, hrd, separate_eq]
    simp
  · exact ((jsSort_perm _).append (jsSort_perm _)).trans
      ((List.filter_append_perm _ _).map Prod.fst |> fun h => by simpa using h)

theorem C6_list_partitions_and_sorts_witness :
    startsWith (join projectDir (orDefault (some "LibraryFolder/Z".toList) LibraryFolder))
        projectDir = true ∧
    stat sampleFS (join projectDir (orDefault (some "LibraryFolder/Z".toList) LibraryFolder))
        = some .dir ∧
    (listRoute projectDir sampleFS (some "LibraryFolder/Z".toList)).1.status = 200 ∧
    (listRoute projectDir sampleFS (some "LibraryFolder/Z".toList)).2 = sampleFS :=
  ⟨by decide, by decide,
   (C6_list_partitions_and_sorts.1 projectDir sampleFS (some "LibraryFolder/Z".toList)
      (by decide) (by decide)).elim
    (fun _ h1 => h1.elim (fun _ h2 => h2.elim (fun _ h3 => by rw [h3.2.1]))),
   (C6_list_partitions_and_sorts.1 projectDir sampleFS (some "LibraryFolder/Z".toList)
      (by decide) (by decide)).elim
    (fun _ h1 => h1.elim (fun _ h2 => h2.elim (fun _ h3 => by rw [h3.2.1])))⟩

/-- C7: for a non-empty path that passes the containment check and names an
existing regular file, the read route looks only at the lower-cased extension
of the request path: when it is one of the binary extensions the answer is 200
with null content, kind binary and the path, whatever the file holds;
otherwise the answer is 200 with the file's text, of kind markdown when the
extension is `.md` and text in every other case. -/
theorem C7_read_by_extension (dirname : Str) (fs : FS) (P c : Str) (hP : P ≠ [])
    (hin : startsWith (join dirname P) dirname = true)
    (hfile : stat fs (join dirname P) = some (.file c)) :
    (toLowerCase (extname P) ∈ binaryExtensions →
      fileRoute dirname fs (some P) = (⟨200, .binary P⟩, fs)) ∧
    (toLowerCase (extname P) ∉ binaryExtensions → toLowerCase (extname P) = ".md".toList →
      fileRoute dirname fs (some P) = (⟨200, .content c "markdown"⟩, fs)) ∧
    (toLowerCase (extname P) ∉ binaryExtensions → toLowerCase (extname P) ≠ ".md".toList →
      fileRoute dirname fs (some P) = (⟨200, .content c "text"⟩, fs)) := by
  have hr := fileRoute_on_file dirname fs P c hP hin hfile
  refine ⟨fun hb => ?_, fun hb hm => ?_, fun hb hm => ?_⟩
  · rw [hr, if_pos hb]
  · rw [hr, if_neg hb, if_pos hm]
  · rw [hr, if_neg hb, if_neg hm]

theorem C7_read_by_extension_witness :
    "LibraryFolder/p.pdf".toList ≠ [] ∧
    startsWith (join projectDir "LibraryFolder/p.pdf".toList) projectDir = true ∧
    stat sampleFS (join projectDir "LibraryFolder/p.pdf".toList) = some (.file "%PDF".toList) ∧
    toLowerCase (extname "LibraryFolder/p.pdf".toList) ∈ binaryExtensions ∧
    fileRoute projectDir sampleFS (some "LibraryFolder/p.pdf".toList)
      = (⟨200, .binary "LibraryFolder/p.pdf".toList⟩, sampleFS) :=
  ⟨by decide, by decide, by decide, by decide,
   (C7_read_by_extension projectDir sampleFS "LibraryFolder/p.pdf".toList "%PDF".toList
      (by decide) (by decide) (by decide)).1 (by decide)⟩

/-- C8: for a Write that carries content, on a non-empty path that passes the
containment check and names an existing regular file, the answer is 200
exactly when the lower-cased extension of the path is in the editable list;
when it is not, the answer is 400 "File type is not editable" and the
filesystem is unchanged. -/
theorem C8_write_iff_editable (dirname : Str) (fs : FS) (P c c0 : Str) (hP : P ≠ [])
    (hin : startsWith (join dirname P) dirname = true)
    (hfile : stat fs (join dirname P) = some (.file c0)) :
    ((editRoute dirname fs (some P) (some c)).1.status = 200 ↔
      toLowerCase (extname P) ∈ editableExtensions) ∧
    (toLowerCase (extname P) ∉ editableExtensions →
      editRoute dirname fs (some P) (some c)
        = (⟨400, .error "File type is not editable"⟩, fs)) := by
  have hw := editRoute_on_file dirname fs P c c0 hP hin hfile
  by_cases he : toLowerCase (extname P) ∈ editableExtensions
  · rw [if_pos he] at hw
    exact ⟨⟨fun _ => he, fun _ => by rw [hw]⟩, fun hne => absurd he hne⟩
  · rw [if_neg he] at hw
    refine ⟨⟨fun h => ?_, fun h => absurd h he⟩, fun _ => hw⟩
    rw [hw] at h
    simp at h

theorem C8_write_iff_editable_witness :
    "LibraryFolder/x.exe".toList ≠ [] ∧
    startsWith (join projectDir "LibraryFolder/x.exe".toList) projectDir = true ∧
    stat sampleFS (join projectDir "LibraryFolder/x.exe".toList) = some (.file "MZ".toList) ∧
    toLowerCase (extname "LibraryFolder/x.exe".toList) ∉ editableExtensions ∧
    editRoute projectDir sampleFS (some "LibraryFolder/x.exe".toList) (some "hi".toList)
      = (⟨400, .error "File type is not editable"⟩, sampleFS) :=
  ⟨by decide, by decide, by decide, by decide,
   (C8_write_iff_editable projectDir sampleFS "LibraryFolder/x.exe".toList "hi".toList
      "MZ".toList (by decide) (by decide) (by decide)).2 (by decide)⟩

/-- The filesystem the edit route leaves is the one it found, or that one
with the text of one existing regular file replaced. -/
theorem editRoute_fs_cases (dirname : Str) (fs : FS) (path content : Option Str) :
    (editRoute dirname fs path content).2 = fs ∨
    ∃ P c c0, stat fs (join dirname P) = some (.file c0) ∧
      (editRoute dirname fs path content).2 = setNode fs (pathKey (join dirname P)) (.file c) := by
  cases path with
  | none => left; rfl
  | some P =>
    cases P with
    | nil => left; rfl
    | cons a as =>
      cases content with
      | none => left; rfl
      | some c =>
        by_cases hin : startsWith (join dirname (a :: as)) dirname = true
        · cases hst : stat fs (join dirname (a :: as)) with
          | none => left; simp [editRoute, hin, hst]
          | some n =>
            cases n with
            | dir => left; simp [editRoute, hin, hst]
            | other => left; simp [editRoute, hin, hst]
            | file c0 =>
              have hw := editRoute_on_file dirname fs (a :: as) c c0 (by simp) hin hst
              by_cases he : toLowerCase (extname (a :: as)) ∈ editableExtensions
              · right
                rw [if_pos he] at hw
                exact ⟨a :: as, c, c0, hst, by rw [hw]⟩
              · left
                rw [if_neg he] at hw
                rw [hw]
        · left
          have hout : startsWith (join dirname (a :: as)) dirname = false := by simpa using hin
          rw [editRoute_denied dirname fs (a :: as) c (by simp) hout]

/-- A request whose path does not name an existing regular file is never
answered with 200 and leaves the filesystem as it was. -/
theorem editRoute_no_file (dirname : Str) (fs : FS) (path content : Option Str)
    (hno : ∀ P c0, path = some P → stat fs (join dirname P) ≠ some (.file c0)) :
    (editRoute dirname fs path content).2 = fs ∧
    (editRoute dirname fs path content).1.status ≠ 200 := by
  cases path with
  | none => exact ⟨rfl, by simp [editRoute]⟩
  | some P =>
    cases P with
    | nil => exact ⟨rfl, by simp [editRoute]⟩
    | cons a as =>
      cases content with
      | none => exact ⟨rfl, by simp [editRoute]⟩
      | some c =>
        by_cases hin : startsWith (join dirname (a :: as)) dirname = true
        · cases hst : stat fs (join dirname (a :: as)) with
          | none => simp [editRoute, hin, hst]
          | some n =>
            cases n with
            | dir => simp [editRoute, hin, hst]
            | other => simp [editRoute, hin, hst]
            | file c0 => exact absurd hst (hno _ c0 rfl)
        · have hout : startsWith (join dirname (a :: as)) dirname = false := by simpa using hin
          rw [editRoute_denied dirname fs (a :: as) c (by simp) hout]
          exact ⟨rfl, by simp⟩

/-- C9: the edit route needs both fields. A request whose path is missing
or empty answers 400 "File path required", and one whose content is absent
answers 400, both without touching the filesystem. An empty content is not
taken for a missing one: on an existing editable file that passes the
containment check it answers 200 and the file is empty afterwards. A request
with both fields that passes the containment check and does not name an
existing regular file answers 404 and changes nothing; whatever its fields, a
request whose path does not name an existing regular file is not answered
with 200 and changes nothing, and no request ever makes a path exist that did
not exist before. -/
theorem C9_write_needs_both_fields (dirname : Str) (fs : FS) :
    (∀ content, editRoute dirname fs none content = (⟨400, .error "File path required"⟩, fs) ∧
      editRoute dirname fs (some []) content = (⟨400, .error "File path required"⟩, fs)) ∧
    (∀ path, (editRoute dirname fs path none).1.status = 400 ∧
      (editRoute dirname fs path none).2 = fs) ∧
    (∀ P c0, P ≠ [] → startsWith (join dirname P) dirname = true →
      stat fs (join dirname P) = some (.file c0) →
      toLowerCase (extname P) ∈ editableExtensions →
      (editRoute dirname fs (some P) (some [])).1
        = ⟨200, .success "File updated successfully" P⟩ ∧
      stat (editRoute dirname fs (some P) (some [])).2 (join dirname P) = some (.file [])) ∧
    (∀ P c, P ≠ [] → startsWith (join dirname P) dirname = true →
      (∀ c0, stat fs (join dirname P) ≠ some (.file c0)) →
      editRoute dirname fs (some P) (some c) = (⟨404, .error "File not found"⟩, fs)) ∧
    (∀ path content, (∀ P c0, path = some P → stat fs (join dirname P) ≠ some (.file c0)) →
      (editRoute dirname fs path content).2 = fs ∧
      (editRoute dirname fs path content).1.status ≠ 200) ∧
    (∀ path content k,
      (lookup (editRoute dirname fs path content).2 k).isSome = (lookup fs k).isSome) := by
  refine ⟨fun content => ⟨rfl, rfl⟩, ?_, ?_, ?_, editRoute_no_file dirname fs, ?_⟩
  · intro path
    cases path with
    | none => exact ⟨rfl, rfl⟩
    | some P =>
      cases P with
      | nil => exact ⟨rfl, rfl⟩
      | cons a as => exact ⟨rfl, rfl⟩
  · intro P c0 hP hin hfile hext
    have hw := editRoute_on_file dirname fs P [] c0 hP hin hfile
    rw [if_pos hext] at hw
    rw [hw]
    exact ⟨rfl, stat_after_write fs (join dirname P) c0 [] hfile⟩
  · intro P c hP hin hno
    cases P with
    | nil => exact absurd rfl hP
    | cons a as =>
      cases hst : stat fs (join dirname (a :: as)) with
      | none => simp [editRoute, hin, hst]
      | some n =>
        cases n with
        | dir => simp [editRoute, hin, hst]
        | other => simp [editRoute, hin, hst]
        | file c0 => exact absurd hst (hno c0)
  · intro path content k
    rcases editRoute_fs_cases dirname fs path content with h | ⟨P, c, c0, hst, h⟩
    · rw [h]
    · rw [h, lookup_setNode]
      by_cases hk : k = pathKey (join dirname P)
      · subst hk
        simp [(stat_file fs _ c0 hst).1]
      · simp [hk]

theorem C9_write_needs_both_fields_witness :
    "LibraryFolder/a.txt".toList ≠ [] ∧
    startsWith (join projectDir "LibraryFolder/a.txt".toList) projectDir = true ∧
    stat sampleFS (join projectDir "LibraryFolder/a.txt".toList) = some (.file "A".toList) ∧
    toLowerCase (extname "LibraryFolder/a.txt".toList) ∈ editableExtensions ∧
    (editRoute projectDir sampleFS (some "LibraryFolder/a.txt".toList) (some [])).1
      = ⟨200, .success "File updated successfully" "LibraryFolder/a.txt".toList⟩ ∧
    stat (editRoute projectDir sampleFS (some "LibraryFolder/a.txt".toList) (some [])).2
      (join projectDir "LibraryFolder/a.txt".toList) = some (.file []) ∧
    "LibraryFolder/new.txt".toList ≠ [] ∧
    startsWith (join projectDir "LibraryFolder/new.txt".toList) projectDir = true ∧
    stat sampleFS (join projectDir "LibraryFolder/new.txt".toList) = none ∧
    editRoute projectDir sampleFS (some "LibraryFolder/new.txt".toList) (some "x".toList)
      = (⟨404, .error "File not found"⟩, sampleFS) :=
  ⟨by decide, by decide, by decide, by decide,
   ((C9_write_needs_both_fields projectDir sampleFS).2.2.1 "LibraryFolder/a.txt".toList
      "A".toList (by decide) (by decide) (by decide) (by decide)).1,
   ((C9_write_needs_both_fields projectDir sampleFS).2.2.1 "LibraryFolder/a.txt".toList
      "A".toList (by decide) (by decide) (by decide) (by decide)).2,
   by decide, by decide, by decide,
   (C9_write_needs_both_fields projectDir sampleFS).2.2.2.1 "LibraryFolder/new.txt".toList
      "x".toList (by decide) (by decide)
      (fun c0 h => by
        have h0 : stat sampleFS (join projectDir "LibraryFolder/new.txt".toList) = none := by
          decide
        rw [h0] at h
        exact absurd h (by simp))⟩

/-! ## Delete -/

theorem unlink_file (fs : FS) (p c : Str) (h : stat fs p = some (.file c)) :
    unlink fs p = some (fs.filter (fun e => e.1 ≠ pathKey p)) := by
  simp [unlink, h]

/-- C10: for a non-empty path that passes the containment check and whose
resolved form is not that of `LibraryFolder`: when nothing exists at the path
the answer is 404 and the filesystem is unchanged; when it names a regular file
the answer is 200, afterwards nothing exists at the path and the node at every
other path is as before; when it names a directory the answer is 200,
afterwards nothing exists at the path or beneath it and the node at every path
outside it is as before. -/
theorem C10_delete_frame (dirname : Str) (fs : FS) (P : Str) (hP : P ≠ [])
    (hin : startsWith (join dirname P) dirname = true)
    (hroot : join dirname P ≠ join dirname LibraryFolder) :
    (stat fs (join dirname P) = none →
      deleteRoute dirname fs (some P) = (⟨404, .error "File or folder not found"⟩, fs)) ∧
    (∀ c, stat fs (join dirname P) = some (.file c) →
      (deleteRoute dirname fs (some P)).1 = ⟨200, .success "Item deleted successfully" P⟩ ∧
      lookup (deleteRoute dirname fs (some P)).2 (pathKey (join dirname P)) = none ∧
      ∀ q, q ≠ pathKey (join dirname P) →
        lookup (deleteRoute dirname fs (some P)).2 q = lookup fs q) ∧
    (stat fs (join dirname P) = some .dir →
      (deleteRoute dirname fs (some P)).1 = ⟨200, .success "Item deleted successfully" P⟩ ∧
      (∀ q, pathKey (join dirname P) <+: q →
        lookup (deleteRoute dirname fs (some P)).2 q = none) ∧
      ∀ q, ¬ pathKey (join dirname P) <+: q →
        lookup (deleteRoute dirname fs (some P)).2 q = lookup fs q) := by
  cases P with
  | nil => exact absurd rfl hP
  | cons a as =>
    refine ⟨fun hst => ?_, fun c hst => ?_, fun hst => ?_⟩
    · simp [deleteRoute, hin, hroot, hst]
    · have hd : deleteRoute dirname fs (some (a :: as))
          = (⟨200, .success "Item deleted successfully" (a :: as)⟩,
             fs.filter (fun e => e.1 ≠ pathKey (join dirname (a :: as)))) := by
        simp [deleteRoute, hin, hroot, hst, unlink_file fs _ c hst, Node.isFile]
      rw [hd]
      refine ⟨rfl, ?_, fun q hq => ?_⟩
      · have := lookup_filter_key (fun k => decide (k ≠ pathKey (join dirname (a :: as)))) fs
          (pathKey (join dirname (a :: as)))
        simpa using this
      · have := lookup_filter_key (fun k => decide (k ≠ pathKey (join dirname (a :: as)))) fs q
        simpa [hq] using this
    · have hd : deleteRoute dirname fs (some (a :: as))
          = (⟨200, .success "Item deleted successfully" (a :: as)⟩,
             rm fs (join dirname (a :: as))) := by
        simp [deleteRoute, hin, hroot, hst, Node.isFile, Node.isDirectory]
      rw [hd]
      refine ⟨rfl, fun q hq => ?_, fun q hq => ?_⟩
      · have := lookup_filter_key
          (fun k => !(pathKey (join dirname (a :: as))).isPrefixOf k) fs q
        have hq1 : (pathKey (join dirname (a :: as))).isPrefixOf q = true :=
          List.isPrefixOf_iff_prefix.2 hq
        simpa [rm, hq1] using this
      · have := lookup_filter_key
          (fun k => !(pathKey (join dirname (a :: as))).isPrefixOf k) fs q
        have hq1 : (pathKey (join dirname (a :: as))).isPrefixOf q = false := by
          cases h : (pathKey (join dirname (a :: as))).isPrefixOf q with
          | false => rfl
          | true => exact absurd (List.isPrefixOf_iff_prefix.1 h) hq
        simpa [rm, hq1] using this

theorem C10_delete_frame_witness :
    "LibraryFolder/Z".toList ≠ [] ∧
    startsWith (join projectDir "LibraryFolder/Z".toList) projectDir = true ∧
    join projectDir "LibraryFolder/Z".toList ≠ join projectDir LibraryFolder ∧
    stat sampleFS (join projectDir "LibraryFolder/Z".toList) = some .dir ∧
    (deleteRoute projectDir sampleFS (some "LibraryFolder/Z".toList)).1
      = ⟨200, .success "Item deleted successfully" "LibraryFolder/Z".toList⟩ ∧
    lookup (deleteRoute projectDir sampleFS (some "LibraryFolder/Z".toList)).2
      ["proj".toList, LibraryFolder, "Z".toList, "n.md".toList] = none ∧
    lookup (deleteRoute projectDir sampleFS (some "LibraryFolder/Z".toList)).2
      ["proj".toList, LibraryFolder, "a.txt".toList]
      = lookup sampleFS ["proj".toList, LibraryFolder, "a.txt".toList] :=
  ⟨by decide, by decide, by decide, by decide,
   ((C10_delete_frame projectDir sampleFS "LibraryFolder/Z".toList (by decide) (by decide)
      (by decide)).2.2 (by decide)).1,
   ((C10_delete_frame projectDir sampleFS "LibraryFolder/Z".toList (by decide) (by decide)
      (by decide)).2.2 (by decide)).2.1 _ (List.isPrefixOf_iff_prefix.1 (by decide)),
   ((C10_delete_frame projectDir sampleFS "LibraryFolder/Z".toList (by decide) (by decide)
      (by decide)).2.2 (by decide)).2.2 _
      (fun h => absurd (List.isPrefixOf_iff_prefix.2 h) (by decide))⟩

/-! ## The Navigation Client: what each function does to `AppState` -/

theorem updateBackButton_app (c : Client) : (updateBackButton c).app = c.app := rfl

theorem displayFiles_app (files folders : List Str) (p : Str) (c : Client) :
    (displayFiles files folders p c).app = c.app := rfl

theorem loadDirectory_app (net : Net) (path : Str) (c : Client) :
    (loadDirectory net path c).app = c.app := by
  unfold loadDirectory
  cases net (.list path) with
  | error message => rfl
  | ok response =>
    by_cases hok : response.ok = true
    · simp only [hok]
      cases response.body <;> rfl
    · simp [hok]

theorem navigateToPath_app (net : Net) (path : Str) (addToHistory : Bool) (c : Client) :
    (navigateToPath net path addToHistory c).app
      = { pushCurrent addToHistory c.app with
          currentPath := if path ≠ [] then LibraryFolder ++ '/' :: path else LibraryFolder
          currentState :=
            some ⟨.folder, some (if path ≠ [] then LibraryFolder ++ '/' :: path else LibraryFolder),
              .library⟩ } := by
  unfold navigateToPath
  rw [updateBackButton_app, loadDirectory_app]

theorem pushCurrent_false (app : AppState) : pushCurrent false app = app := rfl

theorem pushCurrent_true (app : AppState) (cur : NavState) (h : app.currentState = some cur) :
    pushCurrent true app = { app with navigationHistory := app.navigationHistory ++ [cur] } := by
  simp [pushCurrent, h]

theorem pushCurrent_fields (addToHistory : Bool) (app : AppState) :
    (pushCurrent addToHistory app).currentPath = app.currentPath ∧
    (pushCurrent addToHistory app).currentView = app.currentView ∧
    (pushCurrent addToHistory app).isAdmin = app.isAdmin ∧
    (pushCurrent addToHistory app).currentState = app.currentState ∧
    (pushCurrent addToHistory app).originalFileContent = app.originalFileContent ∧
    (pushCurrent addToHistory app).currentFilePath = app.currentFilePath := by
  unfold pushCurrent
  cases addToHistory with
  | false => simp
  | true =>
    cases h : app.currentState with
    | none => simp [h]
    | some cur => simp [h]

/-- The function `showLoaded` changes nothing of `AppState` but, at most, the
stored original content. -/
theorem showLoaded_app (filePath fileName : Str) (data : Body) (c : Client) :
    ∃ o, (showLoaded filePath fileName data c).app = { c.app with originalFileContent := o } := by
  unfold showLoaded
  simp only []
  split
  · exact ⟨_, rfl⟩
  · split
    · exact ⟨_, rfl⟩
    · split
      · split
        · exact ⟨_, rfl⟩
        · exact ⟨c.app.originalFileContent, rfl⟩
      · exact ⟨_, rfl⟩

/-- The function `loadFile` pushes as asked, makes the file the current state
and changes nothing else of `AppState` but, at most, the stored original
content. -/
theorem loadFile_app (net : Net) (filePath : Str) (addToHistory : Bool) (c : Client) :
    ∃ o, (loadFile net filePath addToHistory c).app
      = { pushCurrent addToHistory c.app with
          currentState := some ⟨.file, some filePath, .file⟩
          originalFileContent := o } := by
  unfold loadFile
  simp only []
  cases net (.file filePath) with
  | error message => exact ⟨(pushCurrent addToHistory c.app).originalFileContent, rfl⟩
  | ok response =>
    by_cases hok : response.ok = true
    · simp only [hok]
      cases hb : response.body with
      | errorPage => exact ⟨(pushCurrent addToHistory c.app).originalFileContent, rfl⟩
      | error e => simpa [updateBackButton] using showLoaded_app filePath _ (.error e) _
      | failure e => simpa [updateBackButton] using showLoaded_app filePath _ (.failure e) _
      | listing a b => simpa [updateBackButton] using showLoaded_app filePath _ (.listing a b) _
      | binary a => simpa [updateBackButton] using showLoaded_app filePath _ (.binary a) _
      | content a b => simpa [updateBackButton] using showLoaded_app filePath _ (.content a b) _
      | success a b => simpa [updateBackButton] using showLoaded_app filePath _ (.success a b) _
      | uploaded a b d e =>
        simpa [updateBackButton] using showLoaded_app filePath _ (.uploaded a b d e) _
      | folderList a => simpa [updateBackButton] using showLoaded_app filePath _ (.folderList a) _
    · simp only [hok]
      exact ⟨(pushCurrent addToHistory c.app).originalFileContent, rfl⟩

theorem navigateToPath_keeps (net : Net) (path : Str) (addToHistory : Bool) (c : Client) :
    (navigateToPath net path addToHistory c).app.isAdmin = c.app.isAdmin ∧
    (navigateToPath net path addToHistory c).app.currentView = c.app.currentView ∧
    (navigateToPath net path addToHistory c).app.currentFilePath = c.app.currentFilePath ∧
    (navigateToPath net path addToHistory c).app.originalFileContent
      = c.app.originalFileContent := by
  rw [navigateToPath_app]
  obtain ⟨_, h2, h3, _, h5, h6⟩ := pushCurrent_fields addToHistory c.app
  exact ⟨h3, h2, h6, h5⟩

theorem navigateToPath_history (net : Net) (path : Str) (addToHistory : Bool) (c : Client) :
    (navigateToPath net path addToHistory c).app.navigationHistory
      = (pushCurrent addToHistory c.app).navigationHistory := by
  rw [navigateToPath_app]

theorem loadFile_keeps (net : Net) (filePath : Str) (addToHistory : Bool) (c : Client) :
    (loadFile net filePath addToHistory c).app.isAdmin = c.app.isAdmin ∧
    (loadFile net filePath addToHistory c).app.currentView = c.app.currentView ∧
    (loadFile net filePath addToHistory c).app.currentFilePath = c.app.currentFilePath ∧
    (loadFile net filePath addToHistory c).app.currentPath = c.app.currentPath := by
  obtain ⟨o, ho⟩ := loadFile_app net filePath addToHistory c
  rw [ho]
  obtain ⟨h1, h2, h3, _, _, h6⟩ := pushCurrent_fields addToHistory c.app
  exact ⟨h3, h2, h6, h1⟩

theorem loadFile_history (net : Net) (filePath : Str) (addToHistory : Bool) (c : Client) :
    (loadFile net filePath addToHistory c).app.navigationHistory
      = (pushCurrent addToHistory c.app).navigationHistory := by
  obtain ⟨o, ho⟩ := loadFile_app net filePath addToHistory c
  rw [ho]

theorem loadFile_currentState (net : Net) (filePath : Str) (addToHistory : Bool) (c : Client) :
    (loadFile net filePath addToHistory c).app.currentState
      = some ⟨.file, some filePath, .file⟩ := by
  obtain ⟨o, ho⟩ := loadFile_app net filePath addToHistory c
  rw [ho]

theorem goBack_keeps (net : Net) (c : Client) :
    (goBack net c).app.isAdmin = c.app.isAdmin ∧
    (goBack net c).app.currentView = c.app.currentView ∧
    (goBack net c).app.currentFilePath = c.app.currentFilePath ∧
    (goBack net c).app.navigationHistory = c.app.navigationHistory.dropLast := by
  unfold goBack
  cases hl : c.app.navigationHistory.getLast? with
  | none =>
    have hnil : c.app.navigationHistory = [] := List.getLast?_eq_none_iff.1 hl
    obtain ⟨h1, h2, h3, _⟩ := navigateToPath_keeps net [] false c
    refine ⟨h1, h2, h3, ?_⟩
    rw [navigateToPath_history, pushCurrent_false, hnil]
    rfl
  | some prev =>
    obtain ⟨ty, path, view⟩ := prev
    cases ty with
    | home => cases path <;> exact ⟨rfl, rfl, rfl, rfl⟩
    | folder =>
      cases path with
      | none => exact ⟨rfl, rfl, rfl, rfl⟩
      | some p =>
        simp only [updateBackButton_app]
        obtain ⟨h1, h2, h3, _⟩ := navigateToPath_keeps net
          (replaceFirst "LibraryFolder/".toList [] p) false
          { c with app := { c.app with navigationHistory := c.app.navigationHistory.dropLast } }
        exact ⟨h1, h2, h3, by rw [navigateToPath_history, pushCurrent_false]⟩
    | file =>
      cases path with
      | none => exact ⟨rfl, rfl, rfl, rfl⟩
      | some p =>
        simp only [updateBackButton_app]
        obtain ⟨h1, h2, h3, _⟩ := loadFile_keeps net p false
          { c with app := { c.app with navigationHistory := c.app.navigationHistory.dropLast } }
        exact ⟨h1, h2, h3, by rw [loadFile_history, pushCurrent_false]⟩

theorem saveFile_app (net : Net) (c : Client) : (saveFile net c).app = c.app := by
  unfold saveFile
  split
  · rfl
  · rfl
  · simp only []
    split
    · rfl
    · split
      · rfl
      · rfl

theorem deleteFile_keeps (net : Net) (confirmed : Bool) (c : Client) :
    (deleteFile net confirmed c).app.isAdmin = c.app.isAdmin ∧
    (deleteFile net confirmed c).app.currentView = c.app.currentView ∧
    (deleteFile net confirmed c).app.currentFilePath = c.app.currentFilePath := by
  unfold deleteFile
  split
  · exact ⟨rfl, rfl, rfl⟩
  · exact ⟨rfl, rfl, rfl⟩
  · simp only []
    split
    · exact ⟨rfl, rfl, rfl⟩
    · split
      · exact ⟨rfl, rfl, rfl⟩
      · split
        · exact ⟨rfl, rfl, rfl⟩
        · simp only [updateBackButton_app]
          exact ⟨(navigateToPath_keeps net _ false _).1, (navigateToPath_keeps net _ false _).2.1,
            (navigateToPath_keeps net _ false _).2.2.1⟩

theorem handleUpload_app (net : Net) (fileSelected : Bool) (c : Client) :
    (handleUpload net fileSelected c).app = c.app := by
  unfold handleUpload
  cases fileSelected with
  | false => rfl
  | true =>
    simp only [Bool.not_true, Bool.false_eq_true, if_false]
    cases net .upload with
    | error message => rfl
    | ok response =>
      simp only []
      split
      · rw [loadDirectory_app]
      · rfl

/-- No action assigns `currentFilePath`. -/
theorem step_currentFilePath (c : Client) (a : Action) :
    (step c a).app.currentFilePath = c.app.currentFilePath := by
  cases a with
  | domContentLoaded => rfl
  | showHome => rfl
  | showLibrary net => exact (navigateToPath_keeps net [] false _).2.2.1
  | showUpload =>
    show (showUpload c).app.currentFilePath = _
    unfold showUpload
    split <;> rfl
  | showAdminModal => rfl
  | closeAdminModal => rfl
  | checkAdminPassword password =>
    show (checkAdminPassword password c).app.currentFilePath = _
    unfold checkAdminPassword showUpload
    split
    · split <;> rfl
    · rfl
  | navigateToPath net path addToHistory => exact (navigateToPath_keeps net path addToHistory c).2.2.1
  | loadDirectory net path => exact congrArg _ (loadDirectory_app net path c)
  | loadFile net filePath addToHistory => exact (loadFile_keeps net filePath addToHistory c).2.2.1
  | goBack net => exact (goBack_keeps net c).2.2.1
  | editFile markdownText => rfl
  | saveFile net => exact congrArg _ (saveFile_app net c)
  | cancelEdit => rfl
  | deleteFile net confirmed => exact (deleteFile_keeps net confirmed c).2.2
  | handleUpload net fileSelected => exact congrArg _ (handleUpload_app net fileSelected c)

theorem run_append (c : Client) (as bs : List Action) :
    run c (as ++ bs) = run (run c as) bs := by
  simp [run, List.foldl_append]

theorem run_currentFilePath (c : Client) (actions : List Action) :
    (run c actions).app.currentFilePath = c.app.currentFilePath := by
  induction actions generalizing c with
  | nil => rfl
  | cons a rest ih =>
    show (run (step c a) rest).app.currentFilePath = _
    rw [ih, step_currentFilePath]

/-! ## The history stack -/

/-- C12, the claim as stated fails: once the page has loaded the current
state is the home state, and `showLibrary` enters the library without pushing
it: the history is as empty afterwards as it was before. -/
theorem C12_showLibrary_pushes_nothing :
    (domContentLoaded initialClient).app.currentState = some ⟨.home, none, .home⟩ ∧
    (domContentLoaded initialClient).app.navigationHistory = [] ∧
    (showLibrary sampleNet (domContentLoaded initialClient)).app.currentState
      = some ⟨.folder, some LibraryFolder, .library⟩ ∧
    (showLibrary sampleNet (domContentLoaded initialClient)).app.navigationHistory = [] := by
  decide

/-- C12, amended: when a current state `cur` is set, `navigateToPath` and
`loadFile` called with `addToHistory` true (their default) append exactly one
entry, equal to `cur`, and leave the entries already on the stack as they
were; called with `addToHistory` false they leave the stack as it was, and so
does `showLibrary`, which navigates with `addToHistory` false; `goBack` appends
nothing: the stack after it is the stack before without its top entry. -/
theorem C12_push_previous_state (net : Net) (c : Client) (cur : NavState) (p : Str)
    (hcur : c.app.currentState = some cur) :
    (navigateToPath net p true c).app.navigationHistory = c.app.navigationHistory ++ [cur] ∧
    (loadFile net p true c).app.navigationHistory = c.app.navigationHistory ++ [cur] ∧
    (navigateToPath net p false c).app.navigationHistory = c.app.navigationHistory ∧
    (loadFile net p false c).app.navigationHistory = c.app.navigationHistory ∧
    (showLibrary net c).app.navigationHistory = c.app.navigationHistory ∧
    (goBack net c).app.navigationHistory = c.app.navigationHistory.dropLast := by
  refine ⟨?_, ?_, ?_, ?_, ?_, (goBack_keeps net c).2.2.2⟩
  · rw [navigateToPath_history, pushCurrent_true c.app cur hcur]
  · rw [loadFile_history, pushCurrent_true c.app cur hcur]
  · rw [navigateToPath_history, pushCurrent_false]
  · rw [loadFile_history, pushCurrent_false]
  · unfold showLibrary
    rw [navigateToPath_history, pushCurrent_false]

theorem C12_push_previous_state_witness :
    libraryClient.app.currentState = some ⟨.folder, some LibraryFolder, .library⟩ ∧
    (loadFile sampleNet "LibraryFolder/a.txt".toList true libraryClient).app.navigationHistory
      = libraryClient.app.navigationHistory ++ [⟨.folder, some LibraryFolder, .library⟩] :=
  ⟨by decide,
   (C12_push_previous_state sampleNet libraryClient ⟨.folder, some LibraryFolder, .library⟩
      "LibraryFolder/a.txt".toList (by decide)).2.1⟩

theorem replaceFirst_prefix (pat rest : Str) :
    replaceFirst pat [] (pat ++ rest) = rest := by
  cases h : pat ++ rest with
  | nil =>
    have h1 : pat = [] := (List.append_eq_nil.1 h).1
    have h2 : rest = [] := (List.append_eq_nil.1 h).2
    simp [replaceFirst, h1, h2]
  | cons a as =>
    have hp : pat.isPrefixOf (a :: as) = true := by
      rw [← h]; exact List.isPrefixOf_iff_prefix.2 (List.prefix_append pat rest)
    simp only [replaceFirst, hp, if_true, List.nil_append]
    rw [← h]
    simp

/-- Going back to a folder below the root does restore it: a folder entry
whose path is `LibraryFolder/` followed by a non-empty `r` makes the listing of
that very path current. -/
theorem goBack_folder_below_root (net : Net) (c : Client) (older : List NavState)
    (r : Str) (view : View) (hr : r ≠ [])
    (hh : c.app.navigationHistory
      = older ++ [⟨.folder, some ("LibraryFolder/".toList ++ r), view⟩]) :
    (goBack net c).app.currentPath = "LibraryFolder/".toList ++ r ∧
    (goBack net c).app.currentState
      = some ⟨.folder, some ("LibraryFolder/".toList ++ r), .library⟩ ∧
    (goBack net c).app.navigationHistory = older := by
  have hl : c.app.navigationHistory.getLast?
      = some ⟨.folder, some ("LibraryFolder/".toList ++ r), view⟩ := by
    rw [hh]; simp
  have hd : c.app.navigationHistory.dropLast = older := by
    rw [hh]; simp
  unfold goBack
  simp only [hl, updateBackButton_app, navigateToPath_app, pushCurrent_false, hd,
    replaceFirst_prefix]
  simp [hr, LibraryFolder]

/-- C13, `goBack` at a failing input: the folder `Z` has been opened from
the root listing, so the top of the history is the folder entry with path
`LibraryFolder`. `goBack` pops it, but the path has no `LibraryFolder/` to
remove, so it is passed on whole and `navigateToPath` puts `LibraryFolder/` in
front of it: the current path and state become `LibraryFolder/LibraryFolder`,
not the entry that was removed, and the listing that is requested does not
exist. -/
theorem C13_goBack_to_root_entry :
    folderClient.app.navigationHistory = [⟨.folder, some LibraryFolder, .library⟩] ∧
    (goBack sampleNet folderClient).app.navigationHistory = [] ∧
    (goBack sampleNet folderClient).app.currentPath = "LibraryFolder/LibraryFolder".toList ∧
    (goBack sampleNet folderClient).app.currentState
      = some ⟨.folder, some "LibraryFolder/LibraryFolder".toList, .library⟩ ∧
    (goBack sampleNet folderClient).dom.fileList = .error (httpErrorMessage 404) := by
  decide

/-- C14, open and back at a failing input: from the listing of the root
`LibraryFolder`, opening `LibraryFolder/a.txt` and going back leaves the
history as it was before the file was opened, but the current path and the
current state are `LibraryFolder/LibraryFolder`, not the root listing. From
the listing of `LibraryFolder/Z` the same two steps do come back to it. -/
theorem C14_open_then_back_from_root :
    libraryClient.app.currentPath = LibraryFolder ∧
    libraryClient.app.currentState = some ⟨.folder, some LibraryFolder, .library⟩ ∧
    (goBack sampleNet fileClient).app.navigationHistory = libraryClient.app.navigationHistory ∧
    (goBack sampleNet fileClient).app.currentPath = "LibraryFolder/LibraryFolder".toList ∧
    (goBack sampleNet fileClient).app.currentState
      = some ⟨.folder, some "LibraryFolder/LibraryFolder".toList, .library⟩ ∧
    (goBack sampleNet
        (loadFile sampleNet "LibraryFolder/Z/n.md".toList true folderClient)).app.currentState
      = folderClient.app.currentState ∧
    (goBack sampleNet
        (loadFile sampleNet "LibraryFolder/Z/n.md".toList true folderClient)).app.navigationHistory
      = folderClient.app.navigationHistory :=
  ⟨by decide, by decide, by decide, by decide, by decide, by decide, by decide⟩

/-! ## Delete and save from the viewer -/

/-- C15, `deleteFile` after any sequence of actions: no statement assigns
`AppState.currentFilePath`, so it is still `undefined`, and `deleteFile` stops
at its first test: it shows the alert "No file selected", sends no request and
leaves the state, the history included, as it was. So it is for the client that
has opened `LibraryFolder/a.txt`. -/
theorem C15_deleteFile_sends_nothing (actions : List Action) (net : Net) (confirmed : Bool) :
    (run initialClient actions).app.currentFilePath = none ∧
    deleteFile net confirmed (run initialClient actions)
      = { run initialClient actions with
          log := (run initialClient actions).log ++ [.alert "No file selected"] } ∧
    (deleteFile sampleNet true fileClient).log = fileClient.log ++ [.alert "No file selected"] ∧
    (deleteFile sampleNet true fileClient).app.navigationHistory
      = [⟨.folder, some LibraryFolder, .library⟩] := by
  have h : (run initialClient actions).app.currentFilePath = none :=
    run_currentFilePath initialClient actions
  refine ⟨h, ?_, by decide, by decide⟩
  unfold deleteFile
  rw [h]

/-- C16, `saveFile` after any sequence of actions: `AppState.currentFilePath`
is still `undefined`, so `saveFile` shows the alert "No file selected", sends
no request and leaves state and page as they were. So it is for the client
that has opened `LibraryFolder/a.txt` and entered edit mode. -/
theorem C16_saveFile_sends_nothing (actions : List Action) (net : Net) :
    saveFile net (run initialClient actions)
      = { run initialClient actions with
          log := (run initialClient actions).log ++ [.alert "No file selected"] } ∧
    (saveFile sampleNet (editFile id fileClient)).log
      = fileClient.log ++ [.alert "No file selected"] ∧
    (saveFile sampleNet (editFile id fileClient)).dom = (editFile id fileClient).dom := by
  have h : (run initialClient actions).app.currentFilePath = none :=
    run_currentFilePath initialClient actions
  refine ⟨?_, by decide, by decide⟩
  unfold saveFile
  rw [h]

/-! ## The admin gate -/

/-- What an action does to the admin flag and the view: the flag stays or is
set by the right password, and the view stays, or becomes one other than
upload, or becomes upload with the flag true. -/
theorem step_admin_view (c : Client) (a : Action) :
    ((step c a).app.isAdmin = c.app.isAdmin ∨
      (a = .checkAdminPassword ADMIN_PASSWORD ∧ (step c a).app.isAdmin = true)) ∧
    ((step c a).app.currentView = c.app.currentView ∨
      (step c a).app.currentView ≠ .upload ∨ (step c a).app.isAdmin = true) := by
  cases a with
  | domContentLoaded =>
    exact ⟨Or.inl rfl,
      Or.inr (Or.inl (by simp [step, domContentLoaded, updateBackButton, showHome]))⟩
  | showHome => exact ⟨Or.inl rfl, Or.inr (Or.inl (by simp [step, showHome]))⟩
  | showLibrary net =>
    refine ⟨Or.inl (navigateToPath_keeps net [] false _).1, Or.inr (Or.inl ?_)⟩
    show (showLibrary net c).app.currentView ≠ .upload
    unfold showLibrary
    rw [(navigateToPath_keeps net [] false _).2.1]
    simp
  | showUpload =>
    show ((showUpload c).app.isAdmin = _ ∨ _) ∧ ((showUpload c).app.currentView = _ ∨
      (showUpload c).app.currentView ≠ _ ∨ (showUpload c).app.isAdmin = _)
    unfold showUpload
    by_cases h : c.app.isAdmin = true
    · simp [h]
    · simp [h, showAdminModal]
  | showAdminModal => exact ⟨Or.inl rfl, Or.inl rfl⟩
  | closeAdminModal => exact ⟨Or.inl rfl, Or.inl rfl⟩
  | checkAdminPassword password =>
    show ((checkAdminPassword password c).app.isAdmin = _ ∨ _) ∧
      ((checkAdminPassword password c).app.currentView = _ ∨
        (checkAdminPassword password c).app.currentView ≠ _ ∨
        (checkAdminPassword password c).app.isAdmin = _)
    unfold checkAdminPassword
    by_cases h : password = ADMIN_PASSWORD
    · subst h
      refine ⟨Or.inr ⟨rfl, ?_⟩, Or.inr (Or.inr ?_)⟩
      · simp [step, checkAdminPassword, showUpload, closeAdminModal]
      · simp [showUpload, closeAdminModal]
    · simp [h]
  | navigateToPath net path addToHistory =>
    exact ⟨Or.inl (navigateToPath_keeps net path addToHistory c).1,
      Or.inl (navigateToPath_keeps net path addToHistory c).2.1⟩
  | loadDirectory net path =>
    exact ⟨Or.inl (congrArg _ (loadDirectory_app net path c)),
      Or.inl (congrArg _ (loadDirectory_app net path c))⟩
  | loadFile net filePath addToHistory =>
    exact ⟨Or.inl (loadFile_keeps net filePath addToHistory c).1,
      Or.inl (loadFile_keeps net filePath addToHistory c).2.1⟩
  | goBack net => exact ⟨Or.inl (goBack_keeps net c).1, Or.inl (goBack_keeps net c).2.1⟩
  | editFile markdownText => exact ⟨Or.inl rfl, Or.inl rfl⟩
  | saveFile net =>
    exact ⟨Or.inl (congrArg _ (saveFile_app net c)), Or.inl (congrArg _ (saveFile_app net c))⟩
  | cancelEdit => exact ⟨Or.inl rfl, Or.inl rfl⟩
  | deleteFile net confirmed =>
    exact ⟨Or.inl (deleteFile_keeps net confirmed c).1,
      Or.inl (deleteFile_keeps net confirmed c).2.1⟩
  | handleUpload net fileSelected =>
    exact ⟨Or.inl (congrArg _ (handleUpload_app net fileSelected c)),
      Or.inl (congrArg _ (handleUpload_app net fileSelected c))⟩

theorem step_keeps_gate (c : Client) (a : Action)
    (h : c.app.currentView = .upload → c.app.isAdmin = true) :
    (step c a).app.currentView = .upload → (step c a).app.isAdmin = true := by
  intro hv
  obtain ⟨hadmin, hview⟩ := step_admin_view c a
  rcases hview with hview | hview | hview
  · rcases hadmin with hadmin | ⟨_, hadmin⟩
    · rw [hadmin]; exact h (hview ▸ hv)
    · exact hadmin
  · exact absurd hv hview
  · exact hview

theorem run_keeps_gate (c : Client) (actions : List Action)
    (h : c.app.currentView = .upload → c.app.isAdmin = true) :
    (run c actions).app.currentView = .upload → (run c actions).app.isAdmin = true := by
  induction actions generalizing c with
  | nil => exact h
  | cons a rest ih => exact ih (step c a) (step_keeps_gate c a h)

/-- C17: the client starts with the admin flag false and the home view.
After every sequence of actions the view is upload only if the flag is true.
An action that turns the flag from false to true is `checkAdminPassword` with
the fixed password; with any other password it leaves the whole of `AppState`
as it was; and no action turns a true flag back to false. -/
theorem C17_admin_gate :
    (initialClient.app.isAdmin = false ∧ initialClient.app.currentView = .home) ∧
    (∀ actions : List Action, (run initialClient actions).app.currentView = .upload →
      (run initialClient actions).app.isAdmin = true) ∧
    (∀ (c : Client) (a : Action), c.app.isAdmin = false → (step c a).app.isAdmin = true →
      a = .checkAdminPassword ADMIN_PASSWORD) ∧
    (∀ (c : Client) (password : Str), password ≠ ADMIN_PASSWORD →
      (checkAdminPassword password c).app = c.app) ∧
    (∀ (c : Client) (a : Action), c.app.isAdmin = true → (step c a).app.isAdmin = true) := by
  refine ⟨⟨rfl, rfl⟩, fun actions => run_keeps_gate initialClient actions (by decide), ?_, ?_, ?_⟩
  · intro c a h0 h1
    rcases (step_admin_view c a).1 with h | ⟨h, _⟩
    · rw [h, h0] at h1; exact absurd h1 (by decide)
    · exact h
  · intro c password hne
    simp [checkAdminPassword, hne]
  · intro c a h1
    rcases (step_admin_view c a).1 with h | ⟨_, h⟩
    · rw [h]; exact h1
    · exact h

theorem C17_admin_gate_witness :
    (run initialClient [.domContentLoaded, .showUpload, .checkAdminPassword "guess".toList,
        .showUpload]).app.currentView ≠ .upload ∧
    (run initialClient [.domContentLoaded, .showUpload,
        .checkAdminPassword ADMIN_PASSWORD]).app.currentView = .upload ∧
    (run initialClient [.domContentLoaded, .showUpload,
        .checkAdminPassword ADMIN_PASSWORD]).app.isAdmin = true :=
  ⟨by decide, by decide,
   C17_admin_gate.2.1 [.domContentLoaded, .showUpload, .checkAdminPassword ADMIN_PASSWORD]
     (by decide)⟩

/-! ## Failed requests -/

/-- C18, the claim as stated fails: with the root listing current and every
request rejected, `loadFile` still makes the file the current state and pushes
the listing onto the history, and `navigateToPath` still moves the current path
and state to the folder and pushes the listing; only the stored original
content is as before. -/
theorem C18_failed_call_moves_state :
    (loadFile offlineNet "LibraryFolder/a.txt".toList true libraryClient).app.currentState
      = some ⟨.file, some "LibraryFolder/a.txt".toList, .file⟩ ∧
    libraryClient.app.currentState = some ⟨.folder, some LibraryFolder, .library⟩ ∧
    (loadFile offlineNet "LibraryFolder/a.txt".toList true libraryClient).app.navigationHistory
      = [⟨.folder, some LibraryFolder, .library⟩] ∧
    libraryClient.app.navigationHistory = [] ∧
    (loadFile offlineNet "LibraryFolder/a.txt".toList true libraryClient).app.originalFileContent
      = libraryClient.app.originalFileContent ∧
    (navigateToPath offlineNet "Z".toList true libraryClient).app.currentState
      = some ⟨.folder, some "LibraryFolder/Z".toList, .library⟩ ∧
    (navigateToPath offlineNet "Z".toList true libraryClient).app.navigationHistory
      = [⟨.folder, some LibraryFolder, .library⟩] := by
  decide

/-- C18, amended: a failed call is not rolled back. When the Read request of
`loadFile` fails (the fetch is rejected or the status is not ok), the stored
original content, the current path, the view and the admin flag are as before,
while the current state is the file and the history has received the push that
`addToHistory` asks for, exactly as on success. `navigateToPath` sets the
current path and state and makes its push before the List request is sent, so
`AppState` after it is the same whatever the answer. -/
theorem C18_failed_call_state (net : Net) (c : Client) (filePath path : Str)
    (addToHistory : Bool)
    (hfail : ∀ response, net (.file filePath) = .ok response → response.ok = false) :
    (loadFile net filePath addToHistory c).app
      = { pushCurrent addToHistory c.app with
          currentState := some ⟨.file, some filePath, .file⟩ } ∧
    (loadFile net filePath addToHistory c).app.originalFileContent
      = c.app.originalFileContent ∧
    (loadFile net filePath addToHistory c).dom.fileContent ≠ .loading ∧
    (∀ net2 : Net, (navigateToPath net path addToHistory c).app
      = (navigateToPath net2 path addToHistory c).app) := by
  have hl : (loadFile net filePath addToHistory c).app
      = { pushCurrent addToHistory c.app with
          currentState := some ⟨.file, some filePath, .file⟩ } ∧
      (loadFile net filePath addToHistory c).dom.fileContent ≠ .loading := by
    unfold loadFile
    cases hn : net (.file filePath) with
    | error message => exact ⟨rfl, by simp [updateBackButton]⟩
    | ok response =>
      have hf := hfail response hn
      simp only [hf]
      exact ⟨rfl, by simp [updateBackButton]⟩
  refine ⟨hl.1, ?_, hl.2, fun net2 => ?_⟩
  · rw [hl.1]
    exact (pushCurrent_fields addToHistory c.app).2.2.2.2.1
  · rw [navigateToPath_app, navigateToPath_app]

theorem C18_failed_call_state_witness :
    offlineNet (.file "LibraryFolder/b.txt".toList) = .error "Failed to fetch".toList ∧
    fileClient.app.originalFileContent = some "A".toList ∧
    (loadFile offlineNet "LibraryFolder/b.txt".toList true fileClient).app.originalFileContent
      = fileClient.app.originalFileContent :=
  ⟨rfl, by decide,
   (C18_failed_call_state offlineNet fileClient "LibraryFolder/b.txt".toList [] true
      (fun _ h => by simp [offlineNet] at h)).2.1⟩

/-! ## Edit mode -/

/-- C19, `editFile` at a failing input: `LibraryFolder/a.txt` is loaded with
its text `A`, then `LibraryFolder/zz.txt` is opened and the Read request fails
with 404. The open file is now `zz.txt` and the page shows the error message,
but the stored original content is still that of `a.txt`, and `editFile` puts
it into the editor. After a successful load of an empty file the editor is
empty. -/
theorem C19_editor_gets_earlier_file :
    (loadFile sampleNet "LibraryFolder/zz.txt".toList true fileClient).app.currentState
      = some ⟨.file, some "LibraryFolder/zz.txt".toList, .file⟩ ∧
    (loadFile sampleNet "LibraryFolder/zz.txt".toList true fileClient).dom.fileContent
      = .error "zz.txt".toList (httpErrorMessage 404) ∧
    (editFile id
        (loadFile sampleNet "LibraryFolder/zz.txt".toList true fileClient)).dom.fileContentEdit
      = "A".toList ∧
    (editFile id
        (loadFile sampleNet "LibraryFolder/zz.txt".toList true fileClient)).dom.editMode = true ∧
    (editFile id
        (loadFile (serverNet projectDir [(["proj".toList], .dir),
            (["proj".toList, "e.txt".toList], .file [])])
          "e.txt".toList true fileClient)).dom.fileContentEdit = [] :=
  ⟨by decide, by decide, by decide, by decide, by decide⟩

/-! ## Paths built from valid names -/

theorem splitSlash_ne_nil (s : Str) : splitSlash s ≠ [] := by
  cases s with
  | nil => simp [splitSlash]
  | cons c cs =>
    unfold splitSlash
    split
    · simp
    · split <;> simp

theorem splitSlash_cons_slash (cs : Str) : splitSlash ('/' :: cs) = [] :: splitSlash cs := by
  simp [splitSlash]

theorem splitSlash_cons_other (c : Char) (cs s : Str) (ss : List Str) (hc : c ≠ '/')
    (hs : splitSlash cs = s :: ss) : splitSlash (c :: cs) = (c :: s) :: ss := by
  simp [splitSlash, hc, hs]

theorem splitSlash_append_slash (a b : Str) :
    splitSlash (a ++ '/' :: b) = splitSlash a ++ splitSlash b := by
  induction a with
  | nil => simp [splitSlash]
  | cons c cs ih =>
    by_cases hc : c = '/'
    · subst hc
      rw [List.cons_append, splitSlash_cons_slash, splitSlash_cons_slash, ih]
      rfl
    · obtain ⟨s, ss, hs⟩ : ∃ s ss, splitSlash cs = s :: ss := by
        cases h : splitSlash cs with
        | nil => exact absurd h (splitSlash_ne_nil cs)
        | cons s ss => exact ⟨s, ss, rfl⟩
      rw [List.cons_append, splitSlash_cons_other c cs s ss hc hs,
        splitSlash_cons_other c (cs ++ '/' :: b) s (ss ++ splitSlash b) hc (by rw [ih, hs]; rfl)]
      rfl

theorem splitSlash_no_slash (s : Str) (h : '/' ∉ s) : splitSlash s = [s] := by
  induction s with
  | nil => rfl
  | cons c cs ih =>
    have hc : c ≠ '/' := fun e => h (by simp [e])
    have hcs : '/' ∉ cs := fun e => h (List.mem_cons_of_mem _ e)
    exact splitSlash_cons_other c cs cs [] hc (ih hcs)

theorem joinSlash_cons_cons (x y : Str) (ys : List Str) :
    joinSlash (x :: y :: ys) = x ++ '/' :: joinSlash (y :: ys) := rfl

theorem splitSlash_joinSlash (xs : List Str) (hne : xs ≠ []) (h : ∀ x ∈ xs, '/' ∉ x) :
    splitSlash (joinSlash xs) = xs := by
  induction xs with
  | nil => exact absurd rfl hne
  | cons x rest ih =>
    cases rest with
    | nil => exact splitSlash_no_slash x (h x (by simp))
    | cons y ys =>
      rw [joinSlash_cons_cons, splitSlash_append_slash, splitSlash_no_slash x (h x (by simp)),
        ih (by simp) (fun z hz => h z (List.mem_cons_of_mem _ hz))]
      rfl

theorem joinSlash_append_singleton (xs : List Str) (n : Str) (hne : xs ≠ []) :
    joinSlash (xs ++ [n]) = joinSlash xs ++ '/' :: n := by
  induction xs with
  | nil => exact absurd rfl hne
  | cons x rest ih =>
    cases rest with
    | nil => rfl
    | cons y ys =>
      rw [List.cons_append, List.cons_append, joinSlash_cons_cons, joinSlash_cons_cons,
        ← List.cons_append, ih (by simp)]
      simp

theorem joinSlash_ne_nil (xs : List Str) (hne : xs ≠ []) (h : ∀ x ∈ xs, x ≠ []) :
    joinSlash xs ≠ [] := by
  cases xs with
  | nil => exact absurd rfl hne
  | cons x rest =>
    cases rest with
    | nil => exact h x (by simp)
    | cons y ys => rw [joinSlash_cons_cons]; simp

theorem joinSlash_eq_nil_iff (xs : List Str) (h : ∀ x ∈ xs, x ≠ []) :
    joinSlash xs = [] ↔ xs = [] := by
  constructor
  · intro he
    by_contra hne
    exact joinSlash_ne_nil xs hne h he
  · intro he; subst he; rfl

theorem joinSlash_head (xs : List Str) (hne : xs ≠ []) (h : ∀ x ∈ xs, ValidName x) :
    (joinSlash xs).head? ≠ some '/' := by
  cases xs with
  | nil => exact absurd rfl hne
  | cons x rest =>
    obtain ⟨hx0, _, _, hxs⟩ := h x (by simp)
    cases x with
    | nil => exact absurd rfl hx0
    | cons c cs =>
      have hc : c ≠ '/' := fun e => hxs (by simp [e])
      cases rest with
      | nil => simpa [joinSlash] using hc
      | cons y ys => rw [joinSlash_cons_cons]; simpa using hc

theorem getLast?_ne_slash (x : Str) (hx : '/' ∉ x) : x.getLast? ≠ some '/' := by
  intro h
  exact hx (List.mem_of_getLast?_eq_some h)

theorem joinSlash_getLast (xs : List Str) (hne : xs ≠ []) (h : ∀ x ∈ xs, ValidName x) :
    (joinSlash xs).getLast? ≠ some '/' := by
  induction xs with
  | nil => exact absurd rfl hne
  | cons x rest ih =>
    cases rest with
    | nil => exact getLast?_ne_slash x (h x (by simp)).2.2.2
    | cons y ys =>
      have hrec := ih (by simp) (fun z hz => h z (List.mem_cons_of_mem _ hz))
      have hne2 : joinSlash (y :: ys) ≠ [] :=
        joinSlash_ne_nil _ (by simp) (fun z hz => (h z (List.mem_cons_of_mem _ hz)).1)
      rw [joinSlash_cons_cons]
      have : ('/' :: joinSlash (y :: ys)).getLast? = (joinSlash (y :: ys)).getLast? := by
        cases hj : joinSlash (y :: ys) with
        | nil => exact absurd hj hne2
        | cons a as => simp [List.getLast?_cons_cons]
      rw [List.getLast?_append_of_ne_nil _ (by simp), this]
      exact hrec

theorem normalizeStep_valid (b : Bool) (res : List Str) (seg : Str) (h : ValidName seg) :
    normalizeStep b res seg = seg :: res := by
  obtain ⟨h0, h1, h2, _⟩ := h
  simp [normalizeStep, h0, h1, h2]

theorem normalizeStep_nil (b : Bool) (res : List Str) : normalizeStep b res [] = res := by
  simp [normalizeStep]

theorem foldl_normalizeStep (b : Bool) (segs : List Str) (acc : List Str)
    (h : ∀ s ∈ segs, s = [] ∨ ValidName s) :
    segs.foldl (normalizeStep b) acc = (segs.filter (fun s => s ≠ [])).reverse ++ acc := by
  induction segs generalizing acc with
  | nil => rfl
  | cons s rest ih =>
    have hrest : ∀ t ∈ rest, t = [] ∨ ValidName t := fun t ht => h t (List.mem_cons_of_mem _ ht)
    rw [List.foldl_cons]
    rcases h s (by simp) with hs | hs
    · subst hs
      rw [normalizeStep_nil, ih acc hrest]
      simp
    · rw [normalizeStep_valid b acc s hs, ih (s :: acc) hrest]
      simp [hs.1]

theorem normalizeString_clean (path : Str) (b : Bool)
    (h : ∀ s ∈ splitSlash path, s = [] ∨ ValidName s) :
    normalizeString path b = pathKey path := by
  unfold normalizeString pathKey
  rw [foldl_normalizeStep b _ [] h]
  simp

theorem normalize_joinSlash (xs : List Str) (hne : xs ≠ []) (h : ∀ x ∈ xs, ValidName x) :
    normalize (joinSlash xs) = joinSlash xs := by
  have hsplit : splitSlash (joinSlash xs) = xs :=
    splitSlash_joinSlash xs hne (fun x hx => (h x hx).2.2.2)
  have hj : joinSlash xs ≠ [] := joinSlash_ne_nil xs hne (fun x hx => (h x hx).1)
  have hhead := joinSlash_head xs hne h
  have hlast := joinSlash_getLast xs hne h
  have hkey : pathKey (joinSlash xs) = xs := by
    unfold pathKey
    rw [hsplit]
    exact List.filter_eq_self.2 (fun x hx => by simpa using (h x hx).1)
  have hns : normalizeString (joinSlash xs) true = xs := by
    rw [normalizeString_clean _ _ (by rw [hsplit]; exact fun s hs => Or.inr (h s hs)), hkey]
  unfold normalize
  simp [hj, hhead, hlast, hns]

theorem pathKey_absolute (ys : List Str) (h : ∀ y ∈ ys, ValidName y) :
    pathKey ('/' :: joinSlash ys) = ys := by
  unfold pathKey
  rw [splitSlash_cons_slash]
  cases ys with
  | nil => simp [joinSlash, splitSlash]
  | cons y rest =>
    rw [splitSlash_joinSlash _ (by simp) (fun x hx => (h x hx).2.2.2)]
    rw [List.filter_cons_of_neg (by simp)]
    exact List.filter_eq_self.2 (fun x hx => by simpa using (h x hx).1)

/-- Joining a clean absolute directory with a relative path made of valid
names puts the names behind those of the directory. -/
theorem join_absolute (dirname : Str) (segs : List Str) (hd : CleanAbsolute dirname)
    (hne : segs ≠ []) (h : ∀ x ∈ segs, ValidName x) :
    join dirname (joinSlash segs) = '/' :: joinSlash (pathKey dirname ++ segs) := by
  obtain ⟨hhead, hvalid⟩ := hd
  have hdne : dirname ≠ [] := by
    intro e; rw [e] at hhead; simp at hhead
  have hj : joinSlash segs ≠ [] := joinSlash_ne_nil segs hne (fun x hx => (h x hx).1)
  have hlast : (dirname ++ '/' :: joinSlash segs).getLast? ≠ some '/' := by
    have e : dirname ++ '/' :: joinSlash segs = (dirname ++ ['/']) ++ joinSlash segs := by simp
    rw [e, List.getLast?_append_of_ne_nil _ hj]
    exact joinSlash_getLast segs hne h
  have hhead2 : (dirname ++ '/' :: joinSlash segs).head? = some '/' := by
    cases dirname with
    | nil => exact absurd rfl hdne
    | cons c cs => simpa using hhead
  have hsplit : splitSlash (dirname ++ '/' :: joinSlash segs) = splitSlash dirname ++ segs := by
    rw [splitSlash_append_slash, splitSlash_joinSlash segs hne (fun x hx => (h x hx).2.2.2)]
  have hkey : pathKey (dirname ++ '/' :: joinSlash segs) = pathKey dirname ++ segs := by
    unfold pathKey
    rw [hsplit, List.filter_append]
    congr 1
    exact List.filter_eq_self.2 (fun x hx => by simpa using (h x hx).1)
  have hsegs : ∀ s ∈ splitSlash (dirname ++ '/' :: joinSlash segs), s = [] ∨ ValidName s := by
    intro s hs
    rw [hsplit] at hs
    rcases List.mem_append.1 hs with hs | hs
    · by_cases h0 : s = []
      · exact Or.inl h0
      · exact Or.inr (hvalid s (by unfold pathKey; simp [hs, h0]))
    · exact Or.inr (h s hs)
  have hns : normalizeString (dirname ++ '/' :: joinSlash segs) false
      = pathKey dirname ++ segs := by
    rw [normalizeString_clean _ _ hsegs, hkey]
  have hres : joinSlash (pathKey dirname ++ segs) ≠ [] := by
    apply joinSlash_ne_nil
    · simp [hne]
    · intro x hx
      rcases List.mem_append.1 hx with hx | hx
      · exact (hvalid x hx).1
      · exact (h x hx).1
  have hlast2 : ('/' :: joinSlash segs).getLast? ≠ some '/' := by
    have hl := joinSlash_getLast segs hne h
    cases hjs : joinSlash segs with
    | nil => exact absurd hjs hj
    | cons a as =>
      rw [hjs] at hl
      rw [List.getLast?_cons_cons]
      exact hl
  unfold join
  rw [if_neg hdne, if_neg hj]
  unfold normalize
  simp [hhead2, hlast, hlast2, hns, hres]

theorem pathKey_join_absolute (dirname : Str) (segs : List Str) (hd : CleanAbsolute dirname)
    (hne : segs ≠ []) (h : ∀ x ∈ segs, ValidName x) :
    pathKey (join dirname (joinSlash segs)) = pathKey dirname ++ segs := by
  rw [join_absolute dirname segs hd hne h]
  apply pathKey_absolute
  intro y hy
  rcases List.mem_append.1 hy with hy | hy
  · exact hd.2 y hy
  · exact h y hy

theorem join_relative (segs : List Str) (nm : Str) (hne : segs ≠ [])
    (h : ∀ x ∈ segs, ValidName x) (hnm : ValidName nm) :
    join (joinSlash segs) nm = joinSlash (segs ++ [nm]) := by
  have hj : joinSlash segs ≠ [] := joinSlash_ne_nil segs hne (fun x hx => (h x hx).1)
  unfold join
  rw [if_neg hj, if_neg hnm.1, ← joinSlash_append_singleton segs nm hne]
  apply normalize_joinSlash
  · simp
  · intro x hx
    rcases List.mem_append.1 hx with hx | hx
    · exact h x hx
    · rw [List.mem_singleton.1 hx]; exact hnm

/-! ## The walk of the folders route -/

theorem childName_eq_some (k key : List Str) (nm : Str) :
    childName k key = some nm ↔ key = k ++ [nm] := by
  unfold childName
  constructor
  · intro h
    by_cases hk : key.dropLast = k
    · rw [if_pos hk] at h
      rw [← hk]
      exact (List.dropLast_append_getLast? nm (by simp [h])).symm
    · rw [if_neg hk] at h
      exact absurd h (by simp)
  · intro h
    subst h
    simp

theorem lookup_of_mem (fs : FS) (k : List Str) (n : Node) (hnd : (fs.map Prod.fst).Nodup)
    (h : (k, n) ∈ fs) : lookup fs k = some n := by
  induction fs with
  | nil => simp at h
  | cons e rest ih =>
    obtain ⟨k1, n1⟩ := e
    rw [List.map_cons, List.nodup_cons] at hnd
    rw [lookup_cons]
    rcases List.mem_cons.1 h with h | h
    · injection h with h1 h2
      subst h1; subst h2
      simp
    · have hne : k1 ≠ k := by
        intro e
        subst e
        exact hnd.1 (List.mem_map.2 ⟨(k1, n), h, rfl⟩)
      rw [if_neg hne]
      exact ih hnd.2 h

theorem mem_of_lookup (fs : FS) (k : List Str) (n : Node) (h : lookup fs k = some n) :
    (k, n) ∈ fs := by
  induction fs with
  | nil => simp [lookup] at h
  | cons e rest ih =>
    obtain ⟨k1, n1⟩ := e
    rw [lookup_cons] at h
    by_cases hk : k1 = k
    · rw [if_pos hk] at h
      injection h with h
      subst hk; subst h
      simp
    · rw [if_neg hk] at h
      exact List.mem_cons_of_mem _ (ih h)

theorem length_le_maxDepth (fs : FS) (e : List Str × Node) (h : e ∈ fs) :
    e.1.length ≤ maxDepth fs := by
  unfold maxDepth
  induction fs with
  | nil => simp at h
  | cons e1 rest ih =>
    rw [List.map_cons, List.foldr_cons]
    rcases List.mem_cons.1 h with h | h
    · subst h; exact Nat.le_max_left _ _
    · exact Nat.le_trans (ih h) (Nat.le_max_right _ _)

theorem isDirectory_eq_true (n : Node) : n.isDirectory = true ↔ n = .dir := by
  cases n <;> simp [Node.isDirectory]

theorem readdir_of_lookup_dir (fs : FS) (p : Str) (h : lookup fs (pathKey p) = some .dir) :
    readdir fs p
      = some (fs.filterMap (fun e => (childName (pathKey p) e.1).map (fun nm => (nm, e.2)))) := by
  simp only [readdir, h]

/-- The loop of `getFolders` over the entries of the directory at `k`: when
every recursive call on a subfolder `nm` finishes with `sub nm`, the loop
finishes, and it has pushed, for each subfolder in directory-read order, the
entry of the subfolder followed by `sub nm`. -/
theorem foldl_getFoldersItem (recurse : Str → Str → Walk) (dir basePath : Str)
    (k : List Str) (sub : Str → List FolderEntry) (es : FS) (acc : List FolderEntry)
    (hrec : ∀ e ∈ es, e.2.isDirectory = true → ∀ nm, childName k e.1 = some nm →
      recurse (join dir nm) (if basePath ≠ [] then basePath ++ '/' :: nm else nm)
        = .done (sub nm)) :
    (es.filterMap (fun e => (childName k e.1).map (fun nm => (nm, e.2)))).foldl
        (getFoldersItem recurse dir basePath) (.done acc)
      = .done (acc ++
          (es.filterMap (fun e => if e.2.isDirectory then childName k e.1 else none)).flatMap
            (fun nm =>
              (⟨nm,
                if (if basePath ≠ [] then basePath ++ '/' :: nm else nm) = LibraryFolder
                then LibraryFolder
                else LibraryFolder ++ '/' :: (if basePath ≠ [] then basePath ++ '/' :: nm else nm)⟩
                  : FolderEntry) :: sub nm)) := by
  induction es generalizing acc with
  | nil => simp
  | cons e rest ih =>
    have hrest : ∀ e' ∈ rest, e'.2.isDirectory = true → ∀ nm, childName k e'.1 = some nm →
        recurse (join dir nm) (if basePath ≠ [] then basePath ++ '/' :: nm else nm)
          = .done (sub nm) :=
      fun e' he' => hrec e' (List.mem_cons_of_mem _ he')
    cases hc : childName k e.1 with
    | none =>
      rw [List.filterMap_cons_none (by simp [hc]), List.filterMap_cons_none (by simp [hc])]
      exact ih acc hrest
    | some nm =>
      rw [List.filterMap_cons_some (b := (nm, e.2)) (by simp [hc]), List.foldl_cons]
      by_cases hd : e.2.isDirectory = true
      · have hcall := hrec e (by simp) hd nm hc
        rw [List.filterMap_cons_some (b := nm) (by simp [hd, hc])]
        have hstep : getFoldersItem recurse dir basePath (.done acc) (nm, e.2)
            = .done (acc ++
                (⟨nm,
                  if (if basePath ≠ [] then basePath ++ '/' :: nm else nm) = LibraryFolder
                  then LibraryFolder
                  else LibraryFolder ++ '/' ::
                    (if basePath ≠ [] then basePath ++ '/' :: nm else nm)⟩ : FolderEntry)
                :: sub nm) := by
          simp only [getFoldersItem, hd, if_true, hcall]
        rw [hstep, ih _ hrest]
        simp
      · rw [List.filterMap_cons_none (by simp [hd])]
        have hstep : getFoldersItem recurse dir basePath (.done acc) (nm, e.2) = .done acc := by
          simp [getFoldersItem, hd]
        rw [hstep]
        exact ih acc hrest

theorem folderPath_eq (rel : List Str) (nm : Str) (hrel : ∀ x ∈ rel, x ≠ []) :
    (if joinSlash rel ≠ [] then joinSlash rel ++ '/' :: nm else nm) = joinSlash (rel ++ [nm]) := by
  by_cases hr : rel = []
  · subst hr
    simp [joinSlash]
  · rw [if_pos (joinSlash_ne_nil rel hr hrel), joinSlash_append_singleton rel nm hr]

theorem entryOf_snoc (rel : List Str) (nm : Str) :
    entryOf (rel ++ [nm])
      = ⟨nm, if joinSlash (rel ++ [nm]) = LibraryFolder then LibraryFolder
             else LibraryFolder ++ '/' :: joinSlash (rel ++ [nm])⟩ := by
  simp [entryOf]

theorem validName_LibraryFolder : ValidName LibraryFolder := by decide

/-- The walk and the pre-order agree: in a well-formed tree under a clean
project directory, `getFolders` called on the directory with segments `rel`
below the library root, with a recursion budget that reaches the bottom of the
tree, finishes and has pushed the entries of the pre-order beneath `rel`. -/
theorem getFolders_preorder (dirname : Str) (fs : FS) (hd : CleanAbsolute dirname)
    (hwf : WellFormed fs) :
    ∀ (fuel : Nat) (rel : List Str), (∀ x ∈ rel, ValidName x) →
      lookup fs (pathKey dirname ++ LibraryFolder :: rel) = some .dir →
      maxDepth fs < fuel + (pathKey dirname ++ LibraryFolder :: rel).length →
      getFolders dirname fs fuel (joinSlash (LibraryFolder :: rel)) (joinSlash rel)
        = .done ((preorder fs (pathKey dirname ++ [LibraryFolder]) fuel rel).map entryOf) := by
  intro fuel
  induction fuel with
  | zero =>
    intro rel _ hl hb
    have := length_le_maxDepth fs _ (mem_of_lookup fs _ _ hl)
    simp only [Nat.zero_add] at hb
    exact absurd this (Nat.not_le.2 hb)
  | succ n ih =>
    intro rel hv hl hb
    have hvalid : ∀ x ∈ LibraryFolder :: rel, ValidName x := by
      intro x hx
      rcases List.mem_cons.1 hx with hx | hx
      · rw [hx]; exact validName_LibraryFolder
      · exact hv x hx
    have hkey : pathKey (join dirname (joinSlash (LibraryFolder :: rel)))
        = pathKey dirname ++ LibraryFolder :: rel :=
      pathKey_join_absolute dirname (LibraryFolder :: rel) hd (by simp) hvalid
    have hroot : (pathKey dirname ++ [LibraryFolder]) ++ rel
        = pathKey dirname ++ LibraryFolder :: rel := by simp
    have hrec : ∀ e ∈ fs, e.2.isDirectory = true → ∀ nm,
        childName (pathKey dirname ++ LibraryFolder :: rel) e.1 = some nm →
        (fun d b => getFolders dirname fs n d b) (join (joinSlash (LibraryFolder :: rel)) nm)
            (if joinSlash rel ≠ [] then joinSlash rel ++ '/' :: nm else nm)
          = .done ((preorder fs (pathKey dirname ++ [LibraryFolder]) n (rel ++ [nm])).map
              entryOf) := by
      intro e he hdir nm hc
      have hek : e.1 = (pathKey dirname ++ LibraryFolder :: rel) ++ [nm] :=
        (childName_eq_some _ _ _).1 hc
      have hnm : ValidName nm := hwf.2.1 e he nm (by rw [hek]; simp)
      have hv2 : ∀ x ∈ rel ++ [nm], ValidName x := by
        intro x hx
        rcases List.mem_append.1 hx with hx | hx
        · exact hv x hx
        · rw [List.mem_singleton.1 hx]; exact hnm
      have he2 : e = ((pathKey dirname ++ LibraryFolder :: rel) ++ [nm], Node.dir) := by
        obtain ⟨k1, n1⟩ := e
        simp only at hek hdir
        rw [(isDirectory_eq_true n1).1 hdir, hek]
      have hl2 : lookup fs (pathKey dirname ++ LibraryFolder :: (rel ++ [nm])) = some .dir := by
        have := lookup_of_mem fs _ _ hwf.1 (he2 ▸ he)
        simpa using this
      have hb2 : maxDepth fs < n + (pathKey dirname ++ LibraryFolder :: (rel ++ [nm])).length := by
        simp only [List.length_append, List.length_cons, List.length_nil] at hb ⊢
        omega
      have := ih (rel ++ [nm]) hv2 hl2 hb2
      simp only []
      rw [join_relative (LibraryFolder :: rel) nm (by simp) hvalid hnm,
        folderPath_eq rel nm (fun x hx => (hv x hx).1)]
      exact this
    rw [getFolders, readdir_of_lookup_dir fs _ (by rw [hkey]; exact hl)]
    simp only []
    rw [hkey, foldl_getFoldersItem _ _ _ _ _ fs [] hrec]
    simp only [List.nil_append, preorder, List.map_flatMap, hroot, dirChildren]
    congr 1
    apply List.flatMap_congr
    intro nm _
    rw [folderPath_eq rel nm (fun x hx => (hv x hx).1), List.map_cons, entryOf_snoc]

/-! ## The pre-order lists every folder once -/

theorem mem_dirChildren (fs : FS) (k : List Str) (nm : Str) :
    nm ∈ dirChildren fs k ↔ (k ++ [nm], Node.dir) ∈ fs := by
  unfold dirChildren
  rw [List.mem_filterMap]
  constructor
  · rintro ⟨⟨k1, n1⟩, he, h⟩
    by_cases hdir : n1.isDirectory = true
    · simp only [hdir, if_true] at h
      rw [(childName_eq_some _ _ _).1 h, (isDirectory_eq_true n1).1 hdir] at he
      exact he
    · simp [hdir] at h
  · intro h
    exact ⟨(k ++ [nm], Node.dir), h, by simp [Node.isDirectory, (childName_eq_some _ _ _).2]⟩

theorem dirChildren_nodup (fs : FS) (k : List Str) (hnd : (fs.map Prod.fst).Nodup) :
    (dirChildren fs k).Nodup := by
  induction fs with
  | nil => simp [dirChildren]
  | cons e rest ih =>
    rw [List.map_cons, List.nodup_cons] at hnd
    have hrest : (dirChildren rest k).Nodup := ih hnd.2
    cases hg : (if e.2.isDirectory then childName k e.1 else none) with
    | none =>
      have : dirChildren (e :: rest) k = dirChildren rest k := by
        unfold dirChildren
        rw [List.filterMap_cons]
        simp only [hg]
      rw [this]; exact hrest
    | some nm =>
      have : dirChildren (e :: rest) k = nm :: dirChildren rest k := by
        unfold dirChildren
        rw [List.filterMap_cons]
        simp only [hg]
      rw [this, List.nodup_cons]
      refine ⟨fun hmem => ?_, hrest⟩
      have hin : (k ++ [nm], Node.dir) ∈ rest := (mem_dirChildren rest k nm).1 hmem
      have hek : e.1 = k ++ [nm] := by
        by_cases hdir : e.2.isDirectory = true
        · simp only [hdir, if_true] at hg
          exact (childName_eq_some _ _ _).1 hg
        · simp [hdir] at hg
      exact hnd.1 (List.mem_map.2 ⟨(k ++ [nm], Node.dir), hin, hek.symm⟩)

/-- Everything in the pre-order beneath `rel` is a directory of the tree that
lies strictly below `rel`. -/
theorem preorder_sound (fs : FS) (root : List Str) :
    ∀ (n : Nat) (rel rel2 : List Str), rel2 ∈ preorder fs root n rel →
      ∃ suffix, suffix ≠ [] ∧ rel2 = rel ++ suffix ∧ (root ++ rel2, Node.dir) ∈ fs := by
  intro n
  induction n with
  | zero => intro rel rel2 h; simp [preorder] at h
  | succ n ih =>
    intro rel rel2 h
    simp only [preorder, List.mem_flatMap, List.mem_cons] at h
    obtain ⟨nm, hnm, h⟩ := h
    have hchild : (root ++ rel ++ [nm], Node.dir) ∈ fs := (mem_dirChildren fs _ nm).1 hnm
    rcases h with h | h
    · subst h
      exact ⟨[nm], by simp, rfl, by simpa using hchild⟩
    · obtain ⟨suffix, _, hs, hmem⟩ := ih (rel ++ [nm]) rel2 h
      exact ⟨nm :: suffix, by simp, by rw [hs]; simp, hmem⟩

/-- In a well-formed tree every proper ancestor of a node, the top level
apart, is a directory. -/
theorem ancestor_is_dir (fs : FS) (hwf : WellFormed fs) :
    ∀ (m : Nat) (P suffix : List Str) (node : Node), suffix.length = m → P ≠ [] →
      suffix ≠ [] → (P ++ suffix, node) ∈ fs → lookup fs P = some .dir := by
  intro m
  induction m using Nat.strong_induction_on with
  | _ m ih =>
    intro P suffix node hlen hP hs hmem
    rcases List.eq_nil_or_concat suffix with h | ⟨init, last, h⟩
    · exact absurd h hs
    · rw [List.concat_eq_append] at h
      subst h
      have hdrop : (P ++ (init ++ [last])).dropLast = P ++ init := by
        rw [← List.append_assoc, List.dropLast_concat]
      rcases hwf.2.2 _ hmem with hc | hc
      · simp only [hdrop] at hc
        exact absurd (List.append_eq_nil.1 hc).1 hP
      · simp only [hdrop] at hc
        by_cases hi : init = []
        · subst hi; simpa using hc
        · exact ih init.length (by rw [← hlen]; simp) P init .dir rfl hP hi
            (mem_of_lookup fs _ _ hc)

/-- In a well-formed tree the pre-order beneath `rel` reaches every directory
that lies at most as many levels below `rel` as the bound allows. -/
theorem preorder_complete (fs : FS) (root : List Str) (hwf : WellFormed fs) :
    ∀ (n : Nat) (rel suffix : List Str), suffix ≠ [] → suffix.length ≤ n →
      (root ++ (rel ++ suffix), Node.dir) ∈ fs → rel ++ suffix ∈ preorder fs root n rel := by
  intro n
  induction n with
  | zero =>
    intro rel suffix hs hlen _
    exact absurd (List.length_eq_zero.1 (Nat.le_zero.1 hlen)) hs
  | succ n ih =>
    intro rel suffix hs hlen hmem
    cases suffix with
    | nil => exact absurd rfl hs
    | cons nm rest =>
      have hchild : (root ++ rel ++ [nm], Node.dir) ∈ fs := by
        by_cases hr : rest = []
        · subst hr; simpa using hmem
        · apply mem_of_lookup
          apply ancestor_is_dir fs hwf rest.length (root ++ rel ++ [nm]) rest .dir rfl
            (by simp) hr
          simpa using hmem
      simp only [preorder, List.mem_flatMap, List.mem_cons]
      refine ⟨nm, (mem_dirChildren fs _ nm).2 hchild, ?_⟩
      by_cases hr : rest = []
      · subst hr; exact Or.inl rfl
      · right
        have := ih (rel ++ [nm]) rest hr (by simpa using hlen) (by simpa using hmem)
        simpa using this

theorem preorder_nodup (fs : FS) (root : List Str) (hnd : (fs.map Prod.fst).Nodup) :
    ∀ (n : Nat) (rel : List Str), (preorder fs root n rel).Nodup := by
  intro n
  induction n with
  | zero => intro rel; simp [preorder]
  | succ n ih =>
    intro rel
    simp only [preorder]
    rw [List.nodup_flatMap]
    constructor
    · intro nm _
      rw [List.nodup_cons]
      refine ⟨fun hmem => ?_, ih (rel ++ [nm])⟩
      obtain ⟨suffix, hs, he, _⟩ := preorder_sound fs root n (rel ++ [nm]) _ hmem
      have : suffix = [] := by
        have := congrArg List.length he
        simp only [List.length_append] at this
        exact List.length_eq_zero.1 (by omega)
      exact hs this
    · refine (dirChildren_nodup fs (root ++ rel) hnd).imp ?_
      intro nm1 nm2 hne
      intro x h1 h2
      have hx : ∀ nm, x ∈ (rel ++ [nm]) :: preorder fs root n (rel ++ [nm]) →
          ∃ suffix, x = rel ++ nm :: suffix := by
        intro nm h
        rcases List.mem_cons.1 h with h | h
        · exact ⟨[], by rw [h]⟩
        · obtain ⟨suffix, _, he, _⟩ := preorder_sound fs root n (rel ++ [nm]) x h
          exact ⟨suffix, by rw [he]; simp⟩
      obtain ⟨s1, e1⟩ := hx nm1 h1
      obtain ⟨s2, e2⟩ := hx nm2 h2
      rw [e1] at e2
      have := List.append_cancel_left e2
      injection this with h _
      exact hne h

/-- Beyond the depth of the tree the bound of the pre-order makes no
difference. -/
theorem preorder_succ (fs : FS) (root : List Str) :
    ∀ (n : Nat) (rel : List Str), maxDepth fs < n + (root ++ rel).length →
      preorder fs root (n + 1) rel = preorder fs root n rel := by
  intro n
  induction n with
  | zero =>
    intro rel hb
    have hnone : dirChildren fs (root ++ rel) = [] := by
      apply List.eq_nil_iff_forall_not_mem.2
      intro nm hnm
      have := length_le_maxDepth fs _ ((mem_dirChildren fs _ nm).1 hnm)
      simp only [List.length_append, List.length_cons, List.length_nil] at this hb
      omega
    simp [preorder, hnone]
  | succ n ih =>
    intro rel hb
    rw [preorder, preorder]
    apply List.flatMap_congr
    intro nm _
    rw [ih (rel ++ [nm]) (by
      simp only [List.length_append, List.length_cons, List.length_nil] at hb ⊢
      omega)]

theorem preorder_stable (fs : FS) (root : List Str) (n m : Nat) (rel : List Str)
    (hb : maxDepth fs < n + (root ++ rel).length) (hnm : n ≤ m) :
    preorder fs root m rel = preorder fs root n rel := by
  induction m with
  | zero =>
    have : n = 0 := Nat.le_zero.1 hnm
    subst this; rfl
  | succ m ih =>
    by_cases h : n = m + 1
    · subst h; rfl
    · have hle : n ≤ m := by omega
      rw [preorder_succ fs root m rel (by omega), ih hle]

/-! ## Enumerate Folders -/

/-- C11, the claim as stated fails: for the library that holds nothing but
the nested folders `A/B`, the folders route answers with two entries, for
`LibraryFolder/A` and `LibraryFolder/A/B` in that order; the root
`LibraryFolder` itself has no entry. -/
theorem C11_root_has_no_entry :
    foldersRoute projectDir chainFS
      = some (⟨200, .folderList
          [⟨"A".toList, "LibraryFolder/A".toList⟩,
           ⟨"B".toList, "LibraryFolder/A/B".toList⟩]⟩, chainFS) := by
  decide

/-- C11, amended: in a well-formed tree under a clean project directory in
which `LibraryFolder` is a directory, the folders route answers 200, and its
entries are those of the directories strictly beneath `LibraryFolder` (the root
itself has none), one entry for each, in depth-first pre-order: each directory
before its subdirectories, siblings in directory-read order. The list `rels`
gives the segments of each listed directory below the root. -/
theorem C11_folders_preorder (dirname : Str) (fs : FS) (hd : CleanAbsolute dirname)
    (hwf : WellFormed fs)
    (hroot : lookup fs (pathKey dirname ++ [LibraryFolder]) = some .dir) :
    ∃ rels : List (List Str),
      foldersRoute dirname fs = some (⟨200, .folderList (rels.map entryOf)⟩, fs) ∧
      (∀ depth, maxDepth fs < depth →
        rels = preorder fs (pathKey dirname ++ [LibraryFolder]) depth []) ∧
      rels.Nodup ∧
      (∀ rel, rel ∈ rels ↔
        rel ≠ [] ∧ lookup fs (pathKey dirname ++ LibraryFolder :: rel) = some .dir) := by
  refine ⟨preorder fs (pathKey dirname ++ [LibraryFolder]) (maxDepth fs + 1) [], ?_, ?_,
    preorder_nodup fs _ hwf.1 _ _, ?_⟩
  · have h := getFolders_preorder dirname fs hd hwf (maxDepth fs + 1) [] (by simp) hroot
      (by omega)
    simp only [joinSlash] at h
    unfold foldersRoute
    rw [h]
  · intro depth hdepth
    exact (preorder_stable fs _ (maxDepth fs + 1) depth [] (by omega) (by omega)).symm
  · intro rel
    constructor
    · intro hmem
      obtain ⟨suffix, hs, he, hin⟩ := preorder_sound fs _ _ [] rel hmem
      rw [List.nil_append] at he
      subst he
      refine ⟨hs, ?_⟩
      have := lookup_of_mem fs _ _ hwf.1 hin
      simpa using this
    · rintro ⟨hne, hl⟩
      have hin : (pathKey dirname ++ [LibraryFolder] ++ ([] ++ rel), Node.dir) ∈ fs := by
        have := mem_of_lookup fs _ _ hl
        simpa using this
      have hlen : rel.length ≤ maxDepth fs + 1 := by
        have := length_le_maxDepth fs _ hin
        simp only [List.length_append, List.length_cons, List.length_nil] at this
        omega
      have := preorder_complete fs _ hwf (maxDepth fs + 1) [] rel hne hlen hin
      simpa using this

theorem C11_folders_preorder_witness :
    CleanAbsolute projectDir ∧ WellFormed nestedFS ∧
    lookup nestedFS (pathKey projectDir ++ [LibraryFolder]) = some .dir ∧
    (foldersRoute projectDir nestedFS).isSome = true ∧
    foldersRoute projectDir nestedFS
      = some (⟨200, .folderList
          [⟨"A".toList, "LibraryFolder/A".toList⟩,
           ⟨"B".toList, "LibraryFolder/A/B".toList⟩,
           ⟨"C".toList, "LibraryFolder/C".toList⟩]⟩, nestedFS) :=
  ⟨by decide, by decide, by decide,
   (C11_folders_preorder projectDir nestedFS (by decide) (by decide) (by decide)).elim
     (fun _ h => by rw [h.1]; rfl),
   by decide⟩

/-- C20, the folders route at a failing input: the library holds a folder
that is itself named `LibraryFolder`, with a folder `x` in it. The entry for
the directory at `LibraryFolder` below the root has the path `LibraryFolder`,
which is the path of the root, not `LibraryFolder/LibraryFolder`; the entry
for `x` inside it has the path `LibraryFolder/LibraryFolder/x`. -/
theorem C20_name_clash_entry :
    lookup nameClashFS (pathKey projectDir ++ [LibraryFolder, LibraryFolder]) = some .dir ∧
    foldersRoute projectDir nameClashFS
      = some (⟨200, .folderList
          [⟨LibraryFolder, LibraryFolder⟩,
           ⟨"x".toList, "LibraryFolder/LibraryFolder/x".toList⟩]⟩, nameClashFS) ∧
    entryOf [LibraryFolder] = ⟨LibraryFolder, LibraryFolder⟩ ∧
    join projectDir (entryOf [LibraryFolder]).path = join projectDir LibraryFolder :=
  ⟨by decide, by decide, by decide, by decide⟩

/-! ## The serverless handlers and the routes -/

/-- On every method but `OPTIONS` the handler of `api/list.js` answers as the
list route does, with the CORS headers set. -/
theorem ApiList_handler_eq (cwd : Str) (fs : FS) (method : String) (queryPath : Option Str)
    (hm : method ≠ "OPTIONS") :
    ApiList.handler cwd fs method queryPath
      = (⟨corsHeaders, (listRoute cwd fs queryPath).1.status,
          some (listRoute cwd fs queryPath).1.body⟩, (listRoute cwd fs queryPath).2) := by
  unfold ApiList.handler listRoute
  rw [if_neg hm]
  simp only []
  by_cases hin : startsWith (join cwd (orDefault queryPath LibraryFolder)) cwd = true
  · simp only [hin, Bool.not_true, Bool.false_eq_true, if_false]
    cases stat fs (join cwd (orDefault queryPath LibraryFolder)) with
    | none => rfl
    | some n =>
      cases n with
      | file c => rfl
      | other => rfl
      | dir =>
        simp only []
        cases readdir fs (join cwd (orDefault queryPath LibraryFolder)) with
        | none => rfl
        | some items => rfl
  · simp [hin]

/-- On every method but `OPTIONS` the handler of `api/file.js` answers as the
read route does, with the CORS headers set. -/
theorem ApiFile_handler_eq (cwd : Str) (fs : FS) (method : String) (queryPath : Option Str)
    (hm : method ≠ "OPTIONS") :
    ApiFile.handler cwd fs method queryPath
      = (⟨corsHeaders, (fileRoute cwd fs queryPath).1.status,
          some (fileRoute cwd fs queryPath).1.body⟩, (fileRoute cwd fs queryPath).2) := by
  unfold ApiFile.handler fileRoute
  rw [if_neg hm]
  cases queryPath with
  | none => rfl
  | some P =>
    cases P with
    | nil => rfl
    | cons a as =>
      simp only []
      by_cases hin : startsWith (join cwd (a :: as)) cwd = true
      · simp only [hin, Bool.not_true, Bool.false_eq_true, if_false]
        cases stat fs (join cwd (a :: as)) with
        | none => rfl
        | some n =>
          cases n with
          | dir => rfl
          | other => rfl
          | file c =>
            simp only []
            by_cases hb : toLowerCase (extname (a :: as)) ∈ binaryExtensions
            · have hb2 := hb
              unfold binaryExtensions at hb2
              simp only [hb, hb2, if_true]
            · have hb2 := hb
              unfold binaryExtensions at hb2
              simp only [hb, hb2, if_false]
              cases readFile fs (join cwd (a :: as)) with
              | none => rfl
              | some content => rfl
      · simp [hin]

/-- On `POST` the handler of `api/edit.js` answers as the edit route does,
with the CORS headers set. -/
theorem ApiEdit_handler_eq (cwd : Str) (fs : FS) (path content : Option Str) :
    ApiEdit.handler cwd fs "POST" path content
      = (⟨corsHeaders, (editRoute cwd fs path content).1.status,
          some (editRoute cwd fs path content).1.body⟩, (editRoute cwd fs path content).2) := by
  unfold ApiEdit.handler editRoute
  rw [if_neg (by decide), if_neg (by decide)]
  cases path with
  | none => rfl
  | some P =>
    cases P with
    | nil => rfl
    | cons a as =>
      cases content with
      | none => rfl
      | some c =>
        simp only []
        by_cases hin : startsWith (join cwd (a :: as)) cwd = true
        · simp only [hin, Bool.not_true, Bool.false_eq_true, if_false]
          cases stat fs (join cwd (a :: as)) with
          | none => rfl
          | some n =>
            cases n with
            | dir => rfl
            | other => rfl
            | file c0 =>
              simp only []
              by_cases he : toLowerCase (extname (a :: as)) ∈ editableExtensions
              · have he2 := he
                unfold editableExtensions at he2
                simp only [he, he2, not_true_eq_false, if_false]
                cases writeFile fs (join cwd (a :: as)) c with
                | none => rfl
                | some fs1 => rfl
              · have he2 := he
                unfold editableExtensions at he2
                simp only [he, he2, not_false_eq_true, if_true]
        · simp [hin]

/-- On `POST` the handler of `api/delete.js` answers as the delete route
does, with the CORS headers set. -/
theorem ApiDelete_handler_eq (cwd : Str) (fs : FS) (path : Option Str) :
    ApiDelete.handler cwd fs "POST" path
      = (⟨corsHeaders, (deleteRoute cwd fs path).1.status,
          some (deleteRoute cwd fs path).1.body⟩, (deleteRoute cwd fs path).2) := by
  unfold ApiDelete.handler deleteRoute
  rw [if_neg (by decide), if_neg (by decide)]
  cases path with
  | none => rfl
  | some P =>
    cases P with
    | nil => rfl
    | cons a as =>
      simp only []
      by_cases hin : startsWith (join cwd (a :: as)) cwd = true
      · simp only [hin, Bool.not_true, Bool.false_eq_true, if_false]
        by_cases hroot : join cwd (a :: as) = join cwd LibraryFolder
        · simp only [hroot, if_true]
        · simp only [hroot, if_false]
          cases stat fs (join cwd (a :: as)) with
          | none => rfl
          | some n =>
            cases n with
            | dir => rfl
            | other => rfl
            | file c0 =>
              simp only [Node.isFile, if_true]
              cases unlink fs (join cwd (a :: as)) with
              | none => rfl
              | some fs1 => rfl
      · simp [hin]

/-- The walk inside `api/folders.js` and the walk inside the folders route
are the same function. -/
theorem ApiFolders_getFolders_eq (cwd : Str) (fs : FS) :
    ∀ (fuel : Nat) (dir basePath : Str),
      ApiFolders.getFolders cwd fs fuel dir basePath = getFolders cwd fs fuel dir basePath := by
  intro fuel
  induction fuel with
  | zero => intro dir basePath; rfl
  | succ n ih =>
    intro dir basePath
    rw [ApiFolders.getFolders, getFolders]
    cases readdir fs (join cwd dir) with
    | none => rfl
    | some items =>
      simp only [ih]
      rfl

/-- On every method but `OPTIONS` the handler of `api/folders.js` answers as
the folders route does, with the CORS headers set. -/
theorem ApiFolders_handler_eq (cwd : Str) (fs : FS) (method : String) (hm : method ≠ "OPTIONS") :
    ApiFolders.handler cwd fs method
      = (foldersRoute cwd fs).map (fun r => (⟨corsHeaders, r.1.status, some r.1.body⟩, r.2)) := by
  unfold ApiFolders.handler foldersRoute
  rw [if_neg hm, ApiFolders_getFolders_eq]
  cases getFolders cwd fs (maxDepth fs + 1) LibraryFolder [] with
  | done folders => rfl
  | threw => rfl
  | outOfFuel => rfl

/-- In a well-formed tree under a clean project directory the folders route
gives an answer: the walk does not run out of its budget. -/
theorem foldersRoute_isSome (dirname : Str) (fs : FS) (hd : CleanAbsolute dirname)
    (hwf : WellFormed fs) : (foldersRoute dirname fs).isSome = true := by
  have hkey : pathKey (join dirname LibraryFolder) = pathKey dirname ++ [LibraryFolder] := by
    have := pathKey_join_absolute dirname [LibraryFolder] hd (by simp)
      (fun x hx => by rw [List.mem_singleton.1 hx]; exact validName_LibraryFolder)
    simpa [joinSlash] using this
  unfold foldersRoute
  by_cases hl : lookup fs (pathKey dirname ++ [LibraryFolder]) = some .dir
  · have h := getFolders_preorder dirname fs hd hwf (maxDepth fs + 1) [] (by simp) hl (by omega)
    simp only [joinSlash] at h
    rw [h]
    rfl
  · have hrd : readdir fs (join dirname LibraryFolder) = none := by
      unfold readdir
      rw [hkey]
      split
      · rename_i heq
        exact absurd heq hl
      · rfl
    rw [getFolders, hrd]
    rfl

/-- C21: with the working directory equal to the server's directory, the
handlers of `api/list.js`, `api/file.js` and `api/folders.js` on `GET` and the
handlers of `api/edit.js` and `api/delete.js` on `POST` send the status code
and the JSON body of the routes `/api/list`, `/api/file`, `/api/folders`,
`/api/edit` and `/api/delete` and leave the filesystem as those routes leave
it, for every filesystem and all request fields. The two folder walks end
alike, and in a well-formed tree under a clean directory both give an
answer. -/
theorem C21_handlers_agree_with_routes (cwd : Str) (fs : FS)
    (queryPath path content : Option Str) :
    ((ApiList.handler cwd fs "GET" queryPath).1.status = (listRoute cwd fs queryPath).1.status ∧
      (ApiList.handler cwd fs "GET" queryPath).1.body = some (listRoute cwd fs queryPath).1.body ∧
      (ApiList.handler cwd fs "GET" queryPath).2 = (listRoute cwd fs queryPath).2) ∧
    ((ApiFile.handler cwd fs "GET" queryPath).1.status = (fileRoute cwd fs queryPath).1.status ∧
      (ApiFile.handler cwd fs "GET" queryPath).1.body = some (fileRoute cwd fs queryPath).1.body ∧
      (ApiFile.handler cwd fs "GET" queryPath).2 = (fileRoute cwd fs queryPath).2) ∧
    ((ApiEdit.handler cwd fs "POST" path content).1.status
        = (editRoute cwd fs path content).1.status ∧
      (ApiEdit.handler cwd fs "POST" path content).1.body
        = some (editRoute cwd fs path content).1.body ∧
      (ApiEdit.handler cwd fs "POST" path content).2 = (editRoute cwd fs path content).2) ∧
    ((ApiDelete.handler cwd fs "POST" path).1.status = (deleteRoute cwd fs path).1.status ∧
      (ApiDelete.handler cwd fs "POST" path).1.body = some (deleteRoute cwd fs path).1.body ∧
      (ApiDelete.handler cwd fs "POST" path).2 = (deleteRoute cwd fs path).2) ∧
    ((ApiFolders.handler cwd fs "GET").map (fun r => (r.1.status, r.1.body, r.2))
      = (foldersRoute cwd fs).map (fun r => (r.1.status, some r.1.body, r.2))) ∧
    (CleanAbsolute cwd → WellFormed fs →
      (ApiFolders.handler cwd fs "GET").isSome = true ∧ (foldersRoute cwd fs).isSome = true) := by
  refine ⟨?_, ?_, ?_, ?_, ?_, ?_⟩
  · rw [ApiList_handler_eq cwd fs "GET" queryPath (by decide)]
    exact ⟨rfl, rfl, rfl⟩
  · rw [ApiFile_handler_eq cwd fs "GET" queryPath (by decide)]
    exact ⟨rfl, rfl, rfl⟩
  · rw [ApiEdit_handler_eq cwd fs path content]
    exact ⟨rfl, rfl, rfl⟩
  · rw [ApiDelete_handler_eq cwd fs path]
    exact ⟨rfl, rfl, rfl⟩
  · rw [ApiFolders_handler_eq cwd fs "GET" (by decide)]
    cases foldersRoute cwd fs with
    | none => rfl
    | some r => rfl
  · intro hd hwf
    have h := foldersRoute_isSome cwd fs hd hwf
    refine ⟨?_, h⟩
    rw [ApiFolders_handler_eq cwd fs "GET" (by decide)]
    cases hr : foldersRoute cwd fs with
    | none => rw [hr] at h; exact absurd h (by decide)
    | some r => rfl

theorem C21_handlers_agree_with_routes_witness :
    CleanAbsolute projectDir ∧ WellFormed nestedFS ∧
    (ApiFolders.handler projectDir nestedFS "GET").isSome = true ∧
    (ApiDelete.handler projectDir sampleFS "POST" (some "LibraryFolder/Z".toList)).2
      = (deleteRoute projectDir sampleFS (some "LibraryFolder/Z".toList)).2 ∧
    (ApiEdit.handler projectDir sampleFS "POST" (some "LibraryFolder/x.exe".toList)
        (some "hi".toList)).1.status = 400 :=
  ⟨by decide, by decide,
   ((C21_handlers_agree_with_routes projectDir nestedFS none none none).2.2.2.2.2
      (by decide) (by decide)).1,
   (C21_handlers_agree_with_routes projectDir sampleFS none (some "LibraryFolder/Z".toList)
      none).2.2.2.1.2.2,
   by decide⟩

/-! ## Back on an empty history -/

theorem loadDirectory_log (net : Net) (path : Str) (c : Client) :
    (loadDirectory net path c).log = c.log ++ [.fetch (.list path)] := by
  unfold loadDirectory
  cases net (.list path) with
  | error message => rfl
  | ok response =>
    by_cases hok : response.ok = true
    · simp only [hok]
      cases response.body <;> rfl
    · simp [hok]

/-- C22: on a client whose history is empty, `goBack` leaves the history
empty, makes `LibraryFolder` the current path and the folder listing of
`LibraryFolder` the current state, and sends one request, for the listing of
`LibraryFolder`; the view, the admin flag and the stored content stay as they
were. -/
theorem C22_goBack_on_empty_history (net : Net) (c : Client)
    (h : c.app.navigationHistory = []) :
    (goBack net c).app.navigationHistory = [] ∧
    (goBack net c).app.currentPath = LibraryFolder ∧
    (goBack net c).app.currentState = some ⟨.folder, some LibraryFolder, .library⟩ ∧
    (goBack net c).log = c.log ++ [.fetch (.list LibraryFolder)] ∧
    (goBack net c).app.currentView = c.app.currentView ∧
    (goBack net c).app.isAdmin = c.app.isAdmin ∧
    (goBack net c).app.originalFileContent = c.app.originalFileContent := by
  have hl : c.app.navigationHistory.getLast? = none := by rw [h]; rfl
  have hg : goBack net c = navigateToPath net [] false c := by
    unfold goBack
    rw [hl]
  rw [hg]
  obtain ⟨h1, h2, _, h4⟩ := navigateToPath_keeps net [] false c
  refine ⟨?_, ?_, ?_, ?_, h2, h1, h4⟩
  · rw [navigateToPath_history, pushCurrent_false, h]
  · rw [navigateToPath_app]; simp
  · rw [navigateToPath_app]; simp
  · unfold navigateToPath
    simp only [updateBackButton, loadDirectory_log]
    simp

theorem C22_goBack_on_empty_history_witness :
    (loadFile sampleNet "LibraryFolder/a.txt".toList false libraryClient).app.navigationHistory
      = [] ∧
    (loadFile sampleNet "LibraryFolder/a.txt".toList false libraryClient).app.currentState
      = some ⟨.file, some "LibraryFolder/a.txt".toList, .file⟩ ∧
    (goBack sampleNet
        (loadFile sampleNet "LibraryFolder/a.txt".toList false libraryClient)).app.currentPath
      = LibraryFolder ∧
    (goBack sampleNet
        (loadFile sampleNet "LibraryFolder/a.txt".toList false libraryClient)).app.currentState
      = some ⟨.folder, some LibraryFolder, .library⟩ :=
  ⟨by decide, by decide,
   (C22_goBack_on_empty_history sampleNet
      (loadFile sampleNet "LibraryFolder/a.txt".toList false libraryClient) (by decide)).2.1,
   (C22_goBack_on_empty_history sampleNet
      (loadFile sampleNet "LibraryFolder/a.txt".toList false libraryClient) (by decide)).2.2.1⟩

end OldBank
